import Mathlib

/-!
COOP / CINO: a shallow embedding of the doubly linked list of `cino_list.c` and of
utilities of `cino_utils.c`, `coop_utils.c` and `cino_string.c` (see the section on C
strings).

Node memory is modelled as an explicit heap (a list of cells addressed by
position, a released cell being `none`).  A C pointer is `Option Nat`
(`none` is `NULL`).  Every operation that dereferences a pointer returns
`Option`: the outer `none` stands for undefined behaviour (a `NULL` or
dangling dereference, a double free) or for a loop that does not finish.

The calls the list makes to caller-supplied callbacks (comparison,
destruction, matcher, visitor) are recorded, in order, in the store's log.

`int` and `size_t` values are modelled by `Int` and `Nat`; list sizes are
taken to stay below `INT_MAX`, so the conversions between the two are value
preserving.  `calloc` is taken to succeed.  Only `randint` is modelled with 32-bit `int`
arithmetic in which an overflow has no defined result.
-/

namespace COOP

/-! ## Data model -/

/-- A C pointer to a node: `none` is `NULL`, `some a` the address `a`. -/
abbrev Ptr := Option Nat

/-- The type-erased element handle `T` (`void *`): `none` is `NULL`. -/
abbrev T := Option Nat

/-- Element kinds.  Modelled from the spec: the header declaring `data_type_t` is
not part of the sources; the recognised kinds are the four named in the
documentation of `list_create`, any other enum value is `DATA_TYPE_OTHER`. -/
inductive data_type_t
  | DATA_TYPE_INT
  | DATA_TYPE_DOUBLE
  | DATA_TYPE_CHAR
  | DATA_TYPE_T
  | DATA_TYPE_OTHER (raw : Nat)
deriving DecidableEq, Repr

open data_type_t

/-- Modelled from the spec: `is_valid_cino_data_type` is declared in a header that is
not part of the sources; creation fails iff the kind is not a recognised one. -/
def is_valid_cino_data_type : data_type_t → Bool
  | DATA_TYPE_OTHER _ => false
  | _ => true

/-- Comparison callback `int (*)(const T, const T)`. -/
abbrev compare_t := T → T → Int

/-- Destruction callback `void (*)(T)`, identified by its address. -/
abbrev destroy_t := Nat

/-- Visitor callback `void (*)(T)`, identified by its address. -/
abbrev visit_t := Nat

/-- Matcher callback `bool (*)(const T)`. -/
abbrev match_t := T → Bool

/-- Calls made to caller-supplied callbacks. -/
inductive Event
  | compare (a b : T)
  | destroy (fn : destroy_t) (h : T)
  | matched (h : T)
  | visit (fn : visit_t) (h : T)
deriving DecidableEq, Repr

/-- The record `struct node_t`. -/
structure node_t where
  data : T
  prev : Ptr
  next : Ptr
deriving DecidableEq, Repr

/-- The record `struct list_t`. -/
structure list_t where
  head : Ptr
  tail : Ptr
  data_type : data_type_t
  size : Nat
  compare : compare_t
  destroy : destroy_t

/-- Node memory and the log of callback invocations. -/
structure Store where
  heap : List (Option node_t)
  log : List Event
deriving DecidableEq, Repr

namespace Store

/-- Dereference: `none` for `NULL`, an address never allocated, or a released cell. -/
def read (st : Store) (p : Ptr) : Option node_t :=
  match p with
  | none => none
  | some a => (st.heap[a]?).join

/-- Overwrite the cell `p` points to; undefined if `p` is not a live node. -/
def write (st : Store) (p : Ptr) (v : node_t) : Option Store :=
  match p with
  | none => none
  | some a =>
    match st.read (some a) with
    | none => none
    | some _ => some { st with heap := st.heap.set a (some v) }

/-- The library call `free(p)` on a non-null pointer to a live node. -/
def free (st : Store) (p : Ptr) : Option Store :=
  match p with
  | none => none
  | some a =>
    match st.read (some a) with
    | none => none
    | some _ => some { st with heap := st.heap.set a none }

/-- Assignment `p->prev = v`. -/
def set_prev (st : Store) (p : Ptr) (v : Ptr) : Option Store :=
  match st.read p with
  | none => none
  | some nd => st.write p { nd with prev := v }

/-- Assignment `p->next = v`. -/
def set_next (st : Store) (p : Ptr) (v : Ptr) : Option Store :=
  match st.read p with
  | none => none
  | some nd => st.write p { nd with next := v }

/-- Assignment `p->data = v`. -/
def set_data (st : Store) (p : Ptr) (v : T) : Option Store :=
  match st.read p with
  | none => none
  | some nd => st.write p { nd with data := v }

/-- Record a callback invocation. -/
def emit (st : Store) (e : Event) : Store :=
  { st with log := st.log ++ [e] }

end Store

/-! ## Operations of `cino_list.c` -/

/-- Source function `list_node_create`: a fresh cell holding `data`, both links `NULL`. -/
def list_node_create (data : T) (st : Store) : Ptr × Store :=
  (some st.heap.length, { st with heap := st.heap ++ [some ⟨data, none, none⟩] })

/-- Source function `list_is_empty`. -/
def list_is_empty (list : Option list_t) : Bool :=
  match list with
  | none => true
  | some l => l.size == 0

/-- Source function `list_size`. -/
def list_size (list : Option list_t) : Nat :=
  match list with
  | none => 0
  | some l => l.size

/-- The loop `for (i = 0; i < n; i++) node = node->next;`. -/
def walk_next (st : Store) : Nat → Ptr → Option Ptr
  | 0, node => some node
  | n + 1, node =>
    match st.read node with
    | none => none
    | some nd => walk_next st n nd.next

/-- The loop `for (i = 0; i < n; i++) node = node->prev;`. -/
def walk_prev (st : Store) : Nat → Ptr → Option Ptr
  | 0, node => some node
  | n + 1, node =>
    match st.read node with
    | none => none
    | some nd => walk_prev st n nd.prev

/-- Source function `list_get_node`. -/
def list_get_node (list : Option list_t) (index : Int) (st : Store) : Option Ptr :=
  match list with
  | none => some none
  | some l =>
    if 0 ≤ index ∧ index < (l.size : Int) then
      if index ≤ ((l.size / 2 : Nat) : Int) then
        match st.read l.head with
        | none => none
        | some hd => walk_next st index.toNat hd.next
      else
        match st.read l.tail with
        | none => none
        | some tl => walk_prev st (l.size - index.toNat - 1) tl.prev
    else some none

/-- Source function `list_get_front`. -/
def list_get_front (list : Option list_t) (st : Store) : Option T :=
  match list with
  | none => some none
  | some l =>
    if l.size > 0 then
      match st.read l.head with
      | none => none
      | some hd =>
        match st.read hd.next with
        | none => none
        | some nd => some nd.data
    else some none

/-- Source function `list_get_back`. -/
def list_get_back (list : Option list_t) (st : Store) : Option T :=
  match list with
  | none => some none
  | some l =>
    if l.size > 0 then
      match st.read l.tail with
      | none => none
      | some tl =>
        match st.read tl.prev with
        | none => none
        | some nd => some nd.data
    else some none

/-- Source function `list_get`. -/
def list_get (list : Option list_t) (index : Int) (st : Store) : Option T :=
  match list with
  | none => some none
  | some l =>
    if 0 ≤ index ∧ index < (l.size : Int) then
      match list_get_node (some l) index st with
      | none => none
      | some node =>
        match st.read node with
        | none => none
        | some nd => some nd.data
    else some none

/-- Source function `list_set`. -/
def list_set (list : Option list_t) (index : Int) (data : T) (st : Store) : Option Store :=
  match list with
  | none => some st
  | some l =>
    if 0 ≤ index ∧ index < (l.size : Int) then
      match list_get_node (some l) index st with
      | none => none
      | some node =>
        match st.read node with
        | none => none
        | some nd => (st.emit (.destroy l.destroy nd.data)).set_data node data
    else some st

/-- Source function `list_insert`.  The result is the record behind the returned pointer
together with the new store. -/
def list_insert (list : Option list_t) (index : Int) (data : T) (st : Store) :
    Option (Option list_t × Store) :=
  match list with
  | none => some (none, st)
  | some l =>
    if 0 ≤ index ∧ index ≤ (l.size : Int) ∧ data ≠ none then
      let (new_node, st1) := list_node_create data st
      if index = (l.size : Int) then do
        let st2 ← st1.set_next new_node l.tail
        let tl ← st2.read l.tail
        let st3 ← st2.set_prev new_node tl.prev
        let st4 ← st3.set_prev l.tail new_node
        let nn ← st4.read new_node
        let st5 ← st4.set_next nn.prev new_node
        some (some { l with size := l.size + 1 }, st5)
      else do
        let cur_node ← list_get_node (some l) index st1
        let cur ← st1.read cur_node
        let st2 ← st1.set_prev new_node cur.prev
        let st3 ← st2.set_next new_node cur_node
        let nn ← st3.read new_node
        let st4 ← st3.set_next nn.prev new_node
        let nn2 ← st4.read new_node
        let st5 ← st4.set_prev nn2.next new_node
        some (some { l with size := l.size + 1 }, st5)
    else some (some l, st)

/-- Source function `list_remove`.  The result is the returned handle, the list record
after the call, and the new store. -/
def list_remove (list : Option list_t) (index : Int) (st : Store) :
    Option (T × Option list_t × Store) :=
  match list with
  | none => some (none, none, st)
  | some l =>
    if 0 ≤ index ∧ index < (l.size : Int) ∧ l.size > 0 then do
      let node ← list_get_node (some l) index st
      let nd ← st.read node
      let removed := nd.data
      let st1 ← st.set_next nd.prev nd.next
      let nd1 ← st1.read node
      let st2 ← st1.set_prev nd1.next nd1.prev
      let st3 ← st2.set_prev node none
      let st4 ← st3.set_next node none
      let st5 ← st4.free node
      some (removed, some { l with size := l.size - 1 }, st5)
    else some (none, some l, st)

/-- Source function `list_push_front`. -/
def list_push_front (list : Option list_t) (data : T) (st : Store) :
    Option (Option list_t × Store) :=
  match list with
  | none => some (none, st)
  | some l =>
    if data ≠ none then list_insert (some l) 0 data st
    else some (some l, st)

/-- Source function `list_push_back`. -/
def list_push_back (list : Option list_t) (data : T) (st : Store) :
    Option (Option list_t × Store) :=
  match list with
  | none => some (none, st)
  | some l =>
    if data ≠ none then list_insert (some l) (l.size : Int) data st
    else some (some l, st)

/-- Source function `list_pop_front`. -/
def list_pop_front (list : Option list_t) (st : Store) :
    Option (T × Option list_t × Store) :=
  match list with
  | none => some (none, none, st)
  | some l =>
    if l.size > 0 then list_remove (some l) 0 st
    else some (none, some l, st)

/-- Source function `list_pop_back`. -/
def list_pop_back (list : Option list_t) (st : Store) :
    Option (T × Option list_t × Store) :=
  match list with
  | none => some (none, none, st)
  | some l =>
    if l.size > 0 then list_remove (some l) ((l.size : Int) - 1) st
    else some (none, some l, st)

/-- The loop of `list_clear`: `while (!list_is_empty(list)) { data = list_pop_front(list);
list->destroy(data); }`.  Every completed iteration lowers `size` by one, so `size`
iterations of fuel are enough; `none` also stands for fuel running out. -/
def list_clear_loop : Nat → list_t → Store → Option (list_t × Store)
  | fuel, l, st =>
    if list_is_empty (some l) then some (l, st)
    else
      match fuel with
      | 0 => none
      | fuel + 1 =>
        match list_pop_front (some l) st with
        | some (data, some l1, st1) =>
          list_clear_loop fuel l1 (st1.emit (.destroy l1.destroy data))
        | _ => none

/-- Source function `list_clear`. -/
def list_clear (list : Option list_t) (st : Store) : Option (Option list_t × Store) :=
  match list with
  | none => some (none, st)
  | some l => do
    let (l1, st1) ← list_clear_loop l.size l st
    let l2 := { l1 with size := 0 }
    let (l3, st3) ←
      (match l2.head with
       | some a => (st1.free (some a)).map (fun s => ({ l2 with head := none }, s))
       | none => some (l2, st1) : Option (list_t × Store))
    let (l4, st4) ←
      (match l3.tail with
       | some a => (st3.free (some a)).map (fun s => ({ l3 with tail := none }, s))
       | none => some (l3, st3) : Option (list_t × Store))
    some (some l4, st4)

/-- Source function `list_destroy`: clears the list, then releases the list record
(the record is gone afterwards, only the store remains). -/
def list_destroy (list : Option list_t) (st : Store) : Option Store :=
  match list with
  | none => some st
  | some l =>
    match list_clear (some l) st with
    | some (_, st1) => some st1
    | none => none

/-- Source function `list_create`.  The defaults `compare_default` and `destroy_default`
are defined outside the sources at hand and are taken as parameters. -/
def list_create (compare_default : compare_t) (destroy_default : destroy_t)
    (data_type : data_type_t) (compare : Option compare_t) (destroy : Option destroy_t)
    (st : Store) : Option (Option list_t × Store) :=
  if is_valid_cino_data_type data_type then
    let cmp := match compare with
      | some c => c
      | none => compare_default
    let des := match destroy with
      | some d => d
      | none => destroy_default
    let (head, st1) := list_node_create none st
    let (tail, st2) := list_node_create none st1
    let l : list_t := ⟨head, tail, data_type, 0, cmp, des⟩
    do
      let st3 ← st2.set_next l.head l.tail
      let st4 ← st3.set_prev l.tail l.head
      some (some l, st4)
  else some (none, st)

/-- The forward loop of `list_foreach`:
`while (cur && cur->next && cur->next != list->tail) { cur = cur->next; visit(cur->data); }`. -/
def foreach_forward (visit : visit_t) (tail : Ptr) : Nat → Ptr → Store → Option Store
  | _, none, st => some st
  | 0, some _, _ => none
  | fuel + 1, some a, st =>
    match st.read (some a) with
    | none => none
    | some c =>
      if c.next = none ∨ c.next = tail then some st
      else
        match st.read c.next with
        | none => none
        | some n => foreach_forward visit tail fuel c.next (st.emit (.visit visit n.data))

/-- The backward loop of `list_foreach`:
`while (cur && cur->prev && cur->prev != list->head) { cur = cur->prev; visit(cur->data); }`. -/
def foreach_backward (visit : visit_t) (head : Ptr) : Nat → Ptr → Store → Option Store
  | _, none, st => some st
  | 0, some _, _ => none
  | fuel + 1, some a, st =>
    match st.read (some a) with
    | none => none
    | some c =>
      if c.prev = none ∨ c.prev = head then some st
      else
        match st.read c.prev with
        | none => none
        | some n => foreach_backward visit head fuel c.prev (st.emit (.visit visit n.data))

/-- Source function `list_foreach`.  A chain without a cycle has at most as many nodes as
the heap has cells, which bounds the iterations of either loop. -/
def list_foreach (list : Option list_t) (visit : Option visit_t) (backward : Bool)
    (st : Store) : Option Store :=
  match list, visit with
  | some l, some v =>
    if ¬ backward then foreach_forward v l.tail (st.heap.length + 1) l.head st
    else foreach_backward v l.head (st.heap.length + 1) l.tail st
  | _, _ => some st

/-- The argument `void *context` of `list_index_of`: a matcher function for a generic
list, a boxed target handle for a primitive list. -/
inductive context_t
  | matcher (m : match_t)
  | target (h : Nat)

/-- The generic-kind loop of `list_index_of`; `i` is the running index, the result is
the final value of `index`. -/
def index_of_match (m : match_t) (tail : Ptr) : Nat → Ptr → Int → Store → Option (Int × Store)
  | _, none, _, st => some (-1, st)
  | 0, some _, _, _ => none
  | fuel + 1, some a, i, st =>
    match st.read (some a) with
    | none => none
    | some c =>
      if c.next = none ∨ c.next = tail then some (-1, st)
      else
        match st.read c.next with
        | none => none
        | some n =>
          let st1 := st.emit (.matched n.data)
          if m n.data then some (i, st1)
          else index_of_match m tail fuel c.next (i + 1) st1

/-- The primitive-kind loop of `list_index_of`. -/
def index_of_compare (compare : compare_t) (target : T) (tail : Ptr) :
    Nat → Ptr → Int → Store → Option (Int × Store)
  | _, none, _, st => some (-1, st)
  | 0, some _, _, _ => none
  | fuel + 1, some a, i, st =>
    match st.read (some a) with
    | none => none
    | some c =>
      if c.next = none ∨ c.next = tail then some (-1, st)
      else
        match st.read c.next with
        | none => none
        | some n =>
          let st1 := st.emit (.compare n.data target)
          if compare n.data target = 0 then some (i, st1)
          else index_of_compare compare target tail fuel c.next (i + 1) st1

/-- Source function `list_index_of`.  Passing a target handle to a generic list, or a
matcher to a primitive list, makes the code reinterpret the pointer: undefined. -/
def list_index_of (list : Option list_t) (context : Option context_t) (st : Store) :
    Option (Int × Store) :=
  match list, context with
  | some l, some ctx =>
    if l.data_type = DATA_TYPE_T then
      match ctx with
      | .matcher m => index_of_match m l.tail (st.heap.length + 1) l.head 0 st
      | .target _ => none
    else
      match ctx with
      | .target h =>
        match index_of_compare l.compare (some h) l.tail (st.heap.length + 1) l.head 0 st with
        | none => none
        | some (index, st1) => some (index, st1.emit (.destroy l.destroy (some h)))
      | .matcher _ => none
  | _, _ => some (-1, st)

/-! ## Well-formed chains -/

/-- A chain cell: the address of a node and the handle it carries. -/
abbrev Cell := Nat × T

/-- Pointer to the first cell of `cs`, or `n` when `cs` is empty. -/
def nextOf : List Cell → Ptr → Ptr
  | [], n => n
  | c :: _, _ => some c.1

/-- Pointer to the last cell of `cs`, or `p` when `cs` is empty. -/
def lastOf : List Cell → Ptr → Ptr
  | [], p => p
  | c :: cs, _ => lastOf cs (some c.1)

/-- The cells `cs` are live nodes linked consecutively in both directions; the first
one's `prev` is `p`, the last one's `next` is `n`. -/
def Seg (st : Store) : Ptr → List Cell → Ptr → Prop
  | _, [], _ => True
  | p, c :: cs, n => st.read (some c.1) = some ⟨c.2, p, nextOf cs n⟩ ∧ Seg st (some c.1) cs n

/-- The whole chain of a list: head sentinel, payload cells, tail sentinel. -/
def full (hd tl : Nat) (cells : List Cell) : List Cell :=
  (hd, none) :: cells ++ [(tl, none)]

/-- The record `l` and the store form a well-formed list whose sentinels live at `hd` and
`tl` and whose payload nodes are `cells`, in order. -/
def Chain (st : Store) (l : list_t) (hd tl : Nat) (cells : List Cell) : Prop :=
  l.head = some hd ∧ l.tail = some tl ∧ l.size = cells.length ∧
  ((full hd tl cells).map Prod.fst).Nodup ∧ Seg st none (full hd tl cells) none

/-- The list `l` holds the element sequence `s`. -/
def Holds (st : Store) (l : list_t) (s : List T) : Prop :=
  ∃ hd tl cells, Chain st l hd tl cells ∧ cells.map Prod.snd = s

/-! ## Harness definitions used to state the properties -/

/-- Push the handles `hs`, in order, to the back of the list in `acc`. -/
def push_all_back (acc : Option (Option list_t × Store)) (hs : List Nat) :
    Option (Option list_t × Store) :=
  hs.foldl (fun r h => r.bind (fun p => list_push_back p.1 (some h) p.2)) acc

/-- A comparison policy for the examples: handle `n` boxes the value `n % 100`. -/
def sample_compare : compare_t := fun a b =>
  match a, b with
  | some x, some y => ((x % 100 : Nat) : Int) - ((y % 100 : Nat) : Int)
  | _, _ => 1

/-- Example store: the character list `a`, `b`, `c` (handles 97, 98, 99), sentinels
at addresses 0 and 1. -/
def abc_store : Store :=
  ⟨[some ⟨none, none, some 2⟩, some ⟨none, some 4, none⟩, some ⟨some 97, some 0, some 3⟩,
    some ⟨some 98, some 2, some 4⟩, some ⟨some 99, some 3, some 1⟩], []⟩

/-- Example list record for `abc_store`. -/
def abc_list : list_t :=
  ⟨some 0, some 1, DATA_TYPE_CHAR, 3, sample_compare, 7⟩

/-- Example store: the integer list 3, 1, 4, 1, 5 (handles 103, 201, 304, 401, 505; handle
`n` boxes `n % 100`), sentinels at addresses 0 and 1. -/
def pi_store : Store :=
  ⟨[some ⟨none, none, some 2⟩, some ⟨none, some 6, none⟩, some ⟨some 103, some 0, some 3⟩,
    some ⟨some 201, some 2, some 4⟩, some ⟨some 304, some 3, some 5⟩,
    some ⟨some 401, some 4, some 6⟩, some ⟨some 505, some 5, some 1⟩], []⟩

/-- Example integer list record for `pi_store`. -/
def pi_list : list_t :=
  ⟨some 0, some 1, DATA_TYPE_INT, 5, sample_compare, 7⟩

/-- Example generic list record for `pi_store`. -/
def pi_generic : list_t :=
  ⟨some 0, some 1, DATA_TYPE_T, 5, sample_compare, 7⟩

/-- A mutating call on a list, as a value. -/
inductive Op
  | insert (index : Int) (data : T)
  | push_front (data : T)
  | push_back (data : T)
  | pop_front
  | pop_back
  | remove (index : Int)
  | set (index : Int) (data : T)

/-- Perform one call on the list; a handle the call returns is handed to the caller and
plays no further role here. -/
def Op.run (op : Op) (l : list_t) (st : Store) : Option (list_t × Store) :=
  match op with
  | .insert i d =>
    match list_insert (some l) i d st with
    | some (some l1, st1) => some (l1, st1)
    | _ => none
  | .push_front d =>
    match list_push_front (some l) d st with
    | some (some l1, st1) => some (l1, st1)
    | _ => none
  | .push_back d =>
    match list_push_back (some l) d st with
    | some (some l1, st1) => some (l1, st1)
    | _ => none
  | .pop_front =>
    match list_pop_front (some l) st with
    | some (_, some l1, st1) => some (l1, st1)
    | _ => none
  | .pop_back =>
    match list_pop_back (some l) st with
    | some (_, some l1, st1) => some (l1, st1)
    | _ => none
  | .remove i =>
    match list_remove (some l) i st with
    | some (_, some l1, st1) => some (l1, st1)
    | _ => none
  | .set i d =>
    match list_set (some l) i d st with
    | some st1 => some (l, st1)
    | none => none

/-- The call is a push or insert that is accepted on a list of `n` elements: the handle is
not null and, for an insert, the index lies in `[0, n]`. -/
def Op.is_push (n : Nat) : Op → Bool
  | .insert i d => decide (0 ≤ i) && decide (i ≤ (n : Int)) && d.isSome
  | .push_front d => d.isSome
  | .push_back d => d.isSome
  | _ => false

/-- The call is a pop or remove that succeeds on a list of `n` elements: the list is not
empty and, for a remove, the index lies in `[0, n)`. -/
def Op.is_pop (n : Nat) : Op → Bool
  | .pop_front => decide (0 < n)
  | .pop_back => decide (0 < n)
  | .remove i => decide (0 ≤ i) && decide (i < (n : Int))
  | _ => false

/-- Perform the calls in order; besides the final list the result counts the successful
pushes and the successful pops made on the way. -/
def run_ops : List Op → list_t → Store → Option (list_t × Store × Nat × Nat)
  | [], l, st => some (l, st, 0, 0)
  | op :: ops, l, st =>
    match op.run l st with
    | none => none
    | some (l1, st1) =>
      match run_ops ops l1 st1 with
      | none => none
      | some (l2, st2, n, m) =>
        some (l2, st2, n + (if op.is_push l.size then 1 else 0),
          m + (if op.is_pop l.size then 1 else 0))

/-- Follow `next` from `cur` until the pointer `tail` is met, counting the nodes passed. -/
def count_until (st : Store) (tail : Ptr) : Nat → Ptr → Option Nat
  | 0, _ => none
  | fuel + 1, cur =>
    if cur = tail then some 0
    else
      match st.read cur with
      | none => none
      | some nd => (count_until st tail fuel nd.next).map (fun n => n + 1)

/-- The number of nodes strictly between the two sentinels of the list. -/
def count_between (st : Store) (l : list_t) : Option Nat :=
  match st.read l.head with
  | none => none
  | some hd => count_until st l.tail (st.heap.length + 1) hd.next

/-- Example store: an empty list, its two sentinels at addresses 0 and 1 linked to each
other. -/
def empty_store : Store :=
  ⟨[some ⟨none, none, some 1⟩, some ⟨none, some 0, none⟩], []⟩

/-- Example list record for `empty_store`. -/
def empty_list : list_t :=
  ⟨some 0, some 1, DATA_TYPE_CHAR, 0, sample_compare, 7⟩

/-- The node at address `a` is live and linked both ways:
`a->prev->next == a` and `a->next->prev == a`. -/
def linked_both_ways (st : Store) (a : Nat) : Bool :=
  match st.read (some a) with
  | none => false
  | some nd =>
    (match st.read nd.prev with
     | none => false
     | some pn => pn.next == some a) &&
    (match st.read nd.next with
     | none => false
     | some nn => nn.prev == some a)

/-- The sentinels are linked on their inner side:
`head->next->prev == head` and `tail->prev->next == tail`. -/
def sentinels_linked (st : Store) (l : list_t) : Bool :=
  match st.read l.head, st.read l.tail with
  | some hdn, some tln =>
    (match st.read hdn.next with
     | none => false
     | some x => x.prev == l.head) &&
    (match st.read tln.prev with
     | none => false
     | some y => y.next == l.tail)
  | _, _ => false

/-- The head and tail closure: `head->next == tail` and `tail->prev == head`. -/
def sentinels_closed (st : Store) (l : list_t) : Bool :=
  match st.read l.head, st.read l.tail with
  | some hdn, some tln => hdn.next == l.tail && tln.prev == l.head
  | _, _ => false

/-- The pointer reached from the head sentinel by one next-link and then `i` more: payload
node `i` of a well-formed list. -/
def payload_node (st : Store) (l : list_t) (i : Nat) : Option Ptr :=
  match st.read l.head with
  | none => none
  | some hdn => walk_next st i hdn.next

/-- Modelled from the spec: `compare_default` is defined in a header that is not part of
the sources; the spec calls it an identity-like default, so it compares the handles
themselves. -/
def compare_default : compare_t := fun a b =>
  match a, b with
  | some x, some y => (x : Int) - (y : Int)
  | none, none => 0
  | _, _ => 1

/-- Modelled from the spec: `compare_int` is defined in a header that is not part of the
sources; it is the numeric comparison of the boxed integers.  The boxes lie outside the
list's store; as in the examples, handle `n` boxes the value `n % 100`. -/
def compare_int : compare_t := fun a b =>
  match a, b with
  | some x, some y => ((x % 100 : Nat) : Int) - ((y % 100 : Nat) : Int)
  | _, _ => 1

/-- Modelled from the spec: `destroy_default` is defined in a header that is not part of
the sources; a callback is identified by its address. -/
def destroy_default : destroy_t := 1

/-- Modelled from the spec: `destroy_int` is defined in a header that is not part of the
sources; it is a function of its own, so its address differs from `destroy_default`. -/
def destroy_int : destroy_t := 2

/-- The queue contract on the list, `n` rounds of peek (`list_get_front`) followed by
dequeue (`list_pop_front`); the result lists, per round, the peeked and the dequeued
handle. -/
def drain_front : Nat → list_t → Store → Option (List (T × T) × list_t × Store)
  | 0, l, st => some ([], l, st)
  | n + 1, l, st =>
    match list_get_front (some l) st with
    | none => none
    | some peek =>
      match list_pop_front (some l) st with
      | some (x, some l1, st1) =>
        match drain_front n l1 st1 with
        | none => none
        | some (r, l2, st2) => some ((peek, x) :: r, l2, st2)
      | _ => none

/-- The stack contract on the list, `n` rounds of peek (`list_get_back`) followed by pop
(`list_pop_back`); the result lists, per round, the peeked and the popped handle. -/
def drain_back : Nat → list_t → Store → Option (List (T × T) × list_t × Store)
  | 0, l, st => some ([], l, st)
  | n + 1, l, st =>
    match list_get_back (some l) st with
    | none => none
    | some peek =>
      match list_pop_back (some l) st with
      | some (x, some l1, st1) =>
        match drain_back n l1 st1 with
        | none => none
        | some (r, l2, st2) => some ((peek, x) :: r, l2, st2)
      | _ => none

/-! ## C strings (`cino_utils.c`, `coop_utils.c`)

A character array is a list of bytes; a C string in it runs from a position up to the first
0 byte.  A string argument that is only read is given by its content, the bytes before its
terminator.  As for the list, the outer `none` of a result stands for undefined behaviour
(reading or writing outside the array) or for a loop that has used up its fuel. -/

/-- A character array, byte by byte. -/
abbrev Buf := List Nat

/-- C library function `isspace` in the "C" locale: the space and the controls 9 to 13. -/
def isspace (c : Nat) : Bool :=
  c == 32 || (decide (9 ≤ c) && decide (c ≤ 13))

/-- C library function `tolower` in the "C" locale. -/
def tolower (c : Nat) : Nat :=
  if 65 ≤ c ∧ c ≤ 90 then c + 32 else c

/-- Number of bytes before the first 0 byte; `none` when the bytes hold no 0. -/
def strlen_list : List Nat → Option Nat
  | [] => none
  | c :: cs => if c = 0 then some 0 else (strlen_list cs).map (fun n => n + 1)

/-- C library function `strlen`, applied to `b + p`. -/
def c_strlen (b : Buf) (p : Nat) : Option Nat :=
  strlen_list (b.drop p)

/-- The content of the C string at `b + p`. -/
def c_str (b : Buf) (p : Nat) : Option (List Nat) :=
  (c_strlen b p).map (fun n => (b.drop p).take n)

/-- C library function `memmove(b + dst, b + src, n)`. -/
def memmove (b : Buf) (dst src n : Nat) : Option Buf :=
  if src + n ≤ b.length ∧ dst + n ≤ b.length then
    some (b.take dst ++ (b.drop src).take n ++ b.drop (dst + n))
  else none

/-- C library function `memcpy(b + dst, src, strlen(src))` from a string outside `b`. -/
def memcpy (b : Buf) (dst : Nat) (src : List Nat) : Option Buf :=
  if dst + src.length ≤ b.length then
    some (b.take dst ++ src ++ b.drop (dst + src.length))
  else none

/-- C library function `memset(b + dst, c, n)`. -/
def memset (b : Buf) (dst c n : Nat) : Option Buf :=
  if dst + n ≤ b.length then
    some (b.take dst ++ List.replicate n c ++ b.drop (dst + n))
  else none

/-- The assignment `b[i] = c`. -/
def poke (b : Buf) (i c : Nat) : Option Buf :=
  if i < b.length then some (b.set i c) else none

/-- The test `strncmp(s, pat, strlen(pat)) == 0` on contents: `s` begins with `pat`. -/
def match_at : List Nat → List Nat → Bool
  | [], _ => true
  | _ :: _, [] => false
  | a :: pat, c :: s => a == c && match_at pat s

/-- C library function `strstr` on contents: the first offset at which `pat` occurs in
`s`, if any. -/
def find_sub (pat : List Nat) : List Nat → Option Nat
  | [] => if match_at pat [] then some 0 else none
  | c :: cs =>
    if match_at pat (c :: cs) then some 0
    else (find_sub pat cs).map (fun i => i + 1)

/-- C library function `strstr(b + p, pat)`, the result as a position in `b`. -/
def c_strstr (b : Buf) (p : Nat) (pat : List Nat) : Option (Option Nat) :=
  (c_str b p).map (fun s => (find_sub pat s).map (fun i => p + i))

/-- The loop `while (isspace(*cur)) cur++;` over the bytes from `cur` on. -/
def skip_spaces_list : List Nat → Nat → Option Nat
  | [], _ => none
  | c :: cs, cur => if isspace c then skip_spaces_list cs (cur + 1) else some cur

/-- The loop `while (isspace(*cur)) cur++;` in the array `b`. -/
def skip_spaces (b : Buf) (cur : Nat) : Option Nat :=
  skip_spaces_list (b.drop cur) cur

/-- The loop `while (end > str && isspace(*end)) end--;` with `str` at position 0. -/
def scan_back (b : Buf) : Nat → Option Nat
  | 0 => some 0
  | e + 1 =>
    match b[e + 1]? with
    | none => none
    | some c => if isspace c then scan_back b e else some (e + 1)

namespace cino_utils

/-- Source function `str_trim` of `cino_utils.c`. -/
def str_trim (str : Option Buf) : Option (Option Buf) :=
  match str with
  | none => some none
  | some b =>
    match c_strlen b 0 with
    | none => none
    | some len =>
      let end0 : Int := (len : Int) - 1
      match skip_spaces b 0 with
      | none => none
      | some cur =>
        match b[cur]? with
        | none => none
        | some c =>
          if c = 0 then
            (memset b 0 0 (end0 - 0 + 1).toNat).map some
          else
            let moved : Option (Buf × Int) :=
              if cur ≠ 0 then
                match memmove b 0 cur (end0 - (cur : Int) + 1).toNat with
                | none => none
                | some b1 =>
                  if end0 < 0 then none
                  else
                    match poke b1 end0.toNat 0 with
                    | none => none
                    | some b2 => some (b2, end0 - 1)
              else some (b, end0)
            match moved with
            | none => none
            | some (b2, end1) =>
              let scanned : Option Int :=
                if end1 > 0 then (scan_back b2 end1.toNat).map (fun e => (e : Int))
                else some end1
              match scanned with
              | none => none
              | some end2 =>
                if end2 + 1 < 0 then none
                else (poke b2 (end2 + 1).toNat 0).map some

/-- The loop of `str_equal_ignore_case` of `cino_utils.c` and its final comparison
`*s1 == *s2`; a string read at its end yields the terminator 0. -/
def str_equal_ignore_case_loop : List Nat → List Nat → Bool
  | [], s2 => (0 : Nat) == s2.headD 0
  | c :: cs, s2 =>
    if c = 0 then c == s2.headD 0
    else if tolower c ≠ tolower (s2.headD 0) then false
    else str_equal_ignore_case_loop cs s2.tail

/-- Source function `str_equal_ignore_case` of `cino_utils.c`. -/
def str_equal_ignore_case (s1 s2 : Option (List Nat)) : Bool :=
  match s1, s2 with
  | none, none => true
  | some a, some b => str_equal_ignore_case_loop a b
  | _, _ => false

/-- The loop of `str_to_bool`: `while (*str) { if (*str != '0') return true; str++; }`. -/
def str_to_bool_loop : List Nat → Bool
  | [] => false
  | c :: cs => if c = 0 then false else if c ≠ 48 then true else str_to_bool_loop cs

/-- Source function `str_to_bool` of `cino_utils.c`; the literal `"false"` is the bytes
102, 97, 108, 115, 101. -/
def str_to_bool (str : Option (List Nat)) : Bool :=
  match str with
  | none => false
  | some s =>
    if s.length = 0 ∨ str_equal_ignore_case (some s) (some [102, 97, 108, 115, 101]) then false
    else str_to_bool_loop s

/-- Source function `bool_to_str` of `cino_utils.c`: the content of the returned literal. -/
def bool_to_str (val : Bool) : List Nat :=
  if val then [116, 114, 117, 101] else [102, 97, 108, 115, 101]

/-- The loop of `str_split`: `pos` is the position of the moving pointer `str` in the
original string `s0`, `items` the item array with its first `cnt` entries written. -/
def str_split_loop (s0 delimiter : List Nat) :
    Nat → Nat → List (List Nat) → Nat → Option (Nat × List (List Nat) × Nat)
  | 0, _, _, _ => none
  | fuel + 1, pos, items, cnt =>
    match find_sub delimiter (s0.drop pos) with
    | none => some (pos, items, cnt)
    | some i =>
      if i = 0 then str_split_loop s0 delimiter fuel (pos + delimiter.length) items cnt
      else
        if cnt < items.length then
          str_split_loop s0 delimiter fuel (pos + i + delimiter.length)
            (items.set cnt ((s0.drop pos).take i)) (cnt + 1)
        else none

/-- Source function `str_split` of `cino_utils.c`.  The item array is given by the
contents of its strings (each taken to be large enough); the result is the count and the
array after the call. -/
def str_split (fuel : Nat) (str delimiter : Option (List Nat))
    (items : Option (List (List Nat))) : Option (Nat × Option (List (List Nat))) :=
  match str, delimiter, items with
  | some s0, some d, some its =>
    let str_len : Int := s0.length
    let end0 : Int := str_len - 1
    match str_split_loop s0 d fuel 0 its 0 with
    | none => none
    | some (pos, its1, cnt) =>
      if (pos : Int) < end0 then
        if cnt < its1.length then
          some (cnt + 1, some (its1.set cnt ((s0.drop pos).take (end0 - (pos : Int) + 1).toNat)))
        else none
      else some (cnt, some its1)
  | _, _, _ => some (0, items)

/-- The loop of `str_replace` of `cino_utils.c`: every round searches from the start of
the string. -/
def str_replace_loop (old_str new_str : List Nat) : Nat → Buf → Option Buf
  | 0, _ => none
  | fuel + 1, b =>
    match c_strstr b 0 old_str with
    | none => none
    | some none => some b
    | some (some p) =>
      match c_strlen b p with
      | none => none
      | some n =>
        match memmove b (p + new_str.length) (p + old_str.length) (n - old_str.length + 1) with
        | none => none
        | some b1 =>
          match memcpy b1 p new_str with
          | none => none
          | some b2 => str_replace_loop old_str new_str fuel b2

/-- Source function `str_replace` of `cino_utils.c`. -/
def str_replace (fuel : Nat) (str : Option Buf) (old_str new_str : Option (List Nat)) :
    Option (Option Buf) :=
  match str, old_str, new_str with
  | some b, some o, some n => (str_replace_loop o n fuel b).map some
  | _, _, _ => some str

end cino_utils

namespace coop_utils

/-- Source function `str_strip` of `coop_utils.c`. -/
def str_strip (str : Option Buf) : Option (Option Buf) :=
  match str with
  | none => some none
  | some b =>
    match skip_spaces b 0 with
    | none => none
    | some start =>
      let moved : Option Buf :=
        if start ≠ 0 then
          match c_strlen b start with
          | none => none
          | some n => memmove b 0 start (n + 1)
        else some b
      match moved with
      | none => none
      | some b1 =>
        match b1[0]? with
        | none => none
        | some c =>
          if c = 0 then some (some b1)
          else
            match c_strlen b1 0 with
            | none => none
            | some n =>
              match scan_back b1 (n - 1) with
              | none => none
              | some e => (poke b1 (e + 1) 0).map some

/-- The loop of `str_remove_string`: `p` is the position of the moving pointer. -/
def str_remove_string_loop (substr : List Nat) : Nat → Buf → Nat → Option Buf
  | 0, _, _ => none
  | fuel + 1, b, p =>
    match b[p]? with
    | none => none
    | some c =>
      if c = 0 then some b
      else
        match c_str b p with
        | none => none
        | some s =>
          if match_at substr s then
            match c_strlen b (p + substr.length) with
            | none => none
            | some n =>
              match memmove b p (p + substr.length) (n + 1) with
              | none => none
              | some b1 => str_remove_string_loop substr fuel b1 p
          else str_remove_string_loop substr fuel b (p + 1)

/-- Source function `str_remove_string` of `coop_utils.c`. -/
def str_remove_string (fuel : Nat) (str : Option Buf) (substr : Option (List Nat)) :
    Option (Option Buf) :=
  match str, substr with
  | some b, some sub => (str_remove_string_loop sub fuel b 0).map some
  | _, _ => some str

/-- The loop of `str_replace_string`: `p` is the position the next search starts from. -/
def str_replace_string_loop (old_str new_str : List Nat) : Nat → Buf → Nat → Option Buf
  | 0, _, _ => none
  | fuel + 1, b, p =>
    match c_strstr b p old_str with
    | none => none
    | some none => some b
    | some (some q) =>
      match c_strlen b (q + old_str.length) with
      | none => none
      | some n =>
        match memmove b (q + new_str.length) (q + old_str.length) (n + 1) with
        | none => none
        | some b1 =>
          match memcpy b1 q new_str with
          | none => none
          | some b2 => str_replace_string_loop old_str new_str fuel b2 (q + new_str.length)

/-- Source function `str_replace_string` of `coop_utils.c`. -/
def str_replace_string (fuel : Nat) (str : Option Buf) (old_str new_str : Option (List Nat)) :
    Option (Option Buf) :=
  match str, old_str, new_str with
  | some b, some o, some n =>
    if o.length > 0 then (str_replace_string_loop o n fuel b 0).map some
    else some (some b)
  | _, _, _ => some str

end coop_utils

/-- Stripping in the words of the spec: the string with all leading and all trailing
whitespace characters removed. -/
def strip_spec (s : List Nat) : List Nat :=
  (s.dropWhile isspace).rdropWhile isspace

/-- Left-to-right replacement on contents, in the words of the spec.  `skip` counts the
characters of the current match that are still to be passed over; at `skip = 0` an
occurrence of `old_str` at the current position is replaced by `new_str` and the scan goes
on after the occurrence, so matches do not overlap and inserted text is not scanned. -/
def replace_scan (old_str new_str : List Nat) : Nat → List Nat → List Nat
  | _, [] => []
  | skip + 1, _ :: cs => replace_scan old_str new_str skip cs
  | 0, c :: cs =>
    if match_at old_str (c :: cs) then
      new_str ++ replace_scan old_str new_str (old_str.length - 1) cs
    else c :: replace_scan old_str new_str 0 cs

/-- The string `s` with each occurrence of the non-empty `old_str`, matched left to right
without overlap, replaced by `new_str`; `s` itself when `old_str` is empty. -/
def replace_spec (old_str new_str s : List Nat) : List Nat :=
  if old_str = [] then s else replace_scan old_str new_str 0 s

/-- The call is not `list_set`. -/
def Op.not_set : Op → Bool
  | .set _ _ => false
  | _ => true
/-- The largest value of a 32-bit `int`. -/
def INT_MAX : Int := 2147483647

/-- The smallest value of a 32-bit `int`. -/
def INT_MIN : Int := -2147483648

/-- The result of an `int` operation whose mathematical value is `x`: `x` itself when an
`int` can hold it, undefined (signed overflow) otherwise. -/
def int_result (x : Int) : Option Int :=
  if INT_MIN ≤ x ∧ x ≤ INT_MAX then some x else none

namespace coop_utils

/-- Source function `randint` of `coop_utils.c`; `r` is the value `rand()` returns (the
seeding on the first call does not enter the result).  The operator `%` of C truncates
towards zero. -/
def randint (min max r : Int) : Option Int :=
  match int_result (max - min) with
  | none => none
  | some d =>
    match int_result (d + 1) with
    | none => none
    | some m =>
      if m = 0 ∨ (r = INT_MIN ∧ m = -1) then none
      else
        match int_result (Int.tmod r m) with
        | none => none
        | some q => int_result (min + q)

/-- The loop of `str_reverse`, `for (i = 0; i < len / 2; i++) swap(str[i], str[len - i - 1])`
with `n` rounds still to go; `swap` exchanges the two bytes through a temporary. -/
def str_reverse_loop (len : Nat) : Nat → Nat → Buf → Option Buf
  | 0, _, b => some b
  | n + 1, i, b =>
    match b[i]?, b[len - i - 1]? with
    | some x, some y => str_reverse_loop len n (i + 1) ((b.set i y).set (len - i - 1) x)
    | _, _ => none

/-- Source function `str_reverse` of `coop_utils.c`. -/
def str_reverse (str : Option Buf) : Option (Option Buf) :=
  match str with
  | none => some none
  | some b =>
    match c_strlen b 0 with
    | none => none
    | some len => (str_reverse_loop len (len / 2) 0 b).map some

/-- The loop of `str_count_substring`: `p` is the position of the current match in the
string `s0`; each round counts it and searches on from `p + 1`. -/
def str_count_substring_loop (s0 substr : List Nat) : Nat → Nat → Nat → Option Nat
  | 0, _, _ => none
  | fuel + 1, p, count =>
    if p + 1 ≤ s0.length then
      match find_sub substr (s0.drop (p + 1)) with
      | none => some (count + 1)
      | some i => str_count_substring_loop s0 substr fuel (p + 1 + i) (count + 1)
    else none

/-- Source function `str_count_substring` of `coop_utils.c`. -/
def str_count_substring (fuel : Nat) (str substr : Option (List Nat)) : Option Nat :=
  match str, substr with
  | some s0, some sub =>
    if sub.length > 0 then
      match find_sub sub s0 with
      | none => some 0
      | some i => str_count_substring_loop s0 sub fuel i 0
    else some 0
  | _, _ => some 0

end coop_utils

/-- The number of positions of `s` at which `substr` occurs, in the words of the spec:
occurrences that overlap are each counted. -/
def count_positions (substr s : List Nat) : Nat :=
  (List.range (s.length + 1)).countP (fun i => match_at substr (s.drop i))

namespace cino_utils

/-- Source function `str_length` of `cino_utils.c`, on the content of the string. -/
def str_length (str : Option (List Nat)) : Int :=
  match str with
  | none => 0
  | some s => (s.length : Int)

/-- Source function `str_copy` of `cino_utils.c`: `strncpy` of the `strlen(source)` bytes of
`source`, then the terminator. -/
def str_copy (destination : Option Buf) (source : Option (List Nat)) : Option (Option Buf) :=
  match destination, source with
  | some d, some s =>
    match memcpy d 0 s with
    | none => none
    | some d1 => (poke d1 s.length 0).map some
  | _, _ => some destination

/-- Source function `str_concat` of `cino_utils.c`: `strncat` writes the bytes of `source`
and a terminator after the string in `destination`. -/
def str_concat (destination : Option Buf) (source : Option (List Nat)) : Option (Option Buf) :=
  match destination, source with
  | some d, some s =>
    match c_strlen d 0 with
    | none => none
    | some dest_len =>
      match memcpy d dest_len s with
      | none => none
      | some d1 =>
        match poke d1 (dest_len + s.length) 0 with
        | none => none
        | some d2 => (poke d2 (dest_len + s.length) 0).map some
  | _, _ => some destination

/-- Source function `str_insert_string` of `cino_utils.c`. -/
def str_insert_string (str : Option Buf) (index : Int) (substr : Option (List Nat)) :
    Option (Option Buf) :=
  match str, substr with
  | some b, some sub =>
    match c_strlen b 0 with
    | none => none
    | some str_len =>
      if 0 ≤ index ∧ index ≤ (str_len : Int) then
        match c_strlen b index.toNat with
        | none => none
        | some n =>
          match memmove b (index.toNat + sub.length) index.toNat n with
          | none => none
          | some b1 =>
            match memcpy b1 index.toNat sub with
            | none => none
            | some b2 => (poke b2 (str_len + sub.length) 0).map some
      else some str
  | _, _ => some str

/-- Source function `cino_realloc` of `cino_utils.c` on a character array: a fresh zeroed
array of `new_size` bytes that receives the first `min(old_size, new_size)` bytes of `p`;
`calloc` is taken to succeed. -/
def cino_realloc (p : Option Buf) (old_size new_size : Int) : Option (Option Buf) :=
  if old_size < 0 ∨ new_size ≤ 0 then some none
  else
    match p with
    | none =>
      if old_size = 0 then some (some (List.replicate new_size.toNat 0)) else none
    | some b =>
      if (min old_size new_size).toNat ≤ b.length then
        some (some (b.take (min old_size new_size).toNat
          ++ List.replicate (new_size.toNat - (min old_size new_size).toNat) 0))
      else none

end cino_utils

/-- The record `string_t` of `cino_string.c`: the character array (allocated with exactly
the size asked for) and the length field. -/
structure string_t where
  /-- The character array, `none` for `NULL`. -/
  string : Option Buf
  /-- The length field. -/
  length : Int

/-- The content of the C string in the array of a `string_t`. -/
def string_t.content (s : string_t) : Option (List Nat) :=
  match s.string with
  | none => none
  | some b => c_str b 0

/-- Source function `string_create` of `cino_string.c`. -/
def string_create (str : Option (List Nat)) : Option (Option string_t) :=
  match str with
  | none => some none
  | some s =>
    let length := cino_utils.str_length (some s)
    match cino_utils.str_copy (some (List.replicate (length + 1).toNat 0)) (some s) with
    | none => none
    | some string => some (some ⟨string, length⟩)

/-- Source function `string_length` of `cino_string.c`. -/
def string_length (string : Option string_t) : Int :=
  match string with
  | none => 0
  | some s => if s.string ≠ none then s.length else 0

/-- Source function `string_concat` of `cino_string.c`. -/
def string_concat (destination source : Option string_t) : Option (Option string_t) :=
  match destination, source with
  | some d, some s =>
    match cino_utils.cino_realloc d.string (d.length + 1) (d.length + s.length + 1) with
    | none => none
    | some none => some none
    | some (some b) =>
      match cino_utils.str_concat (some b) s.content with
      | none => none
      | some b1 => some (some ⟨b1, d.length + s.length⟩)
  | _, _ => some destination

/-- Source function `string_insert_string` of `cino_string.c`. -/
def string_insert_string (string : Option string_t) (pos : Int) (substr : Option string_t) :
    Option (Option string_t) :=
  match string, substr with
  | some s, some sub =>
    if 0 ≤ pos ∧ pos ≤ string_length (some s) then
      match cino_utils.cino_realloc s.string (s.length + 1) (s.length + sub.length + 1) with
      | none => none
      | some none => some none
      | some (some b) =>
        match cino_utils.str_insert_string (some b) pos sub.content with
        | none => none
        | some b1 => some (some ⟨b1, s.length⟩)
    else some string
  | _, _ => some string

/-! ## Store algebra -/

namespace Store

theorem read_lt {st : Store} {a : Nat} {nd : node_t} (h : st.read (some a) = some nd) :
    a < st.heap.length := by
  by_contra hlt
  have : st.heap[a]? = none := by
    apply List.getElem?_eq_none; omega
  simp [read, this] at h

theorem read_none_of_ge (st : Store) {a : Nat} (h : st.heap.length ≤ a) :
    st.read (some a) = none := by
  have : st.heap[a]? = none := List.getElem?_eq_none h
  simp [read, this]

theorem write_spec (st : Store) (p : Ptr) (nd : node_t) (v : node_t) (h : st.read p = some nd) :
    ∃ st1, st.write p v = some st1 ∧ st1.log = st.log ∧
      st1.heap.length = st.heap.length ∧
      ∀ q, st1.read q = if q = p then some v else st.read q := by
  cases p with
  | none => simp [read] at h
  | some a =>
    have hlt := read_lt h
    refine ⟨{ st with heap := st.heap.set a (some v) }, ?_, rfl, by simp, ?_⟩
    · simp [write, h]
    · intro q
      cases q with
      | none => simp [read]
      | some b =>
        by_cases hb : b = a
        · subst hb
          simp [read, hlt]
        · have hne : a ≠ b := fun e => hb e.symm
          simp [read, hb, List.getElem?_set_ne hne]

theorem free_spec (st : Store) (p : Ptr) (nd : node_t) (h : st.read p = some nd) :
    ∃ st1, st.free p = some st1 ∧ st1.log = st.log ∧
      st1.heap.length = st.heap.length ∧
      ∀ q, st1.read q = if q = p then none else st.read q := by
  cases p with
  | none => simp [read] at h
  | some a =>
    have hlt := read_lt h
    refine ⟨{ st with heap := st.heap.set a none }, ?_, rfl, by simp, ?_⟩
    · simp [free, h]
    · intro q
      cases q with
      | none => simp [read]
      | some b =>
        by_cases hb : b = a
        · subst hb
          simp [read, hlt]
        · have hne : a ≠ b := fun e => hb e.symm
          simp [read, hb, List.getElem?_set_ne hne]

theorem set_next_spec (st : Store) (p : Ptr) (nd : node_t) (v : Ptr) (h : st.read p = some nd) :
    ∃ st1, st.set_next p v = some st1 ∧ st1.log = st.log ∧
      st1.heap.length = st.heap.length ∧
      ∀ q, st1.read q = if q = p then some { nd with next := v } else st.read q := by
  simpa [set_next, h] using write_spec st p nd { nd with next := v } h

theorem set_prev_spec (st : Store) (p : Ptr) (nd : node_t) (v : Ptr) (h : st.read p = some nd) :
    ∃ st1, st.set_prev p v = some st1 ∧ st1.log = st.log ∧
      st1.heap.length = st.heap.length ∧
      ∀ q, st1.read q = if q = p then some { nd with prev := v } else st.read q := by
  simpa [set_prev, h] using write_spec st p nd { nd with prev := v } h

theorem set_data_spec (st : Store) (p : Ptr) (nd : node_t) (v : T) (h : st.read p = some nd) :
    ∃ st1, st.set_data p v = some st1 ∧ st1.log = st.log ∧
      st1.heap.length = st.heap.length ∧
      ∀ q, st1.read q = if q = p then some { nd with data := v } else st.read q := by
  simpa [set_data, h] using write_spec st p nd { nd with data := v } h

@[simp] theorem read_emit (st : Store) (e : Event) (q : Ptr) : (st.emit e).read q = st.read q := by
  cases q <;> simp [emit, read]

@[simp] theorem log_emit (st : Store) (e : Event) : (st.emit e).log = st.log ++ [e] := rfl

@[simp] theorem heap_emit (st : Store) (e : Event) : (st.emit e).heap = st.heap := rfl

end Store

theorem list_node_create_spec (data : T) (st : Store) :
    ∃ st1, list_node_create data st = (some st.heap.length, st1) ∧ st1.log = st.log ∧
      st1.heap.length = st.heap.length + 1 ∧
      ∀ q, st1.read q = if q = some st.heap.length then some ⟨data, none, none⟩ else st.read q := by
  refine ⟨_, rfl, rfl, by simp, ?_⟩
  intro q
  cases q with
  | none => simp [Store.read]
  | some b =>
    by_cases hb : b = st.heap.length
    · subst hb
      simp [Store.read]
    · simp only [Store.read, Option.some.injEq, hb, if_false]
      rcases Nat.lt_or_ge b st.heap.length with h | h
      · rw [List.getElem?_append_left h]
      · have h1 : st.heap[b]? = none := List.getElem?_eq_none h
        have h2 : (st.heap ++ [some (⟨data, none, none⟩ : node_t)])[b]? = none := by
          apply List.getElem?_eq_none
          simp
          omega
        rw [h1, h2]


/-! ## Chains: basic facts -/

@[simp] theorem nextOf_append (xs ys : List Cell) (n : Ptr) :
    nextOf (xs ++ ys) n = nextOf xs (nextOf ys n) := by
  cases xs <;> rfl

@[simp] theorem lastOf_append (xs ys : List Cell) (p : Ptr) :
    lastOf (xs ++ ys) p = lastOf ys (lastOf xs p) := by
  induction xs generalizing p with
  | nil => rfl
  | cons c xs ih => simp [lastOf, ih]

theorem Seg_append (st : Store) (xs ys : List Cell) (p n : Ptr) :
    Seg st p (xs ++ ys) n ↔ Seg st p xs (nextOf ys n) ∧ Seg st (lastOf xs p) ys n := by
  induction xs generalizing p with
  | nil => simp [Seg, lastOf]
  | cons c xs ih => simp [Seg, lastOf, ih, and_assoc]

theorem Seg_congr {st st1 : Store} {cs : List Cell} {p n : Ptr}
    (h : ∀ c ∈ cs, st1.read (some c.1) = st.read (some c.1)) (hs : Seg st p cs n) :
    Seg st1 p cs n := by
  induction cs generalizing p with
  | nil => trivial
  | cons c cs ih =>
    obtain ⟨h1, h2⟩ := hs
    refine ⟨?_, ih (fun d hd => h d (List.mem_cons_of_mem _ hd)) h2⟩
    rw [h c (List.mem_cons_self _ _)]; exact h1

theorem Seg_read {st : Store} (xs ys : List Cell) (c : Cell) {p n : Ptr}
    (hs : Seg st p (xs ++ c :: ys) n) :
    st.read (some c.1) = some ⟨c.2, lastOf xs p, nextOf ys n⟩ := by
  rw [Seg_append] at hs
  exact hs.2.1

theorem Seg_live {st : Store} {cs : List Cell} {p n : Ptr} (hs : Seg st p cs n) :
    ∀ c ∈ cs, c.1 < st.heap.length := by
  intro c hc
  obtain ⟨xs, ys, rfl⟩ := List.append_of_mem hc
  exact Store.read_lt (Seg_read xs ys c hs)

theorem walk_next_seg {st : Store} {xs ys : List Cell} {p n : Ptr}
    (hs : Seg st p (xs ++ ys) n) :
    walk_next st xs.length (nextOf (xs ++ ys) n) = some (nextOf ys n) := by
  induction xs generalizing p with
  | nil => simp [walk_next]
  | cons c xs ih =>
    obtain ⟨h1, h2⟩ := hs
    simp only [List.cons_append, nextOf, List.length_cons, walk_next, h1]
    exact ih h2

theorem walk_prev_seg {st : Store} {xs ys : List Cell} {p n : Ptr}
    (hs : Seg st p (xs ++ ys) n) :
    walk_prev st ys.length (lastOf (xs ++ ys) p) = some (lastOf xs p) := by
  induction ys using List.reverseRecOn generalizing n with
  | nil => simp [walk_prev]
  | append_singleton ys c ih =>
    have hr : st.read (some c.1) = some ⟨c.2, lastOf (xs ++ ys) p, n⟩ := by
      have := Seg_read (xs ++ ys) ([]) (c) (by simpa using hs)
      simpa [nextOf] using this
    have hs1 : Seg st p (xs ++ ys) (some c.1) := by
      have := (Seg_append st (xs ++ ys) [c] p n).1 (by simpa using hs)
      simpa [nextOf] using this.1
    have := ih hs1
    simp only [lastOf_append, lastOf, List.length_append, List.length_singleton, walk_prev, hr]
    simpa using this


theorem Chain.read_head {st : Store} {l : list_t} {hd tl : Nat} {cells : List Cell}
    (h : Chain st l hd tl cells) :
    st.read l.head = some ⟨none, none, nextOf (cells ++ [(tl, none)]) none⟩ := by
  obtain ⟨h1, _, _, _, h5⟩ := h
  rw [h1]
  exact h5.1

theorem Chain.read_tail {st : Store} {l : list_t} {hd tl : Nat} {cells : List Cell}
    (h : Chain st l hd tl cells) :
    st.read l.tail = some ⟨none, lastOf ((hd, none) :: cells) none, none⟩ := by
  obtain ⟨_, h2, _, _, h5⟩ := h
  rw [h2]
  have := Seg_read ((hd, none) :: cells) ([]) ((tl, none)) (by simpa [full] using h5)
  simpa [nextOf] using this

theorem Chain.walk_forward {st : Store} {l : list_t} {hd tl : Nat} {xs ys : List Cell} {c : Cell}
    (h : Chain st l hd tl (xs ++ c :: ys)) :
    walk_next st xs.length (nextOf ((xs ++ c :: ys) ++ [(tl, none)]) none) = some (some c.1) := by
  obtain ⟨_, _, _, _, h5⟩ := h
  have h6 : Seg st (some hd) (xs ++ (c :: ys ++ [(tl, none)])) none := by
    have := h5.2
    simpa [full] using this
  have := walk_next_seg h6
  simpa [nextOf] using this

theorem Chain.walk_backward {st : Store} {l : list_t} {hd tl : Nat} {xs ys : List Cell} {c : Cell}
    (h : Chain st l hd tl (xs ++ c :: ys)) :
    walk_prev st ys.length (lastOf ((hd, none) :: (xs ++ c :: ys)) none) = some (some c.1) := by
  obtain ⟨_, _, _, _, h5⟩ := h
  have h6 : Seg st none (((hd, none) :: xs ++ [c]) ++ ys) (some tl) := by
    have := (Seg_append st ((hd, none) :: (xs ++ c :: ys)) [(tl, none)] none none).1
      (by simpa [full] using h5)
    simpa [nextOf] using this.1
  have := walk_prev_seg h6
  simpa [lastOf] using this

theorem Chain.get_node {st : Store} {l : list_t} {hd tl : Nat} {xs ys : List Cell} {c : Cell}
    (h : Chain st l hd tl (xs ++ c :: ys)) :
    list_get_node (some l) (xs.length : Int) st = some (some c.1) := by
  have hsz : l.size = xs.length + (ys.length + 1) := by
    have := h.2.2.1
    simpa using this
  have hg : (xs.length : Int) < (l.size : Int) := by omega
  simp only [list_get_node, Int.natCast_nonneg, hg, and_self, if_true, Int.toNat_ofNat]
  split
  · rw [h.read_head]
    exact h.walk_forward
  · rw [h.read_tail]
    have : l.size - xs.length - 1 = ys.length := by omega
    rw [this]
    exact h.walk_backward

theorem Chain.read_cell {st : Store} {l : list_t} {hd tl : Nat} {xs ys : List Cell} {c : Cell}
    (h : Chain st l hd tl (xs ++ c :: ys)) :
    st.read (some c.1) =
      some ⟨c.2, lastOf ((hd, none) :: xs) none, nextOf (ys ++ [(tl, none)]) none⟩ := by
  obtain ⟨_, _, _, _, h5⟩ := h
  have := Seg_read ((hd, none) :: xs) (ys ++ [(tl, none)]) (c)
    (by simpa [full] using h5)
  simpa using this

theorem Chain.get_at {st : Store} {l : list_t} {hd tl : Nat} {xs ys : List Cell} {c : Cell}
    (h : Chain st l hd tl (xs ++ c :: ys)) :
    list_get (some l) (xs.length : Int) st = some c.2 := by
  have hsz : l.size = xs.length + (ys.length + 1) := by
    have := h.2.2.1
    simpa using this
  have hg : (xs.length : Int) < (l.size : Int) := by omega
  simp only [list_get, Int.natCast_nonneg, hg, and_self, if_true, h.get_node, h.read_cell]

/-- Splitting a list at a valid position. -/
theorem split_at {α : Type} (s : List α) (k : Nat) (hk : k < s.length) :
    s = s.take k ++ s[k] :: s.drop (k + 1) ∧ (s.take k).length = k := by
  constructor
  · conv_lhs => rw [← List.take_append_drop k s]
    rw [List.drop_eq_getElem_cons hk]
  · simp; omega

theorem Holds.get {st : Store} {l : list_t} {s : List T} (h : Holds st l s)
    (k : Nat) (hk : k < s.length) :
    list_get (some l) (k : Int) st = some s[k] := by
  obtain ⟨hd, tl, cells, hc, rfl⟩ := h
  have hk1 : k < cells.length := by simpa using hk
  obtain ⟨e, hlen⟩ := split_at cells k hk1
  rw [e] at hc
  have := hc.get_at
  rw [hlen] at this
  simpa using this


theorem exists_snoc (x : Cell) (xs : List Cell) : ∃ A z, x :: xs = A ++ [z] := by
  rcases List.eq_nil_or_concat (x :: xs) with h | ⟨A, z, h⟩
  · cases h
  · exact ⟨A, z, by simpa using h⟩

theorem Seg_insert {st st5 : Store} {A B : List Cell} {z c : Cell} {a : Nat} {data : T}
    (hs : Seg st none (A ++ z :: c :: B) none)
    (hnd : ((A ++ z :: c :: B).map Prod.fst).Nodup)
    (ha : a ∉ (A ++ z :: c :: B).map Prod.fst)
    (ra : st5.read (some a) = some ⟨data, some z.1, some c.1⟩)
    (rz : st5.read (some z.1) = some ⟨z.2, lastOf A none, some a⟩)
    (rc : st5.read (some c.1) = some ⟨c.2, some a, nextOf B none⟩)
    (ro : ∀ q, q ≠ a → q ≠ z.1 → q ≠ c.1 → st5.read (some q) = st.read (some q)) :
    Seg st5 none (A ++ z :: (a, data) :: c :: B) none := by
  rw [Seg_append] at hs ⊢
  obtain ⟨hA, _, _, hB⟩ := hs
  simp only [List.map_append, List.map_cons, List.mem_append, List.mem_cons, List.mem_map,
    not_or] at ha
  rw [List.map_append, List.nodup_append] at hnd
  obtain ⟨_, hn2, hdis⟩ := hnd
  simp only [List.map_cons, List.nodup_cons, List.mem_cons, not_or, List.mem_map] at hn2
  refine ⟨Seg_congr ?_ (by simpa [nextOf] using hA), ?_, ?_, ?_, Seg_congr ?_ hB⟩
  · intro d hd
    have hdm : d.1 ∈ A.map Prod.fst := List.mem_map_of_mem _ hd
    apply ro
    · intro e; exact ha.1 ⟨d, hd, e⟩
    · intro e; exact hdis hdm (by simp [e])
    · intro e; exact hdis hdm (by simp [e])
  · simpa [nextOf] using rz
  · simpa [nextOf, lastOf] using ra
  · simpa [nextOf, lastOf] using rc
  · intro d hd
    have hdm : d.1 ∈ B.map Prod.fst := List.mem_map_of_mem _ hd
    apply ro
    · intro e; exact ha.2.2.2 ⟨d, hd, e⟩
    · intro e; exact hn2.1.2 ⟨d, hd, e⟩
    · intro e; exact hn2.2.1 ⟨d, hd, e⟩


theorem Chain.decompose {st : Store} {l : list_t} {hd tl : Nat} {xs ys : List Cell}
    (h : Chain st l hd tl (xs ++ ys)) :
    ∃ A z c B, (hd, none) :: xs = A ++ [z] ∧ ys ++ [(tl, none)] = c :: B ∧
      full hd tl (xs ++ ys) = A ++ z :: c :: B ∧
      st.read (some z.1) = some ⟨z.2, lastOf A none, some c.1⟩ ∧
      st.read (some c.1) = some ⟨c.2, some z.1, nextOf B none⟩ ∧
      z.1 ≠ c.1 := by
  obtain ⟨A, z, hA⟩ := exists_snoc (hd, none) xs
  obtain ⟨c, B, hB⟩ : ∃ c B, ys ++ [(tl, none)] = c :: B := by
    cases ys with
    | nil => exact ⟨_, _, rfl⟩
    | cons y ys => exact ⟨_, _, rfl⟩
  have hF : full hd tl (xs ++ ys) = A ++ z :: c :: B := by
    have : full hd tl (xs ++ ys) = ((hd, none) :: xs) ++ (ys ++ [(tl, none)]) := by
      simp [full]
    rw [this, hA, hB]; simp
  obtain ⟨_, _, _, h4, h5⟩ := h
  rw [hF] at h4 h5
  refine ⟨A, z, c, B, hA, hB, hF, ?_, ?_, ?_⟩
  · have := Seg_read (A) (c :: B) (z) h5
    simpa [nextOf] using this
  · have := Seg_read (A ++ [z]) (B) (c) (by simpa using h5)
    simpa [lastOf] using this
  · intro e
    rw [List.map_append, List.nodup_append] at h4
    have := h4.2.1
    simp [e] at this

theorem Chain.fresh {st : Store} {l : list_t} {hd tl : Nat} {cells : List Cell}
    (h : Chain st l hd tl cells) :
    st.heap.length ∉ (full hd tl cells).map Prod.fst := by
  intro hm
  obtain ⟨c, hc, e⟩ := List.mem_map.1 hm
  have := Seg_live h.2.2.2.2 c hc
  omega


theorem nodup_insert_fresh (A B : List Nat) (z c a : Nat)
    (hnd : (A ++ z :: c :: B).Nodup) (ha : a ∉ A ++ z :: c :: B) :
    (A ++ z :: a :: c :: B).Nodup := by
  have hp : (A ++ z :: a :: c :: B).Perm (a :: (A ++ z :: c :: B)) := by
    have := @List.perm_middle _ a (A ++ [z]) (c :: B)
    simpa using this
  exact hp.nodup_iff.2 (List.nodup_cons.2 ⟨ha, hnd⟩)

theorem Chain.insert_at {st : Store} {l : list_t} {hd tl : Nat} {xs ys : List Cell}
    (h : Chain st l hd tl (xs ++ ys)) (x : Nat) :
    ∃ st5, list_insert (some l) (xs.length : Int) (some x) st
        = some (some { l with size := l.size + 1 }, st5) ∧
      Chain st5 { l with size := l.size + 1 } hd tl (xs ++ (st.heap.length, some x) :: ys) ∧
      st5.log = st.log ∧ st5.heap.length = st.heap.length + 1 := by
  obtain ⟨A, z, c, B, hA, hB, hF, rz, rc, hzc⟩ := h.decompose
  have hfresh := h.fresh
  obtain ⟨h1, h2, h3, h4, h5⟩ := h
  rw [hF] at hfresh h4 h5
  have haz : st.heap.length ≠ z.1 := by
    intro e; apply hfresh; simp [← e]
  have hac : st.heap.length ≠ c.1 := by
    intro e; apply hfresh; simp [← e]
  have hsz : l.size = xs.length + ys.length := by simpa using h3
  obtain ⟨st1, e1, g1, n1, r1⟩ := list_node_create_spec (some x) st
  have hF2 : full hd tl (xs ++ (st.heap.length, some x) :: ys)
      = A ++ z :: (st.heap.length, some x) :: c :: B := by
    have : full hd tl (xs ++ (st.heap.length, some x) :: ys)
        = ((hd, none) :: xs) ++ (st.heap.length, some x) :: (ys ++ [(tl, none)]) := by
      simp [full]
    rw [this, hA, hB]; simp
  have hnd2 : ((A ++ z :: (st.heap.length, some x) :: c :: B).map Prod.fst).Nodup := by
    simp only [List.map_append, List.map_cons] at h4 hfresh ⊢
    exact nodup_insert_fresh _ _ _ _ _ h4 hfresh
  have hguard : (0 : Int) ≤ (xs.length : Int) ∧ (xs.length : Int) ≤ (l.size : Int) ∧
      (some x : T) ≠ none := by
    refine ⟨by omega, by omega, by simp⟩
  simp only [list_insert, hguard, and_self, if_true, e1]
  by_cases hys : ys = []
  · -- fast path: splice before the tail sentinel
    subst hys
    obtain ⟨rfl, rfl⟩ : (tl, none) = c ∧ [] = B := by simpa using hB
    have hidx : (xs.length : Int) = (l.size : Int) := by simp [hsz]
    simp only [hidx, if_true, h2]
    have rt : st.read (some tl) = some ⟨none, some z.1, none⟩ := by simpa [nextOf] using rc
    have rz0 : st.read (some z.1) = some ⟨z.2, lastOf A none, some tl⟩ := by simpa using rz
    have hat : st.heap.length ≠ tl := by simpa using hac
    have hzt : z.1 ≠ tl := by simpa using hzc
    obtain ⟨st2, e2, g2, n2, r2⟩ := Store.set_next_spec st1 (some st.heap.length)
      ⟨some x, none, none⟩ (some tl) (by simp [r1])
    obtain ⟨st3, e3, g3, n3, r3⟩ := Store.set_prev_spec st2 (some st.heap.length)
      ⟨some x, none, some tl⟩ (some z.1) (by simp [r2])
    obtain ⟨st4, e4, g4, n4, r4⟩ := Store.set_prev_spec st3 (some tl)
      ⟨none, some z.1, none⟩ (some st.heap.length)
      (by simp [r3, r2, r1, Ne.symm hat, rt])
    obtain ⟨st5, e5, g5, n5, r5⟩ := Store.set_next_spec st4 (some z.1)
      ⟨z.2, lastOf A none, some tl⟩ (some st.heap.length)
      (by simp [r4, r3, r2, r1, hzt, Ne.symm haz, rz0])
    have rt2 : st2.read (some tl) = some ⟨none, some z.1, none⟩ := by
      simp [r2, r1, Ne.symm hat, rt]
    have rn4 : st4.read (some st.heap.length)
        = some ⟨some x, some z.1, some tl⟩ := by
      simp [r4, r3, hat]
    refine ⟨st5, ?_, ⟨by simp [h1], by simp [h2], by simp [hsz], ?_, ?_⟩, by simp [g5, g4, g3, g2, g1],
      by simp [n5, n4, n3, n2, n1]⟩
    · simp [bind, e2, rt2, e3, e4, rn4, e5]
    · rw [hF2]; exact hnd2
    · rw [hF2]
      apply Seg_insert h5 h4 hfresh
      · simp [r5, r4, r3, haz, hat]
      · simp [r5]
      · simp [r5, r4, Ne.symm hzt, nextOf]
      · intro q hq1 hq2 hq3
        have hq3 : q ≠ tl := by simpa using hq3
        simp [r5, r4, r3, r2, r1, hq1, hq2, hq3]
  · -- general path: splice before the node currently at the index
    obtain ⟨y, ys1, rfl⟩ := List.exists_cons_of_ne_nil hys
    obtain ⟨rfl, rfl⟩ : y = c ∧ ys1 ++ [(tl, none)] = B := by simpa using hB
    have hsz1 : l.size = xs.length + (ys1.length + 1) := by simpa using h3
    have hidx : ¬ (xs.length : Int) = (l.size : Int) := by omega
    have hch1 : Chain st1 l hd tl (xs ++ y :: ys1) := by
      refine ⟨h1, h2, h3, by rw [hF]; exact h4, ?_⟩
      rw [hF]
      refine Seg_congr ?_ h5
      intro d hd
      have : d.1 ≠ st.heap.length := by
        intro e; apply hfresh; exact List.mem_map.2 ⟨d, hd, e⟩
      simp [r1, this]
    simp only [hidx, if_false, hch1.get_node]
    have rc1 : st1.read (some y.1) = some ⟨y.2, some z.1, nextOf (ys1 ++ [(tl, none)]) none⟩ := by
      simp [r1, Ne.symm hac, rc]
    obtain ⟨st2, e2, g2, n2, r2⟩ := Store.set_prev_spec st1 (some st.heap.length)
      ⟨some x, none, none⟩ (some z.1) (by simp [r1])
    obtain ⟨st3, e3, g3, n3, r3⟩ := Store.set_next_spec st2 (some st.heap.length)
      ⟨some x, some z.1, none⟩ (some y.1) (by simp [r2])
    have rn3 : st3.read (some st.heap.length) = some ⟨some x, some z.1, some y.1⟩ := by
      simp [r3]
    obtain ⟨st4, e4, g4, n4, r4⟩ := Store.set_next_spec st3 (some z.1)
      ⟨z.2, lastOf A none, some y.1⟩ (some st.heap.length)
      (by simp [r3, r2, r1, Ne.symm haz, rz])
    have rn4 : st4.read (some st.heap.length) = some ⟨some x, some z.1, some y.1⟩ := by
      simp [r4, r3, haz]
    obtain ⟨st5, e5, g5, n5, r5⟩ := Store.set_prev_spec st4 (some y.1)
      ⟨y.2, some z.1, nextOf (ys1 ++ [(tl, none)]) none⟩ (some st.heap.length)
      (by simp [r4, r3, r2, r1, Ne.symm hzc, Ne.symm hac, rc])
    refine ⟨st5, ?_, ⟨by simp [h1], by simp [h2], by simp [hsz1]; omega, ?_, ?_⟩, by simp [g5, g4, g3, g2, g1],
      by simp [n5, n4, n3, n2, n1]⟩
    · simp [bind, rc1, e2, e3, rn3, e4, rn4, e5]
    · rw [hF2]; exact hnd2
    · rw [hF2]
      apply Seg_insert h5 h4 hfresh
      · simp [r5, r4, r3, haz, hac]
      · simp [r5, r4, hzc]
      · simp [r5]
      · intro q hq1 hq2 hq3
        simp [r5, r4, r3, r2, r1, hq1, hq2, hq3]

theorem Seg_remove {st st5 : Store} {A B : List Cell} {z c y : Cell}
    (hs : Seg st none (A ++ z :: c :: y :: B) none)
    (hnd : ((A ++ z :: c :: y :: B).map Prod.fst).Nodup)
    (rz : st5.read (some z.1) = some ⟨z.2, lastOf A none, some y.1⟩)
    (ry : st5.read (some y.1) = some ⟨y.2, some z.1, nextOf B none⟩)
    (ro : ∀ q, q ≠ z.1 → q ≠ c.1 → q ≠ y.1 → st5.read (some q) = st.read (some q)) :
    Seg st5 none (A ++ z :: y :: B) none := by
  rw [Seg_append] at hs ⊢
  obtain ⟨hA, _, _, _, hB⟩ := hs
  rw [List.map_append, List.nodup_append] at hnd
  obtain ⟨_, hn2, hdis⟩ := hnd
  simp only [List.map_cons, List.nodup_cons, List.mem_cons, not_or, List.mem_map] at hn2
  refine ⟨Seg_congr ?_ (by simpa [nextOf] using hA), ?_, ?_, Seg_congr ?_ hB⟩
  · intro d hd
    have hdm : d.1 ∈ A.map Prod.fst := List.mem_map_of_mem _ hd
    apply ro
    · intro e; exact hdis hdm (by simp [e])
    · intro e; exact hdis hdm (by simp [e])
    · intro e; exact hdis hdm (by simp [e])
  · simpa [nextOf] using rz
  · simpa [nextOf, lastOf] using ry
  · intro d hd
    apply ro
    · intro e; exact hn2.1.2.2 ⟨d, hd, e⟩
    · intro e; exact hn2.2.1.2 ⟨d, hd, e⟩
    · intro e; exact hn2.2.2.1 ⟨d, hd, e⟩

theorem Chain.decompose3 {st : Store} {l : list_t} {hd tl : Nat} {xs ys : List Cell} {c : Cell}
    (h : Chain st l hd tl (xs ++ c :: ys)) :
    ∃ A z y B, (hd, none) :: xs = A ++ [z] ∧ ys ++ [(tl, none)] = y :: B ∧
      full hd tl (xs ++ c :: ys) = A ++ z :: c :: y :: B ∧
      st.read (some z.1) = some ⟨z.2, lastOf A none, some c.1⟩ ∧
      st.read (some c.1) = some ⟨c.2, some z.1, some y.1⟩ ∧
      st.read (some y.1) = some ⟨y.2, some c.1, nextOf B none⟩ ∧
      z.1 ≠ c.1 ∧ c.1 ≠ y.1 ∧ z.1 ≠ y.1 := by
  obtain ⟨A, z, hA⟩ := exists_snoc (hd, none) xs
  obtain ⟨y, B, hB⟩ : ∃ y B, ys ++ [(tl, none)] = y :: B := by
    cases ys with
    | nil => exact ⟨_, _, rfl⟩
    | cons y ys => exact ⟨_, _, rfl⟩
  have hF : full hd tl (xs ++ c :: ys) = A ++ z :: c :: y :: B := by
    have : full hd tl (xs ++ c :: ys) = ((hd, none) :: xs) ++ c :: (ys ++ [(tl, none)]) := by
      simp [full]
    rw [this, hA, hB]; simp
  obtain ⟨_, _, _, h4, h5⟩ := h
  rw [hF] at h4 h5
  rw [List.map_append, List.nodup_append] at h4
  have hn := h4.2.1
  simp only [List.map_cons, List.nodup_cons, List.mem_cons, not_or] at hn
  refine ⟨A, z, y, B, hA, hB, hF, ?_, ?_, ?_, hn.1.1, hn.2.1.1, hn.1.2.1⟩
  · have := Seg_read A (c :: y :: B) z h5
    simpa [nextOf] using this
  · have := Seg_read (A ++ [z]) (y :: B) c (by simpa using h5)
    simpa [lastOf, nextOf] using this
  · have := Seg_read (A ++ [z, c]) B y (by simpa using h5)
    simpa [lastOf] using this

theorem Chain.remove_at {st : Store} {l : list_t} {hd tl : Nat} {xs ys : List Cell} {c : Cell}
    (h : Chain st l hd tl (xs ++ c :: ys)) :
    ∃ st5, list_remove (some l) (xs.length : Int) st
        = some (c.2, some { l with size := l.size - 1 }, st5) ∧
      Chain st5 { l with size := l.size - 1 } hd tl (xs ++ ys) ∧
      st5.log = st.log ∧ st5.heap.length = st.heap.length := by
  obtain ⟨A, z, y, B, hA, hB, hF, rz, rc, ry, hzc, hcy, hzy⟩ := h.decompose3
  have hnode := h.get_node
  obtain ⟨h1, h2, h3, h4, h5⟩ := h
  rw [hF] at h4 h5
  have hsz : l.size = xs.length + (ys.length + 1) := by simpa using h3
  have hguard : (0 : Int) ≤ (xs.length : Int) ∧ (xs.length : Int) < (l.size : Int) ∧
      l.size > 0 := by
    refine ⟨by omega, by omega, by omega⟩
  have hF2 : full hd tl (xs ++ ys) = A ++ z :: y :: B := by
    have : full hd tl (xs ++ ys) = ((hd, none) :: xs) ++ (ys ++ [(tl, none)]) := by
      simp [full]
    rw [this, hA, hB]; simp
  obtain ⟨st1, e1, g1, n1, r1⟩ := Store.set_next_spec st (some z.1)
    ⟨z.2, lastOf A none, some c.1⟩ (some y.1) rz
  have rc1 : st1.read (some c.1) = some ⟨c.2, some z.1, some y.1⟩ := by
    simp [r1, Ne.symm hzc, rc]
  obtain ⟨st2, e2, g2, n2, r2⟩ := Store.set_prev_spec st1 (some y.1)
    ⟨y.2, some c.1, nextOf B none⟩ (some z.1) (by simp [r1, Ne.symm hzy, ry])
  obtain ⟨st3, e3, g3, n3, r3⟩ := Store.set_prev_spec st2 (some c.1)
    ⟨c.2, some z.1, some y.1⟩ none (by simp [r2, hcy, rc1])
  obtain ⟨st4, e4, g4, n4, r4⟩ := Store.set_next_spec st3 (some c.1)
    ⟨c.2, none, some y.1⟩ none (by simp [r3])
  obtain ⟨st5, e5, g5, n5, r5⟩ := Store.free_spec st4 (some c.1)
    ⟨c.2, none, none⟩ (by simp [r4])
  refine ⟨st5, ?_, ⟨by simp [h1], by simp [h2], by simp [hsz], ?_, ?_⟩,
    by simp [g5, g4, g3, g2, g1], by simp [n5, n4, n3, n2, n1]⟩
  · simp [list_remove, hguard, hnode, bind, rc, e1, rc1, e2, e3, e4, e5]
  · rw [hF2]
    have hp : List.Sublist (List.map Prod.fst (A ++ z :: y :: B))
        (List.map Prod.fst (A ++ z :: c :: y :: B)) := by
      apply List.Sublist.map
      apply List.Sublist.append_left
      exact List.Sublist.cons₂ _ (List.sublist_cons_self _ _)
    exact h4.sublist hp
  · rw [hF2]
    apply Seg_remove h5 h4
    · simp [r5, r4, r3, r2, r1, hzc, hzy]
    · simp [r5, r4, r3, r2, Ne.symm hcy]
    · intro q hq1 hq2 hq3
      simp [r5, r4, r3, r2, r1, hq1, hq2, hq3]

theorem create_chain (compare_default : compare_t) (destroy_default : destroy_t)
    (data_type : data_type_t) (compare : Option compare_t) (destroy : Option destroy_t)
    (st : Store) (hv : is_valid_cino_data_type data_type = true) :
    ∃ st4, list_create compare_default destroy_default data_type compare destroy st
        = some (some ⟨some st.heap.length, some (st.heap.length + 1), data_type, 0,
            compare.getD compare_default, destroy.getD destroy_default⟩, st4) ∧
      Chain st4 ⟨some st.heap.length, some (st.heap.length + 1), data_type, 0,
            compare.getD compare_default, destroy.getD destroy_default⟩
        st.heap.length (st.heap.length + 1) [] ∧
      st4.log = st.log ∧ st4.heap.length = st.heap.length + 2 := by
  obtain ⟨st1, e1, g1, n1, r1⟩ := list_node_create_spec none st
  obtain ⟨st2, e2, g2, n2, r2⟩ := list_node_create_spec none st1
  rw [n1] at e2 r2
  have hne : st.heap.length ≠ st.heap.length + 1 := by omega
  obtain ⟨st3, e3, g3, n3, r3⟩ := Store.set_next_spec st2 (some st.heap.length)
    ⟨none, none, none⟩ (some (st.heap.length + 1)) (by simp [r2, r1])
  obtain ⟨st4, e4, g4, n4, r4⟩ := Store.set_prev_spec st3 (some (st.heap.length + 1))
    ⟨none, none, none⟩ (some st.heap.length) (by simp [r3, r2])
  refine ⟨st4, ?_, ⟨rfl, rfl, rfl, ?_, ?_⟩, by simp [g4, g3, g2, g1],
    by simp [n4, n3, n2, n1]⟩
  · have hc : (match compare with | some c => c | none => compare_default)
        = compare.getD compare_default := by cases compare <;> rfl
    have hd : (match destroy with | some d => d | none => destroy_default)
        = destroy.getD destroy_default := by cases destroy <;> rfl
    simp [list_create, hv, e1, e2, bind, e3, e4, hc, hd]
  · simp [full]
  · simp [full, Seg, nextOf, r4, r3, hne]

theorem Holds.insert {st : Store} {l : list_t} {s : List T} (h : Holds st l s)
    (k : Nat) (hk : k ≤ s.length) (x : Nat) :
    ∃ st1, list_insert (some l) (k : Int) (some x) st
        = some (some { l with size := l.size + 1 }, st1) ∧
      Holds st1 { l with size := l.size + 1 } (s.take k ++ some x :: s.drop k) ∧
      st1.log = st.log := by
  obtain ⟨hd, tl, cells, hc, rfl⟩ := h
  have hk1 : k ≤ cells.length := by simpa using hk
  have e : cells = cells.take k ++ cells.drop k := (List.take_append_drop k cells).symm
  have hlen : (cells.take k).length = k := by simp [hk1]
  rw [e] at hc
  obtain ⟨st1, e1, hc1, g1, _⟩ := hc.insert_at x
  rw [hlen] at e1
  refine ⟨st1, e1, ⟨hd, tl, _, hc1, ?_⟩, g1⟩
  simp [List.map_take, List.map_drop]

theorem Holds.remove {st : Store} {l : list_t} {s : List T} (h : Holds st l s)
    (k : Nat) (hk : k < s.length) :
    ∃ st1, list_remove (some l) (k : Int) st
        = some (s[k], some { l with size := l.size - 1 }, st1) ∧
      Holds st1 { l with size := l.size - 1 } (s.eraseIdx k) ∧
      st1.log = st.log := by
  obtain ⟨hd, tl, cells, hc, rfl⟩ := h
  have hk1 : k < cells.length := by simpa using hk
  obtain ⟨e, hlen⟩ := split_at cells k hk1
  rw [e] at hc
  obtain ⟨st1, e1, hc1, g1, _⟩ := hc.remove_at
  rw [hlen] at e1
  refine ⟨st1, by simpa using e1, ⟨hd, tl, _, hc1, ?_⟩, g1⟩
  rw [List.eraseIdx_eq_take_drop_succ]
  simp [List.map_take, List.map_drop]

theorem Holds.size {st : Store} {l : list_t} {s : List T} (h : Holds st l s) :
    l.size = s.length := by
  obtain ⟨hd, tl, cells, hc, rfl⟩ := h
  simpa using hc.2.2.1

theorem abc_holds : Holds abc_store abc_list [some 97, some 98, some 99] := by
  refine ⟨0, 1, [(2, some 97), (3, some 98), (4, some 99)], ⟨rfl, rfl, rfl, by decide, ?_⟩, rfl⟩
  simp [full, Seg, nextOf, Store.read, abc_store]

theorem Holds.walks {st : Store} {l : list_t} {s : List T} (h : Holds st l s)
    (k : Nat) (hk : k < s.length) :
    ∃ hdn tln a nd, st.read l.head = some hdn ∧ st.read l.tail = some tln ∧
      walk_next st k hdn.next = some (some a) ∧
      walk_prev st (s.length - k - 1) tln.prev = some (some a) ∧
      st.read (some a) = some nd ∧ nd.data = s[k] := by
  obtain ⟨hd, tl, cells, hc, rfl⟩ := h
  have hk1 : k < cells.length := by simpa using hk
  obtain ⟨e, hlen⟩ := split_at cells k hk1
  have hlen2 : (cells.drop (k + 1)).length = (cells.map Prod.snd).length - k - 1 := by
    simp
    omega
  have hc2 := hc
  rw [e] at hc2
  refine ⟨_, _, cells[k].1, _, hc.read_head, hc.read_tail, ?_, ?_, hc2.read_cell, by simp⟩
  · have := hc2.walk_forward
    rw [hlen, ← e] at this
    exact this
  · have := hc2.walk_backward
    rw [hlen2, ← e] at this
    exact this

theorem push_all_back_holds (hs : List Nat) {st : Store} {l : list_t} {s : List T}
    (h : Holds st l s) :
    ∃ st1, push_all_back (some (some l, st)) hs
        = some (some { l with size := l.size + hs.length }, st1) ∧
      Holds st1 { l with size := l.size + hs.length } (s ++ hs.map some) ∧
      st1.log = st.log := by
  induction hs generalizing st l s with
  | nil => exact ⟨st, rfl, by simpa using h, rfl⟩
  | cons x hs ih =>
    have hsz := h.size
    obtain ⟨st1, e1, h1, g1⟩ := h.insert s.length (Nat.le_refl _) x
    rw [← hsz] at e1
    have e2 : list_push_back (some l) (some x) st
        = some (some { l with size := l.size + 1 }, st1) := by
      simp [list_push_back, e1]
    obtain ⟨st2, e3, h3, g3⟩ := ih h1
    refine ⟨st2, ?_, ?_, by rw [g3, g1]⟩
    · simp only [push_all_back, List.foldl_cons, Option.some_bind, e2] at e3 ⊢
      rw [e3]
      simp [Nat.add_assoc, Nat.add_comm 1]
    · have e4 : ({ l with size := l.size + (x :: hs).length } : list_t)
          = { ({ l with size := l.size + 1 } : list_t) with size := l.size + 1 + hs.length } := by
        simp [Nat.add_assoc, Nat.add_comm 1]
      rw [e4]
      simpa using h3

/-! ## The claims -/

/-- C1 (index symmetry): after pushing the non-null handles `hs` to the back of a freshly
created list, `list_get` at every index `i` below the number of handles returns the `i`-th
handle, and both the forward walk from the head sentinel and the backward walk from the
tail sentinel arrive at the same node, which carries that handle. -/
theorem C1_index_symmetry (compare_default : compare_t) (destroy_default : destroy_t)
    (data_type : data_type_t) (compare : Option compare_t) (destroy : Option destroy_t)
    (st : Store) (hv : is_valid_cino_data_type data_type = true) (hs : List Nat) :
    ∃ l st1,
      push_all_back (list_create compare_default destroy_default data_type compare destroy st) hs
        = some (some l, st1) ∧
      list_size (some l) = hs.length ∧
      ∀ i (hi : i < hs.length),
        list_get (some l) (i : Int) st1 = some (some hs[i]) ∧
        ∃ hdn tln a nd, st1.read l.head = some hdn ∧ st1.read l.tail = some tln ∧
          walk_next st1 i hdn.next = some (some a) ∧
          walk_prev st1 (hs.length - i - 1) tln.prev = some (some a) ∧
          st1.read (some a) = some nd ∧ nd.data = some hs[i] := by
  obtain ⟨st0, e0, hc0, _, _⟩ :=
    create_chain compare_default destroy_default data_type compare destroy st hv
  have h0 : Holds st0 _ [] := ⟨_, _, [], hc0, rfl⟩
  obtain ⟨st1, e1, h1, _⟩ := push_all_back_holds hs h0
  rw [e0]
  refine ⟨_, st1, e1, by simp [list_size], ?_⟩
  intro i hi
  have hi1 : i < ([] ++ hs.map some : List T).length := by simpa using hi
  refine ⟨?_, ?_⟩
  · have := h1.get i hi1
    simpa using this
  · obtain ⟨hdn, tln, a, nd, r1, r2, w1, w2, r3, hdat⟩ := h1.walks i hi1
    refine ⟨hdn, tln, a, nd, r1, r2, w1, ?_, r3, by simpa using hdat⟩
    simpa using w2

/-- Witness for C1: four handles pushed onto a fresh integer list. -/
theorem C1_index_symmetry_witness :
    is_valid_cino_data_type DATA_TYPE_INT = true ∧
    ∃ l st1,
      push_all_back (list_create sample_compare 0 DATA_TYPE_INT none none ⟨[], []⟩)
          [10, 11, 12, 13] = some (some l, st1) ∧
      list_size (some l) = [10, 11, 12, 13].length ∧
      ∀ i (hi : i < [10, 11, 12, 13].length),
        list_get (some l) (i : Int) st1 = some (some [10, 11, 12, 13][i]) ∧
        ∃ hdn tln a nd, st1.read l.head = some hdn ∧ st1.read l.tail = some tln ∧
          walk_next st1 i hdn.next = some (some a) ∧
          walk_prev st1 ([10, 11, 12, 13].length - i - 1) tln.prev = some (some a) ∧
          st1.read (some a) = some nd ∧ nd.data = some [10, 11, 12, 13][i] :=
  ⟨rfl, C1_index_symmetry sample_compare 0 DATA_TYPE_INT none none ⟨[], []⟩ rfl [10, 11, 12, 13]⟩

/-- C2 (insert): on a list holding `s`, `list_insert` at an index `k` in `[0, size]` with a
non-null handle leaves the list holding `s[0..k) ++ [h] ++ s[k..)` with the size one larger;
`list_push_front` and `list_push_back` are this insert at index 0 and at index `size`. -/
theorem C2_insert (st : Store) (l : list_t) (s : List T) (h : Holds st l s)
    (k : Nat) (hk : k ≤ s.length) (x : Nat) :
    (∃ l1 st1, list_insert (some l) (k : Int) (some x) st = some (some l1, st1) ∧
      Holds st1 l1 (s.take k ++ [some x] ++ s.drop k) ∧
      list_size (some l1) = list_size (some l) + 1) ∧
    list_push_front (some l) (some x) st = list_insert (some l) 0 (some x) st ∧
    list_push_back (some l) (some x) st
      = list_insert (some l) ((list_size (some l) : Nat) : Int) (some x) st := by
  obtain ⟨st1, e1, h1, _⟩ := h.insert k hk x
  refine ⟨⟨_, st1, e1, by simpa using h1, by simp [list_size]⟩, ?_, ?_⟩
  · simp [list_push_front]
  · simp [list_push_back, list_size]

/-- Witness for C2: inserting handle 120 at index 1 of the list `a`, `b`, `c`. -/
theorem C2_insert_witness :
    Holds abc_store abc_list [some 97, some 98, some 99] ∧ 1 ≤ [some 97, some 98, some 99].length ∧
    ((∃ l1 st1, list_insert (some abc_list) ((1 : Nat) : Int) (some 120) abc_store
        = some (some l1, st1) ∧
      Holds st1 l1 (([some 97, some 98, some 99] : List T).take 1 ++ [some 120]
        ++ ([some 97, some 98, some 99] : List T).drop 1) ∧
      list_size (some l1) = list_size (some abc_list) + 1) ∧
    list_push_front (some abc_list) (some 120) abc_store
      = list_insert (some abc_list) 0 (some 120) abc_store ∧
    list_push_back (some abc_list) (some 120) abc_store
      = list_insert (some abc_list) ((list_size (some abc_list) : Nat) : Int) (some 120)
          abc_store) :=
  ⟨abc_holds, by decide,
    C2_insert abc_store abc_list [some 97, some 98, some 99] abc_holds 1 (by decide) 120⟩

/-- C3 (remove): on a list holding `s`, `list_remove` at an index `k` below the size returns
the handle `s[k]`, leaves the list holding `s` with position `k` deleted (so the former
element `k+1` is read back at `k`) and the size one smaller. -/
theorem C3_remove (st : Store) (l : list_t) (s : List T) (h : Holds st l s)
    (k : Nat) (hk : k < s.length) :
    ∃ l1 st1, list_remove (some l) (k : Int) st = some (s[k], some l1, st1) ∧
      Holds st1 l1 (s.eraseIdx k) ∧
      list_size (some l1) + 1 = list_size (some l) ∧
      ∀ (hk1 : k + 1 < s.length), list_get (some l1) (k : Int) st1 = some s[k + 1] := by
  obtain ⟨st1, e1, h1, _⟩ := h.remove k hk
  have hsz := h.size
  refine ⟨_, st1, e1, h1, by simp [list_size]; omega, ?_⟩
  intro hk1
  have hlen : k < (s.eraseIdx k).length := by
    rw [List.length_eraseIdx]
    simp [hk]
    omega
  have := h1.get k hlen
  rw [this]
  congr 1
  rw [List.getElem_eraseIdx]
  simp

/-- Witness for C3: on `a`, `b`, `c`, removing index 1 returns `b`; then index 1 reads `c`
and the size is 2. -/
theorem C3_remove_witness :
    Holds abc_store abc_list [some 97, some 98, some 99] ∧
    ∃ l1 st1, list_remove (some abc_list) ((1 : Nat) : Int) abc_store
        = some (some 98, some l1, st1) ∧
      Holds st1 l1 [some 97, some 99] ∧
      list_size (some l1) + 1 = 3 ∧
      list_get (some l1) ((1 : Nat) : Int) st1 = some (some 99) := by
  obtain ⟨l1, st1, e1, h1, hsz, hg⟩ :=
    C3_remove abc_store abc_list [some 97, some 98, some 99] abc_holds 1 (by decide)
  exact ⟨abc_holds, l1, st1, e1, h1, hsz, hg (by decide)⟩

theorem Holds.push_back {st : Store} {l : list_t} {s : List T} (h : Holds st l s) (x : Nat) :
    ∃ st1, list_push_back (some l) (some x) st
        = some (some { l with size := l.size + 1 }, st1) ∧
      Holds st1 { l with size := l.size + 1 } (s ++ [some x]) ∧ st1.log = st.log := by
  obtain ⟨st1, e1, h1, g1⟩ := h.insert s.length (Nat.le_refl _) x
  rw [← h.size] at e1
  exact ⟨st1, by simp [list_push_back, e1], by simpa using h1, g1⟩

theorem Holds.push_front {st : Store} {l : list_t} {s : List T} (h : Holds st l s) (x : Nat) :
    ∃ st1, list_push_front (some l) (some x) st
        = some (some { l with size := l.size + 1 }, st1) ∧
      Holds st1 { l with size := l.size + 1 } (some x :: s) ∧ st1.log = st.log := by
  obtain ⟨st1, e1, h1, g1⟩ := h.insert 0 (Nat.zero_le _) x
  refine ⟨st1, ?_, by simpa using h1, g1⟩
  simp only [list_push_front]
  simpa using e1

theorem eraseIdx_snoc (s : List T) (e : T) : (s ++ [e]).eraseIdx s.length = s := by
  rw [List.eraseIdx_eq_take_drop_succ]
  simp

theorem Holds.pop_back {st : Store} {l : list_t} {s : List T} {e : T}
    (h : Holds st l (s ++ [e])) :
    ∃ st1, list_pop_back (some l) st = some (e, some { l with size := l.size - 1 }, st1) ∧
      Holds st1 { l with size := l.size - 1 } s ∧ st1.log = st.log := by
  have hsz := h.size
  simp only [List.length_append, List.length_singleton] at hsz
  obtain ⟨st1, e1, h1, g1⟩ := h.remove s.length (by simp)
  have hidx : (l.size : Int) - 1 = ((s.length : Nat) : Int) := by omega
  have hpos : l.size > 0 := by omega
  rw [eraseIdx_snoc] at h1
  refine ⟨st1, ?_, h1, g1⟩
  simp only [list_pop_back, hpos, if_true, hidx]
  simpa using e1

theorem Holds.pop_front {st : Store} {l : list_t} {s : List T} {e : T}
    (h : Holds st l (e :: s)) :
    ∃ st1, list_pop_front (some l) st = some (e, some { l with size := l.size - 1 }, st1) ∧
      Holds st1 { l with size := l.size - 1 } s ∧ st1.log = st.log := by
  have hsz := h.size
  simp only [List.length_cons] at hsz
  obtain ⟨st1, e1, h1, g1⟩ := h.remove 0 (by simp)
  have hpos : l.size > 0 := by omega
  refine ⟨st1, ?_, by simpa using h1, g1⟩
  simp only [list_pop_front, hpos, if_true]
  simpa using e1

/-- C4 (round trip at either end): on a list holding `s`, `list_push_back` of a non-null
handle followed by `list_pop_back` returns that handle, and likewise `list_push_front`
followed by `list_pop_front`; afterwards the list again holds `s` and has its old size. -/
theorem C4_round_trip (st : Store) (l : list_t) (s : List T) (h : Holds st l s) (x : Nat) :
    (∃ l1 st1 l2 st2, list_push_back (some l) (some x) st = some (some l1, st1) ∧
      list_pop_back (some l1) st1 = some (some x, some l2, st2) ∧
      Holds st2 l2 s ∧ list_size (some l2) = list_size (some l)) ∧
    (∃ l1 st1 l2 st2, list_push_front (some l) (some x) st = some (some l1, st1) ∧
      list_pop_front (some l1) st1 = some (some x, some l2, st2) ∧
      Holds st2 l2 s ∧ list_size (some l2) = list_size (some l)) := by
  constructor
  · obtain ⟨st1, e1, h1, _⟩ := h.push_back x
    obtain ⟨st2, e2, h2, _⟩ := h1.pop_back
    exact ⟨_, st1, _, st2, e1, e2, h2, by simp [list_size]⟩
  · obtain ⟨st1, e1, h1, _⟩ := h.push_front x
    obtain ⟨st2, e2, h2, _⟩ := h1.pop_front
    exact ⟨_, st1, _, st2, e1, e2, h2, by simp [list_size]⟩

/-- Witness for C4: pushing and popping handle 120 on the list `a`, `b`, `c`. -/
theorem C4_round_trip_witness :
    Holds abc_store abc_list [some 97, some 98, some 99] ∧
    ((∃ l1 st1 l2 st2, list_push_back (some abc_list) (some 120) abc_store
        = some (some l1, st1) ∧
      list_pop_back (some l1) st1 = some (some 120, some l2, st2) ∧
      Holds st2 l2 [some 97, some 98, some 99] ∧
      list_size (some l2) = list_size (some abc_list)) ∧
    (∃ l1 st1 l2 st2, list_push_front (some abc_list) (some 120) abc_store
        = some (some l1, st1) ∧
      list_pop_front (some l1) st1 = some (some 120, some l2, st2) ∧
      Holds st2 l2 [some 97, some 98, some 99] ∧
      list_size (some l2) = list_size (some abc_list))) :=
  ⟨abc_holds, C4_round_trip abc_store abc_list [some 97, some 98, some 99] abc_holds 120⟩

theorem Chain.emit {st : Store} {l : list_t} {hd tl : Nat} {cells : List Cell}
    (h : Chain st l hd tl cells) (e : Event) : Chain (st.emit e) l hd tl cells := by
  obtain ⟨h1, h2, h3, h4, h5⟩ := h
  exact ⟨h1, h2, h3, h4, Seg_congr (fun _ _ => Store.read_emit st e _) h5⟩

theorem Chain.clear_loop {hd tl : Nat} (cells : List Cell) :
    ∀ (fuel : Nat) (l : list_t) (st : Store), Chain st l hd tl cells → cells.length ≤ fuel →
    ∃ st1, list_clear_loop fuel l st = some ({ l with size := 0 }, st1) ∧
      Chain st1 { l with size := 0 } hd tl [] ∧
      st1.log = st.log ++ cells.map (fun c => Event.destroy l.destroy c.2) ∧
      st1.heap.length = st.heap.length := by
  induction cells with
  | nil =>
    intro fuel l st h _
    have hsz : l.size = 0 := h.2.2.1
    have hl : ({ l with size := 0 } : list_t) = l := by
      cases l; simp at hsz; simp [hsz]
    rw [hl]
    refine ⟨st, ?_, h, by simp, rfl⟩
    unfold list_clear_loop
    simp [list_is_empty, hsz]
  | cons c cs ih =>
    intro fuel l st h hf
    have hsz : l.size = cs.length + 1 := h.2.2.1
    obtain ⟨f, rfl⟩ : ∃ f, fuel = f + 1 := ⟨fuel - 1, by simp at hf; omega⟩
    have h0 : Chain st l hd tl ([] ++ c :: cs) := by simpa using h
    obtain ⟨st5, e5, h5, g5, n5⟩ := h0.remove_at
    have hpop : list_pop_front (some l) st
        = some (c.2, some { l with size := l.size - 1 }, st5) := by
      have hpos : l.size > 0 := by omega
      simp only [list_pop_front, hpos, if_true]
      simpa using e5
    have h6 : Chain (st5.emit (Event.destroy l.destroy c.2)) { l with size := l.size - 1 }
        hd tl cs := by
      simpa using h5.emit (Event.destroy l.destroy c.2)
    obtain ⟨st1, e1, h1, g1, n1⟩ := ih f _ _ h6 (by simp at hf; omega)
    refine ⟨st1, ?_, h1, ?_, by rw [n1]; simpa using n5⟩
    · unfold list_clear_loop
      have hne : list_is_empty (some l) = false := by simp [list_is_empty, hsz]
      simp only [hne, hpop]
      exact e1
    · rw [g1]
      simp [g5]

theorem Chain.clear {st : Store} {l : list_t} {hd tl : Nat} {cells : List Cell}
    (h : Chain st l hd tl cells) :
    ∃ st4, list_clear (some l) st
        = some (some { l with size := 0, head := none, tail := none }, st4) ∧
      st4.log = st.log ++ cells.map (fun c => Event.destroy l.destroy c.2) ∧
      st4.read (some hd) = none ∧ st4.read (some tl) = none := by
  obtain ⟨st1, e1, h1, g1, _⟩ := Chain.clear_loop cells l.size l st h (by rw [h.2.2.1])
  have hhd : l.head = some hd := h.1
  have htl : l.tail = some tl := h.2.1
  have rh := h1.read_head
  have rt := h1.read_tail
  simp only [hhd, htl] at rh rt
  have hne : hd ≠ tl := by
    have := h1.2.2.2.1
    simp [full] at this
    exact this
  obtain ⟨st3, e3, g3, _, r3⟩ := Store.free_spec st1 (some hd) _ rh
  have rt3 : st3.read (some tl) = some ⟨none, lastOf [(hd, none)] none, none⟩ := by
    rw [r3]; simp [Ne.symm hne, rt]
  obtain ⟨st4, e4, g4, _, r4⟩ := Store.free_spec st3 (some tl) _ rt3
  refine ⟨st4, ?_, by rw [g4, g3, g1], by simp [r4, r3, hne], by simp [r4]⟩
  simp [list_clear, bind, e1, hhd, htl, e3, e4]

/-- C6 (evaluation of the code, which departs from the claim): clearing a freshly created
list releases both sentinel nodes and sets `head` and `tail` to `NULL`, whereas the fresh
list has two live sentinels linked to each other. -/
theorem C6_clear_releases_sentinels :
    ∃ l0 st0 l1 st1,
      list_create sample_compare 7 DATA_TYPE_INT none none ⟨[], []⟩ = some (some l0, st0) ∧
      (l0.head = some 0 ∧ l0.tail = some 1 ∧ l0.size = 0 ∧
        st0.read l0.head = some ⟨none, none, l0.tail⟩ ∧
        st0.read l0.tail = some ⟨none, l0.head, none⟩) ∧
      list_clear (some l0) st0 = some (some l1, st1) ∧
      (l1.head = none ∧ l1.tail = none ∧ l1.size = 0 ∧
        st1.read (some 0) = none ∧ st1.read (some 1) = none) :=
  ⟨_, _, _, _, rfl, ⟨rfl, rfl, rfl, rfl, rfl⟩, rfl, ⟨rfl, rfl, rfl, rfl, rfl⟩⟩

/-- C7 (destruction accounting): on a list holding `s`, `list_clear` calls the list's
destruction policy once on each held handle, front to back, and makes no other callback
call; afterwards the size is 0 and `list_is_empty` is true. -/
theorem C7_clear_destroys_each (st : Store) (l : list_t) (s : List T) (h : Holds st l s) :
    ∃ l1 st1, list_clear (some l) st = some (some l1, st1) ∧
      st1.log = st.log ++ s.map (fun e => Event.destroy l.destroy e) ∧
      list_size (some l1) = 0 ∧ list_is_empty (some l1) = true := by
  obtain ⟨hd, tl, cells, hc, rfl⟩ := h
  obtain ⟨st4, e4, g4, _, _⟩ := hc.clear
  refine ⟨_, st4, e4, ?_, rfl, rfl⟩
  rw [g4]
  simp [List.map_map, Function.comp_def]

/-- Witness for C7: clearing the list `a`, `b`, `c`. -/
theorem C7_clear_destroys_each_witness :
    Holds abc_store abc_list [some 97, some 98, some 99] ∧
    ∃ l1 st1, list_clear (some abc_list) abc_store = some (some l1, st1) ∧
      st1.log = abc_store.log
        ++ ([some 97, some 98, some 99] : List T).map (fun e => Event.destroy abc_list.destroy e) ∧
      list_size (some l1) = 0 ∧ list_is_empty (some l1) = true :=
  ⟨abc_holds, C7_clear_destroys_each abc_store abc_list [some 97, some 98, some 99] abc_holds⟩

theorem index_of_compare_seg (cmp : compare_t) (t : T) (tl : Nat) (rest : List Cell) :
    ∀ (z : Cell) (p : Ptr) (fuel : Nat) (i : Int) (st : Store),
    Seg st p (z :: rest ++ [(tl, none)]) none →
    ((z :: rest ++ [(tl, none)]).map Prod.fst).Nodup →
    rest.length < fuel →
    ∃ r n, n ≤ rest.length ∧
      index_of_compare cmp t (some tl) fuel (some z.1) i st
        = some (r, ⟨st.heap, st.log ++ (rest.take n).map (fun c => Event.compare c.2 t)⟩) ∧
      ((r = -1 ∧ n = rest.length ∧ ∀ c ∈ rest, cmp c.2 t ≠ 0) ∨
       (∃ k, ∃ (hk : k < rest.length), r = i + (k : Int) ∧ n = k + 1 ∧
          cmp rest[k].2 t = 0 ∧ ∀ j, ∀ (hj : j < k), cmp rest[j].2 t ≠ 0)) := by
  induction rest with
  | nil =>
    intro z p fuel i st hs _ hf
    obtain ⟨f, rfl⟩ : ∃ f, fuel = f + 1 := ⟨fuel - 1, by simp at hf; omega⟩
    have rz : st.read (some z.1) = some ⟨z.2, p, some tl⟩ := by
      simpa [Seg, nextOf] using hs.1
    refine ⟨-1, 0, Nat.le_refl _, ?_, Or.inl ⟨rfl, rfl, by simp⟩⟩
    simp [index_of_compare, rz]
  | cons y rest ih =>
    intro z p fuel i st hs hnd hf
    obtain ⟨f, rfl⟩ : ∃ f, fuel = f + 1 := ⟨fuel - 1, by simp at hf; omega⟩
    have rz : st.read (some z.1) = some ⟨z.2, p, some y.1⟩ := by
      simpa [Seg, nextOf] using hs.1
    have hs2 : Seg st (some z.1) (y :: rest ++ [(tl, none)]) none := hs.2
    have ry : st.read (some y.1) = some ⟨y.2, some z.1, nextOf (rest ++ [(tl, none)]) none⟩ := by
      simpa [Seg] using hs2.1
    have hnd2 : ((y :: rest ++ [(tl, none)]).map Prod.fst).Nodup := by
      simp only [List.cons_append, List.map_cons, List.nodup_cons] at hnd
      simpa using hnd.2
    have hyt : y.1 ≠ tl := by
      simp only [List.cons_append, List.map_cons, List.nodup_cons, List.map_append,
        List.mem_append] at hnd2
      intro e
      apply hnd2.1
      right
      simp [e]
    by_cases hit : cmp y.2 t = 0
    · refine ⟨i, 1, by simp, ?_, Or.inr ⟨0, by simp, by simp, rfl, by simpa using hit, ?_⟩⟩
      · simp [index_of_compare, rz, ry, hyt, hit, Store.emit]
      · intro j hj; omega
    · have hs3 : Seg (st.emit (Event.compare y.2 t)) (some z.1) (y :: rest ++ [(tl, none)]) none :=
        Seg_congr (fun _ _ => Store.read_emit st _ _) hs2
      obtain ⟨r, n, hn, e, hres⟩ := ih y (some z.1) f (i + 1) _ hs3 hnd2 (by simp at hf; omega)
      refine ⟨r, n + 1, by simp; omega, ?_, ?_⟩
      · simp only [index_of_compare, rz, ry]
        simp only [Option.some.injEq, hyt, or_self, if_false, hit, reduceCtorEq]
        rw [e]
        simp [Store.emit]
      · rcases hres with ⟨h1, h2, h3⟩ | ⟨k, hk, h1, h2, h3, h4⟩
        · refine Or.inl ⟨h1, by simp [h2], ?_⟩
          intro c hc
          rcases List.mem_cons.1 hc with rfl | hc
          · exact hit
          · exact h3 c hc
        · refine Or.inr ⟨k + 1, by simp; omega, by rw [h1]; push_cast; ring, by rw [h2],
            by simpa using h3, ?_⟩
          intro j hj
          cases j with
          | zero => simpa using hit
          | succ j => simpa using h4 j (by omega)

theorem index_of_match_seg (m : match_t) (tl : Nat) (rest : List Cell) :
    ∀ (z : Cell) (p : Ptr) (fuel : Nat) (i : Int) (st : Store),
    Seg st p (z :: rest ++ [(tl, none)]) none →
    ((z :: rest ++ [(tl, none)]).map Prod.fst).Nodup →
    rest.length < fuel →
    ∃ r n, n ≤ rest.length ∧
      index_of_match m (some tl) fuel (some z.1) i st
        = some (r, ⟨st.heap, st.log ++ (rest.take n).map (fun c => Event.matched c.2)⟩) ∧
      ((r = -1 ∧ n = rest.length ∧ ∀ c ∈ rest, m c.2 = false) ∨
       (∃ k, ∃ (hk : k < rest.length), r = i + (k : Int) ∧ n = k + 1 ∧
          m rest[k].2 = true ∧ ∀ j, ∀ (hj : j < k), m rest[j].2 = false)) := by
  induction rest with
  | nil =>
    intro z p fuel i st hs _ hf
    obtain ⟨f, rfl⟩ : ∃ f, fuel = f + 1 := ⟨fuel - 1, by simp at hf; omega⟩
    have rz : st.read (some z.1) = some ⟨z.2, p, some tl⟩ := by
      simpa [Seg, nextOf] using hs.1
    refine ⟨-1, 0, Nat.le_refl _, ?_, Or.inl ⟨rfl, rfl, by simp⟩⟩
    simp [index_of_match, rz]
  | cons y rest ih =>
    intro z p fuel i st hs hnd hf
    obtain ⟨f, rfl⟩ : ∃ f, fuel = f + 1 := ⟨fuel - 1, by simp at hf; omega⟩
    have rz : st.read (some z.1) = some ⟨z.2, p, some y.1⟩ := by
      simpa [Seg, nextOf] using hs.1
    have hs2 : Seg st (some z.1) (y :: rest ++ [(tl, none)]) none := hs.2
    have ry : st.read (some y.1) = some ⟨y.2, some z.1, nextOf (rest ++ [(tl, none)]) none⟩ := by
      simpa [Seg] using hs2.1
    have hnd2 : ((y :: rest ++ [(tl, none)]).map Prod.fst).Nodup := by
      simp only [List.cons_append, List.map_cons, List.nodup_cons] at hnd
      simpa using hnd.2
    have hyt : y.1 ≠ tl := by
      simp only [List.cons_append, List.map_cons, List.nodup_cons, List.map_append,
        List.mem_append] at hnd2
      intro e
      apply hnd2.1
      right
      simp [e]
    by_cases hit : m y.2 = true
    · refine ⟨i, 1, by simp, ?_, Or.inr ⟨0, by simp, by simp, rfl, by simpa using hit, ?_⟩⟩
      · simp [index_of_match, rz, ry, hyt, hit, Store.emit]
      · intro j hj; omega
    · have hs3 : Seg (st.emit (Event.matched y.2)) (some z.1) (y :: rest ++ [(tl, none)]) none :=
        Seg_congr (fun _ _ => Store.read_emit st _ _) hs2
      have hit2 : m y.2 = false := by simpa using hit
      obtain ⟨r, n, hn, e, hres⟩ := ih y (some z.1) f (i + 1) _ hs3 hnd2 (by simp at hf; omega)
      refine ⟨r, n + 1, by simp; omega, ?_, ?_⟩
      · simp only [index_of_match, rz, ry]
        simp only [Option.some.injEq, hyt, or_self, if_false, hit2, reduceCtorEq]
        rw [e]
        simp [Store.emit]
      · rcases hres with ⟨h1, h2, h3⟩ | ⟨k, hk, h1, h2, h3, h4⟩
        · refine Or.inl ⟨h1, by simp [h2], ?_⟩
          intro c hc
          rcases List.mem_cons.1 hc with rfl | hc
          · exact hit2
          · exact h3 c hc
        · refine Or.inr ⟨k + 1, by simp; omega, by rw [h1]; push_cast; ring, by rw [h2],
            by simpa using h3, ?_⟩
          intro j hj
          cases j with
          | zero => simpa using hit2
          | succ j => simpa using h4 j (by omega)

theorem nodup_length_le (xs : List Nat) (n : Nat) (hnd : xs.Nodup) (hlt : ∀ x ∈ xs, x < n) :
    xs.length ≤ n := by
  have h1 : xs.toFinset.card = xs.length := List.toFinset_card_of_nodup hnd
  have h2 : xs.toFinset ⊆ Finset.range n := by
    intro x hx
    exact Finset.mem_range.2 (hlt x (List.mem_toFinset.1 hx))
  have h3 := Finset.card_le_card h2
  rw [Finset.card_range] at h3
  omega

theorem Chain.length_lt {st : Store} {l : list_t} {hd tl : Nat} {cells : List Cell}
    (h : Chain st l hd tl cells) : cells.length < st.heap.length + 1 := by
  have h1 := nodup_length_le ((full hd tl cells).map Prod.fst) st.heap.length h.2.2.2.1
    (by
      intro x hx
      obtain ⟨c, hc, rfl⟩ := List.mem_map.1 hx
      exact Seg_live h.2.2.2.2 c hc)
  simp [full] at h1
  omega

theorem pi_holds : Holds pi_store pi_list [some 103, some 201, some 304, some 401, some 505] := by
  refine ⟨0, 1, [(2, some 103), (3, some 201), (4, some 304), (5, some 401), (6, some 505)],
    ⟨rfl, rfl, rfl, by decide, ?_⟩, rfl⟩
  simp [full, Seg, nextOf, Store.read, pi_store]

theorem pi_generic_holds :
    Holds pi_store pi_generic [some 103, some 201, some 304, some 401, some 505] := by
  refine ⟨0, 1, [(2, some 103), (3, some 201), (4, some 304), (5, some 401), (6, some 505)],
    ⟨rfl, rfl, rfl, by decide, ?_⟩, rfl⟩
  simp [full, Seg, nextOf, Store.read, pi_store]

theorem Holds.index_of_target {st : Store} {l : list_t} {s : List T} (h : Holds st l s)
    (hkind : l.data_type ≠ DATA_TYPE_T) (t : Nat) :
    ∃ r n, n ≤ s.length ∧
      list_index_of (some l) (some (context_t.target t)) st
        = some (r, ⟨st.heap, st.log ++ (s.take n).map (fun e => Event.compare e (some t))
            ++ [Event.destroy l.destroy (some t)]⟩) ∧
      ((r = -1 ∧ n = s.length ∧ ∀ e ∈ s, l.compare e (some t) ≠ 0) ∨
       (∃ k, ∃ (hk : k < s.length), r = (k : Int) ∧ n = k + 1 ∧
          l.compare s[k] (some t) = 0 ∧ ∀ j, ∀ (hj : j < k), l.compare s[j] (some t) ≠ 0)) := by
  obtain ⟨hd, tl, cells, hc, rfl⟩ := h
  obtain ⟨r, n, hn, e, hres⟩ := index_of_compare_seg l.compare (some t) tl cells (hd, none) none
    (st.heap.length + 1) 0 st hc.2.2.2.2 hc.2.2.2.1 hc.length_lt
  refine ⟨r, n, by simpa using hn, ?_, ?_⟩
  · simp only [list_index_of, hkind, if_false, hc.1, hc.2.1]
    simp only [] at e
    rw [e]
    simp [Store.emit, List.map_take, List.map_map, Function.comp_def]
  · rcases hres with ⟨h1, h2, h3⟩ | ⟨k, hk, h1, h2, h3, h4⟩
    · refine Or.inl ⟨h1, by simpa using h2, ?_⟩
      intro e he
      obtain ⟨c, hc1, rfl⟩ := List.mem_map.1 he
      exact h3 c hc1
    · refine Or.inr ⟨k, by simpa using hk, by simpa using h1, h2, by simpa using h3, ?_⟩
      intro j hj
      simpa using h4 j hj

theorem Holds.index_of_matcher {st : Store} {l : list_t} {s : List T} (h : Holds st l s)
    (hkind : l.data_type = DATA_TYPE_T) (m : match_t) :
    ∃ r n, n ≤ s.length ∧
      list_index_of (some l) (some (context_t.matcher m)) st
        = some (r, ⟨st.heap, st.log ++ (s.take n).map (fun e => Event.matched e)⟩) ∧
      ((r = -1 ∧ n = s.length ∧ ∀ e ∈ s, m e = false) ∨
       (∃ k, ∃ (hk : k < s.length), r = (k : Int) ∧ n = k + 1 ∧
          m s[k] = true ∧ ∀ j, ∀ (hj : j < k), m s[j] = false)) := by
  obtain ⟨hd, tl, cells, hc, rfl⟩ := h
  obtain ⟨r, n, hn, e, hres⟩ := index_of_match_seg m tl cells (hd, none) none
    (st.heap.length + 1) 0 st hc.2.2.2.2 hc.2.2.2.1 hc.length_lt
  refine ⟨r, n, by simpa using hn, ?_, ?_⟩
  · simp only [list_index_of, hkind, if_true, hc.1, hc.2.1]
    simp only [] at e
    rw [e]
    simp [List.map_take, List.map_map, Function.comp_def]
  · rcases hres with ⟨h1, h2, h3⟩ | ⟨k, hk, h1, h2, h3, h4⟩
    · refine Or.inl ⟨h1, by simpa using h2, ?_⟩
      intro e he
      obtain ⟨c, hc1, rfl⟩ := List.mem_map.1 he
      exact h3 c hc1
    · refine Or.inr ⟨k, by simpa using hk, by simpa using h1, h2, by simpa using h3, ?_⟩
      intro j hj
      simpa using h4 j hj

theorem Holds.of_heap_eq {st st1 : Store} {l : list_t} {s : List T} (h : Holds st l s)
    (he : st1.heap = st.heap) : Holds st1 l s := by
  obtain ⟨hd, tl, cells, ⟨h1, h2, h3, h4, h5⟩, hs⟩ := h
  refine ⟨hd, tl, cells, ⟨h1, h2, h3, h4, Seg_congr ?_ h5⟩, hs⟩
  intro c _
  simp [Store.read, he]

/-- C8 (search by target): on a primitive-kind list holding `s`, `list_index_of` with a
non-null target handle returns the smallest index whose element compares equal to the
target under the list's own comparison policy, and -1 when no element compares equal. -/
theorem C8_index_of_first_equal (st : Store) (l : list_t) (s : List T) (h : Holds st l s)
    (hkind : l.data_type ≠ DATA_TYPE_T) (t : Nat) :
    ∃ r st1, list_index_of (some l) (some (context_t.target t)) st = some (r, st1) ∧
      ((r = -1 ∧ ∀ e ∈ s, l.compare e (some t) ≠ 0) ∨
       (∃ k, ∃ (hk : k < s.length), r = (k : Int) ∧
          l.compare s[k] (some t) = 0 ∧ ∀ j, ∀ (hj : j < k), l.compare s[j] (some t) ≠ 0)) := by
  obtain ⟨r, n, _, e, hres⟩ := h.index_of_target hkind t
  refine ⟨r, _, e, ?_⟩
  rcases hres with ⟨h1, _, h3⟩ | ⟨k, hk, h1, _, h3, h4⟩
  · exact Or.inl ⟨h1, h3⟩
  · exact Or.inr ⟨k, hk, h1, h3, h4⟩

/-- Witness for C8: on the list 3, 1, 4, 1, 5 the target 1 (boxed in handle 901) is found
at index 1. -/
theorem C8_index_of_first_equal_witness :
    Holds pi_store pi_list [some 103, some 201, some 304, some 401, some 505] ∧
    pi_list.data_type ≠ DATA_TYPE_T ∧
    (∃ r st1, list_index_of (some pi_list) (some (context_t.target 901)) pi_store
        = some (r, st1) ∧
      ((r = -1 ∧ ∀ e ∈ ([some 103, some 201, some 304, some 401, some 505] : List T),
          pi_list.compare e (some 901) ≠ 0) ∨
       (∃ k, ∃ (hk : k < ([some 103, some 201, some 304, some 401, some 505] : List T).length),
          r = (k : Int) ∧
          pi_list.compare ([some 103, some 201, some 304, some 401, some 505] : List T)[k]
            (some 901) = 0 ∧
          ∀ j, ∀ (hj : j < k),
            pi_list.compare ([some 103, some 201, some 304, some 401, some 505] : List T)[j]
              (some 901) ≠ 0))) ∧
    (list_index_of (some pi_list) (some (context_t.target 901)) pi_store).map Prod.fst
      = some 1 :=
  ⟨pi_holds, by decide,
    C8_index_of_first_equal pi_store pi_list _ pi_holds (by decide) 901, rfl⟩

/-- C9 (counterexample to the claim as worded): the integer list 3, 1, 4, 1, 5 holds the
handle 201 at index 1; `list_index_of` with that very handle as the target returns 1 and
makes its one destruction call on handle 201, an element the list still holds afterwards. -/
theorem C9_aliased_target_destroys_held :
    Holds pi_store pi_list [some 103, some 201, some 304, some 401, some 505] ∧
    pi_list.data_type ≠ DATA_TYPE_T ∧
    (some 201 : T) ∈ ([some 103, some 201, some 304, some 401, some 505] : List T) ∧
    ∃ st1, list_index_of (some pi_list) (some (context_t.target 201)) pi_store
        = some (1, st1) ∧
      st1.log = [Event.compare (some 103) (some 201), Event.compare (some 201) (some 201),
        Event.destroy pi_list.destroy (some 201)] ∧
      Event.destroy pi_list.destroy
        (([some 103, some 201, some 304, some 401, some 505] : List T).get ⟨1, by decide⟩)
          ∈ st1.log ∧
      list_get (some pi_list) 1 st1 = some (some 201) :=
  ⟨pi_holds, by decide, by decide, _, rfl, rfl, by decide, rfl⟩

/-- C9 (amended; the target is consumed): on a primitive-kind list holding `s`,
`list_index_of` with a non-null target handle compares a prefix of the elements with the
target and then calls the destruction policy exactly once, on the target handle, whether or
not a match was found; node memory is untouched, so the list still holds `s` with the same
size.  No other destruction call is made, so no element of the list is destroyed when the
target handle is not one of the handles the list holds; when it is one of them, that held
handle is the one destroyed. -/
theorem C9_index_of_destroys_target (st : Store) (l : list_t) (s : List T) (h : Holds st l s)
    (hkind : l.data_type ≠ DATA_TYPE_T) (t : Nat) :
    ∃ r st1 n, list_index_of (some l) (some (context_t.target t)) st = some (r, st1) ∧
      n ≤ s.length ∧
      st1.log = st.log ++ (s.take n).map (fun e => Event.compare e (some t))
        ++ [Event.destroy l.destroy (some t)] ∧
      st1.heap = st.heap ∧ Holds st1 l s ∧
      ((r = -1 ∧ n = s.length) ∨ (r = (n : Int) - 1 ∧ 0 < n)) ∧
      ∃ added, st1.log = st.log ++ added ∧
        added.count (Event.destroy l.destroy (some t)) = 1 ∧
        (∀ d e, Event.destroy d e ∈ added → d = l.destroy ∧ e = some t) ∧
        (some t ∉ s → ∀ e ∈ s, ∀ d, Event.destroy d e ∉ added) ∧
        (some t ∈ s → ∃ e ∈ s, Event.destroy l.destroy e ∈ added) := by
  obtain ⟨r, n, hn, e, hres⟩ := h.index_of_target hkind t
  have hmem : ∀ d x, Event.destroy d x ∈ (s.take n).map (fun e => Event.compare e (some t))
      ++ [Event.destroy l.destroy (some t)] → d = l.destroy ∧ x = some t := by
    intro d x hx
    rcases List.mem_append.1 hx with h1 | h1
    · obtain ⟨y, _, hy⟩ := List.mem_map.1 h1
      exact absurd hy (by simp)
    · have := List.mem_singleton.1 h1
      simpa using this
  have hnot : Event.destroy l.destroy (some t)
      ∉ (s.take n).map (fun e => Event.compare e (some t)) := by
    intro h1
    obtain ⟨y, _, hy⟩ := List.mem_map.1 h1
    exact absurd hy (by simp)
  refine ⟨r, _, n, e, hn, rfl, rfl, h.of_heap_eq rfl, ?_,
    (s.take n).map (fun e => Event.compare e (some t)) ++ [Event.destroy l.destroy (some t)],
    by simp only [List.append_assoc], ?_, hmem, ?_, ?_⟩
  · rcases hres with ⟨h1, h2, _⟩ | ⟨k, _, h1, h2, _, _⟩
    · exact Or.inl ⟨h1, h2⟩
    · refine Or.inr ⟨?_, by omega⟩
      rw [h1, h2]
      push_cast
      ring
  · rw [List.count_append, List.count_eq_zero_of_not_mem hnot]
    simp
  · intro ht x hx d hd
    have := (hmem d x hd).2
    exact ht (this ▸ hx)
  · intro ht
    exact ⟨some t, ht, by simp⟩

/-- Witness for C9: searching the list 3, 1, 4, 1, 5 for the target boxed in handle 901,
which the list does not hold. -/
theorem C9_index_of_destroys_target_witness :
    Holds pi_store pi_list [some 103, some 201, some 304, some 401, some 505] ∧
    pi_list.data_type ≠ DATA_TYPE_T ∧
    (some 901 : T) ∉ ([some 103, some 201, some 304, some 401, some 505] : List T) ∧
    (∃ r st1 n, list_index_of (some pi_list) (some (context_t.target 901)) pi_store
        = some (r, st1) ∧
      n ≤ ([some 103, some 201, some 304, some 401, some 505] : List T).length ∧
      st1.log = pi_store.log
        ++ (([some 103, some 201, some 304, some 401, some 505] : List T).take n).map
            (fun e => Event.compare e (some 901))
        ++ [Event.destroy pi_list.destroy (some 901)] ∧
      st1.heap = pi_store.heap ∧
      Holds st1 pi_list [some 103, some 201, some 304, some 401, some 505] ∧
      ((r = -1 ∧ n = ([some 103, some 201, some 304, some 401, some 505] : List T).length) ∨
        (r = (n : Int) - 1 ∧ 0 < n)) ∧
      ∃ added, st1.log = pi_store.log ++ added ∧
        added.count (Event.destroy pi_list.destroy (some 901)) = 1 ∧
        (∀ d e, Event.destroy d e ∈ added → d = pi_list.destroy ∧ e = some 901) ∧
        ((some 901 : T) ∉ ([some 103, some 201, some 304, some 401, some 505] : List T) →
          ∀ e ∈ ([some 103, some 201, some 304, some 401, some 505] : List T),
            ∀ d, Event.destroy d e ∉ added) ∧
        ((some 901 : T) ∈ ([some 103, some 201, some 304, some 401, some 505] : List T) →
          ∃ e ∈ ([some 103, some 201, some 304, some 401, some 505] : List T),
            Event.destroy pi_list.destroy e ∈ added)) ∧
    (list_index_of (some pi_list) (some (context_t.target 901)) pi_store).map
        (fun p => p.2.log)
      = some [Event.compare (some 103) (some 901), Event.compare (some 201) (some 901),
          Event.destroy 7 (some 901)] :=
  ⟨pi_holds, by decide, by decide,
    C9_index_of_destroys_target pi_store pi_list _ pi_holds (by decide) 901, rfl⟩

/-- C10 (search by matcher): on a generic-kind list holding `s`, `list_index_of` with a
matcher returns the smallest index at which the matcher is true and -1 when it is true for
no element; the matcher is applied to the elements in forward order up to the first hit,
and no comparison or destruction call is made. -/
theorem C10_index_of_matcher (st : Store) (l : list_t) (s : List T) (h : Holds st l s)
    (hkind : l.data_type = DATA_TYPE_T) (m : match_t) :
    ∃ r st1 n, list_index_of (some l) (some (context_t.matcher m)) st = some (r, st1) ∧
      n ≤ s.length ∧
      st1.log = st.log ++ (s.take n).map (fun e => Event.matched e) ∧
      st1.heap = st.heap ∧
      ((r = -1 ∧ n = s.length ∧ ∀ e ∈ s, m e = false) ∨
       (∃ k, ∃ (hk : k < s.length), r = (k : Int) ∧ n = k + 1 ∧
          m s[k] = true ∧ ∀ j, ∀ (hj : j < k), m s[j] = false)) ∧
      ((∀ e ∈ s, m e = false) → r = -1) := by
  obtain ⟨r, n, hn, e, hres⟩ := h.index_of_matcher hkind m
  refine ⟨r, _, n, e, hn, rfl, rfl, hres, ?_⟩
  intro hall
  rcases hres with ⟨h1, _, _⟩ | ⟨k, hk, _, _, h3, _⟩
  · exact h1
  · have := hall s[k] (List.getElem_mem _)
    rw [this] at h3
    cases h3

/-- Witness for C10: on the generic list with handles 103, 201, 304, 401, 505 a matcher
that accepts handles above 300 first hits at index 2. -/
theorem C10_index_of_matcher_witness :
    Holds pi_store pi_generic [some 103, some 201, some 304, some 401, some 505] ∧
    pi_generic.data_type = DATA_TYPE_T ∧
    (∃ r st1 n, list_index_of (some pi_generic)
        (some (context_t.matcher (fun e => decide (e.getD 0 > 300)))) pi_store = some (r, st1) ∧
      n ≤ ([some 103, some 201, some 304, some 401, some 505] : List T).length ∧
      st1.log = pi_store.log
        ++ (([some 103, some 201, some 304, some 401, some 505] : List T).take n).map
            (fun e => Event.matched e) ∧
      st1.heap = pi_store.heap ∧
      ((r = -1 ∧ n = ([some 103, some 201, some 304, some 401, some 505] : List T).length ∧
          ∀ e ∈ ([some 103, some 201, some 304, some 401, some 505] : List T),
            (fun e : T => decide (e.getD 0 > 300)) e = false) ∨
       (∃ k, ∃ (hk : k < ([some 103, some 201, some 304, some 401, some 505] : List T).length),
          r = (k : Int) ∧ n = k + 1 ∧
          (fun e : T => decide (e.getD 0 > 300))
            ([some 103, some 201, some 304, some 401, some 505] : List T)[k] = true ∧
          ∀ j, ∀ (hj : j < k), (fun e : T => decide (e.getD 0 > 300))
            ([some 103, some 201, some 304, some 401, some 505] : List T)[j] = false)) ∧
      ((∀ e ∈ ([some 103, some 201, some 304, some 401, some 505] : List T),
          (fun e : T => decide (e.getD 0 > 300)) e = false) → r = -1)) ∧
    (list_index_of (some pi_generic)
        (some (context_t.matcher (fun e => decide (e.getD 0 > 300)))) pi_store).map Prod.fst
      = some 2 :=
  ⟨pi_generic_holds, rfl,
    C10_index_of_matcher pi_store pi_generic _ pi_generic_holds rfl
      (fun e => decide (e.getD 0 > 300)), rfl⟩

theorem Chain.set_at {st : Store} {l : list_t} {hd tl : Nat} {xs ys : List Cell} {c : Cell}
    (h : Chain st l hd tl (xs ++ c :: ys)) (data : T) :
    ∃ st1, list_set (some l) (xs.length : Int) data st = some st1 ∧
      Chain st1 l hd tl (xs ++ (c.1, data) :: ys) ∧
      st1.log = st.log ++ [Event.destroy l.destroy c.2] ∧
      st1.heap.length = st.heap.length := by
  have hnode := h.get_node
  have rc := h.read_cell
  obtain ⟨h1, h2, h3, h4, h5⟩ := h
  have hsz : l.size = xs.length + (ys.length + 1) := by simpa using h3
  have hg : (0 : Int) ≤ (xs.length : Int) ∧ (xs.length : Int) < (l.size : Int) := by
    constructor <;> omega
  obtain ⟨st1, e1, g1, n1, r1⟩ := Store.set_data_spec (st.emit (Event.destroy l.destroy c.2))
    (some c.1) _ data (by rw [Store.read_emit]; exact rc)
  have hF : full hd tl (xs ++ c :: ys) = ((hd, none) :: xs) ++ c :: (ys ++ [(tl, none)]) := by
    simp [full]
  have hF2 : full hd tl (xs ++ (c.1, data) :: ys)
      = ((hd, none) :: xs) ++ (c.1, data) :: (ys ++ [(tl, none)]) := by
    simp [full]
  rw [hF] at h4 h5
  refine ⟨st1, ?_, ⟨h1, h2, by simpa using h3, ?_, ?_⟩, by simp [g1], by simp [n1]⟩
  · simp only [list_set, hg, and_self, if_true, hnode, rc]
    exact e1
  · rw [hF2]
    simpa using h4
  · rw [hF2]
    rw [List.map_append, List.nodup_append] at h4
    obtain ⟨_, hn2, hdis⟩ := h4
    simp only [List.map_cons, List.nodup_cons, List.mem_map, not_exists, not_and] at hn2
    rw [Seg_append] at h5 ⊢
    obtain ⟨hA, hc, hB⟩ := h5
    refine ⟨Seg_congr ?_ (by simpa [nextOf] using hA), ?_, Seg_congr ?_ hB⟩
    · intro d hd1
      have hne : d.1 ≠ c.1 := by
        intro e
        exact hdis (List.mem_map_of_mem _ hd1) (by simp [e])
      simp [r1, hne]
    · simp only [r1, if_true]
    · intro d hd1
      have hne : d.1 ≠ c.1 := by
        intro e
        exact hn2.1 d hd1 e
      simp [r1, hne]

theorem Holds.set {st : Store} {l : list_t} {s : List T} (h : Holds st l s)
    (k : Nat) (hk : k < s.length) (data : T) :
    ∃ st1, list_set (some l) (k : Int) data st = some st1 ∧
      Holds st1 l (s.set k data) ∧
      st1.log = st.log ++ [Event.destroy l.destroy s[k]] := by
  obtain ⟨hd, tl, cells, hc, rfl⟩ := h
  have hk1 : k < cells.length := by simpa using hk
  obtain ⟨e, hlen⟩ := split_at cells k hk1
  have hc2 := hc
  rw [e] at hc2
  obtain ⟨st1, e1, hc1, g1, _⟩ := hc2.set_at data
  rw [hlen] at e1
  refine ⟨st1, e1, ⟨hd, tl, _, hc1, ?_⟩, by simpa using g1⟩
  apply List.ext_getElem
  · simp
    omega
  · intro i h1 h2
    simp only [List.getElem_map, List.getElem_set, List.getElem_append, List.length_take,
      List.getElem_take, List.getElem_cons, List.getElem_drop]
    have hm : min k cells.length = k := by omega
    simp only [hm]
    by_cases hik : i < k
    · have : ¬ k = i := by omega
      simp [hik, this]
    · by_cases hik2 : k = i
      · simp [hik2]
      · have h3 : ¬ i - k = 0 := by omega
        have h4 : k + 1 + (i - k - 1) = i := by omega
        simp [hik, hik2, h3, h4]

theorem count_until_seg (st : Store) (tl : Nat) (rest : List Cell) :
    ∀ (p : Ptr) (fuel : Nat), Seg st p (rest ++ [(tl, none)]) none →
    ((rest ++ [(tl, none)]).map Prod.fst).Nodup → rest.length < fuel →
    count_until st (some tl) fuel (nextOf (rest ++ [(tl, none)]) none) = some rest.length := by
  induction rest with
  | nil =>
    intro p fuel _ _ hf
    obtain ⟨f, rfl⟩ : ∃ f, fuel = f + 1 := ⟨fuel - 1, by simp at hf; omega⟩
    simp [count_until, nextOf]
  | cons y rest ih =>
    intro p fuel hs hnd hf
    obtain ⟨f, rfl⟩ : ∃ f, fuel = f + 1 := ⟨fuel - 1, by simp at hf; omega⟩
    have ry : st.read (some y.1) = some ⟨y.2, p, nextOf (rest ++ [(tl, none)]) none⟩ := by
      simpa [Seg] using hs.1
    have hnd2 : ((rest ++ [(tl, none)]).map Prod.fst).Nodup := by
      simp only [List.cons_append, List.map_cons, List.nodup_cons] at hnd
      exact hnd.2
    have hyt : y.1 ≠ tl := by
      simp only [List.cons_append, List.map_cons, List.nodup_cons, List.map_append,
        List.mem_append] at hnd
      intro e
      apply hnd.1
      right
      simp [e]
    have := ih (some y.1) f hs.2 hnd2 (by simp at hf; omega)
    show count_until st (some tl) (f + 1) (some y.1) = some (rest.length + 1)
    simp only [count_until, Option.some.injEq, hyt, if_false, ry, this, Option.map_some']

theorem Chain.count_nodes {st : Store} {l : list_t} {hd tl : Nat} {cells : List Cell}
    (h : Chain st l hd tl cells) : count_between st l = some l.size := by
  have rh := h.read_head
  have hlt := h.length_lt
  obtain ⟨_, h2, h3, h4, h5⟩ := h
  have hnd : ((cells ++ [(tl, none)]).map Prod.fst).Nodup := by
    simp only [full, List.cons_append, List.map_cons, List.nodup_cons] at h4
    exact h4.2
  have := count_until_seg st tl cells (some hd) (st.heap.length + 1) h5.2 hnd hlt
  simp only [count_between, rh, h2, h3]
  exact this

theorem Holds.run_op {st : Store} {l : list_t} {s : List T} (h : Holds st l s) (op : Op) :
    ∃ l1 st1 s1, op.run l st = some (l1, st1) ∧ Holds st1 l1 s1 ∧
      l1.size + (if op.is_pop l.size then 1 else 0)
        = l.size + (if op.is_push l.size then 1 else 0) := by
  have hsz := h.size
  cases op with
  | insert i d =>
    by_cases hg : 0 ≤ i ∧ i ≤ (l.size : Int) ∧ d ≠ none
    · obtain ⟨h0, h1, h2⟩ := hg
      obtain ⟨k, rfl⟩ := Int.eq_ofNat_of_zero_le h0
      obtain ⟨x, rfl⟩ := Option.ne_none_iff_exists'.1 h2
      obtain ⟨st1, e1, h3, _⟩ := h.insert k (by omega) x
      refine ⟨_, st1, _, ?_, h3, ?_⟩
      · simp [Op.run, e1]
      · simp [Op.is_push, Op.is_pop, h1]
    · refine ⟨l, st, s, ?_, h, ?_⟩
      · simp [Op.run, list_insert, hg]
      · have : (decide (0 ≤ i) && decide (i ≤ (l.size : Int)) && d.isSome) = false := by
          by_contra hc
          simp only [Bool.not_eq_false, Bool.and_eq_true, decide_eq_true_eq] at hc
          exact hg ⟨hc.1.1, hc.1.2, by
            intro e; rw [e] at hc; simp at hc⟩
        simp [Op.is_push, Op.is_pop, this]
  | push_front d =>
    cases d with
    | none => exact ⟨l, st, s, by simp [Op.run, list_push_front], h, by simp [Op.is_push, Op.is_pop]⟩
    | some x =>
      obtain ⟨st1, e1, h1, _⟩ := h.push_front x
      exact ⟨_, st1, _, by simp [Op.run, e1], h1, by simp [Op.is_push, Op.is_pop]⟩
  | push_back d =>
    cases d with
    | none => exact ⟨l, st, s, by simp [Op.run, list_push_back], h, by simp [Op.is_push, Op.is_pop]⟩
    | some x =>
      obtain ⟨st1, e1, h1, _⟩ := h.push_back x
      exact ⟨_, st1, _, by simp [Op.run, e1], h1, by simp [Op.is_push, Op.is_pop]⟩
  | pop_front =>
    cases s with
    | nil =>
      have h0 : l.size = 0 := by simpa using hsz
      exact ⟨l, st, [], by simp [Op.run, list_pop_front, h0], h, by simp [Op.is_push, Op.is_pop, h0]⟩
    | cons e s =>
      have h0 : 0 < l.size := by simp at hsz; omega
      obtain ⟨st1, e1, h1, _⟩ := h.pop_front
      refine ⟨_, st1, _, by simp [Op.run, e1], h1, ?_⟩
      simp [Op.is_push, Op.is_pop, h0]
      omega
  | pop_back =>
    rcases List.eq_nil_or_concat s with rfl | ⟨s1, e, rfl⟩
    · have h0 : l.size = 0 := by simpa using hsz
      exact ⟨l, st, [], by simp [Op.run, list_pop_back, h0], h, by simp [Op.is_push, Op.is_pop, h0]⟩
    · have h0 : 0 < l.size := by simp at hsz; omega
      have h' : Holds st l (s1 ++ [e]) := by simpa using h
      obtain ⟨st1, e1, h1, _⟩ := h'.pop_back
      refine ⟨_, st1, _, by simp [Op.run, e1], h1, ?_⟩
      simp [Op.is_push, Op.is_pop, h0]
      omega
  | remove i =>
    by_cases hg : 0 ≤ i ∧ i < (l.size : Int)
    · obtain ⟨h0, h1⟩ := hg
      obtain ⟨k, rfl⟩ := Int.eq_ofNat_of_zero_le h0
      obtain ⟨st1, e1, h3, _⟩ := h.remove k (by omega)
      refine ⟨_, st1, _, by simp [Op.run, e1], h3, ?_⟩
      have : 0 < l.size := by omega
      simp [Op.is_push, Op.is_pop, h1]
      omega
    · refine ⟨l, st, s, ?_, h, ?_⟩
      · have hg2 : ¬ (0 ≤ i ∧ i < (l.size : Int) ∧ l.size > 0) := fun hc => hg ⟨hc.1, hc.2.1⟩
        simp [Op.run, list_remove, hg2]
      · have : (decide (0 ≤ i) && decide (i < (l.size : Int))) = false := by
          by_contra hc
          simp only [Bool.not_eq_false, Bool.and_eq_true, decide_eq_true_eq] at hc
          exact hg hc
        simp [Op.is_push, Op.is_pop, this]
  | set i d =>
    by_cases hg : 0 ≤ i ∧ i < (l.size : Int)
    · obtain ⟨h0, h1⟩ := hg
      obtain ⟨k, rfl⟩ := Int.eq_ofNat_of_zero_le h0
      obtain ⟨st1, e1, h3, _⟩ := h.set k (by omega) d
      exact ⟨l, st1, _, by simp [Op.run, e1], h3, by simp [Op.is_push, Op.is_pop]⟩
    · exact ⟨l, st, s, by simp [Op.run, list_set, hg], h, by simp [Op.is_push, Op.is_pop]⟩

theorem Holds.run_ops (ops : List Op) :
    ∀ {st : Store} {l : list_t} {s : List T}, Holds st l s →
    ∃ l2 st2 n m s2, run_ops ops l st = some (l2, st2, n, m) ∧ Holds st2 l2 s2 ∧
      l2.size + m = l.size + n := by
  induction ops with
  | nil =>
    intro st l s h
    exact ⟨l, st, 0, 0, s, rfl, h, rfl⟩
  | cons op ops ih =>
    intro st l s h
    obtain ⟨l1, st1, s1, e1, h1, hsz1⟩ := h.run_op op
    obtain ⟨l2, st2, n, m, s2, e2, h2, hsz2⟩ := ih h1
    refine ⟨l2, st2, n + (if op.is_push l.size then 1 else 0),
      m + (if op.is_pop l.size then 1 else 0), s2, ?_, h2, ?_⟩
    · simp [COOP.run_ops, e1, e2]
    · omega

theorem Holds.count {st : Store} {l : list_t} {s : List T} (h : Holds st l s) :
    count_between st l = some l.size := by
  obtain ⟨hd, tl, cells, hc, _⟩ := h
  exact hc.count_nodes

/-- C5 (size invariant): every sequence of insert/push/pop/remove/set calls on a freshly
created list runs to completion, and in the state it reaches the size counter equals the
number of nodes strictly between the two sentinels; with `n` successful pushes and `m`
successful pops or removes on the way, `m ≤ n` and `list_size` returns `n - m`. -/
theorem C5_size_invariant (compare_default : compare_t) (destroy_default : destroy_t)
    (data_type : data_type_t) (compare : Option compare_t) (destroy : Option destroy_t)
    (st : Store) (hv : is_valid_cino_data_type data_type = true) (ops : List Op) :
    ∃ l0 st0 l1 st1 n m,
      list_create compare_default destroy_default data_type compare destroy st
        = some (some l0, st0) ∧
      run_ops ops l0 st0 = some (l1, st1, n, m) ∧
      count_between st1 l1 = some (list_size (some l1)) ∧
      m ≤ n ∧ list_size (some l1) = n - m := by
  obtain ⟨st0, e0, hc0, _, _⟩ :=
    create_chain compare_default destroy_default data_type compare destroy st hv
  have h0 : Holds st0 _ [] := ⟨_, _, [], hc0, rfl⟩
  obtain ⟨l1, st1, n, m, s1, e1, h1, hsz⟩ := h0.run_ops ops
  simp only [zero_add] at hsz
  exact ⟨_, st0, l1, st1, n, m, e0, e1, h1.count, by omega, by simp only [list_size]; omega⟩

/-- Witness for C5: three pushes, a rejected insert, a remove, a pop on a fresh list. -/
theorem C5_size_invariant_witness :
    is_valid_cino_data_type DATA_TYPE_CHAR = true ∧
    (∃ l0 st0 l1 st1 n m,
      list_create sample_compare 7 DATA_TYPE_CHAR none none ⟨[], []⟩ = some (some l0, st0) ∧
      run_ops [Op.push_back (some 97), Op.push_front (some 98), Op.insert 1 (some 99),
          Op.insert 7 (some 100), Op.remove 1, Op.set 0 (some 101), Op.pop_back] l0 st0
        = some (l1, st1, n, m) ∧
      count_between st1 l1 = some (list_size (some l1)) ∧
      m ≤ n ∧ list_size (some l1) = n - m) :=
  ⟨rfl, C5_size_invariant sample_compare 7 DATA_TYPE_CHAR none none ⟨[], []⟩ rfl
    [Op.push_back (some 97), Op.push_front (some 98), Op.insert 1 (some 99),
      Op.insert 7 (some 100), Op.remove 1, Op.set 0 (some 101), Op.pop_back]⟩

/-- C11 (rejected insert): `list_insert` with a null handle, or with an index below 0 or
above the size, returns the list it was given and leaves the list record and node memory
(element sequence, size, links) and the callback log exactly as they were; `list_push_front`
and `list_push_back` do the same for a null handle. -/
theorem C11_insert_rejects (st : Store) (l : list_t) (index : Int) (data : T)
    (h : data = none ∨ index < 0 ∨ (list_size (some l) : Int) < index) :
    list_insert (some l) index data st = some (some l, st) ∧
    list_push_front (some l) none st = some (some l, st) ∧
    list_push_back (some l) none st = some (some l, st) := by
  refine ⟨?_, by simp [list_push_front], by simp [list_push_back]⟩
  have hg : ¬ (0 ≤ index ∧ index ≤ (l.size : Int) ∧ data ≠ none) := by
    simp only [list_size] at h
    rintro ⟨h0, h1, h2⟩
    rcases h with h | h | h
    · exact h2 h
    · omega
    · omega
  simp [list_insert, hg]

/-- Witness for C11: inserting at index 4 into the three-element list `a`, `b`, `c`. -/
theorem C11_insert_rejects_witness :
    ((some 120 : T) = none ∨ (4 : Int) < 0 ∨ (list_size (some abc_list) : Int) < 4) ∧
    (list_insert (some abc_list) 4 (some 120) abc_store = some (some abc_list, abc_store) ∧
    list_push_front (some abc_list) none abc_store = some (some abc_list, abc_store) ∧
    list_push_back (some abc_list) none abc_store = some (some abc_list, abc_store)) :=
  ⟨Or.inr (Or.inr (by decide)),
    C11_insert_rejects abc_store abc_list 4 (some 120) (Or.inr (Or.inr (by decide)))⟩

/-- C12 (out-of-range access): for an index below 0 or not below the size, `list_get` and
`list_remove` return the null handle and `list_set` returns without effect: the list
record, node memory and the callback log (so no destruction call) are unchanged. -/
theorem C12_out_of_range (st : Store) (l : list_t) (index : Int) (data : T)
    (h : index < 0 ∨ (list_size (some l) : Int) ≤ index) :
    list_get (some l) index st = some none ∧
    list_remove (some l) index st = some (none, some l, st) ∧
    list_set (some l) index data st = some st := by
  simp only [list_size] at h
  have hg : ¬ (0 ≤ index ∧ index < (l.size : Int)) := by
    rintro ⟨h0, h1⟩
    omega
  have hg2 : ¬ (0 ≤ index ∧ index < (l.size : Int) ∧ l.size > 0) := fun hc => hg ⟨hc.1, hc.2.1⟩
  exact ⟨by simp [list_get, hg], by simp [list_remove, hg2], by simp [list_set, hg]⟩

/-- Witness for C12: index 3 and the three-element list `a`, `b`, `c`. -/
theorem C12_out_of_range_witness :
    ((3 : Int) < 0 ∨ (list_size (some abc_list) : Int) ≤ 3) ∧
    (list_get (some abc_list) 3 abc_store = some none ∧
    list_remove (some abc_list) 3 abc_store = some (none, some abc_list, abc_store) ∧
    list_set (some abc_list) 3 (some 120) abc_store = some abc_store) :=
  ⟨Or.inr (by decide), C12_out_of_range abc_store abc_list 3 (some 120) (Or.inr (by decide))⟩

theorem Chain.get_front {st : Store} {l : list_t} {hd tl : Nat} {c : Cell} {ys : List Cell}
    (h : Chain st l hd tl (c :: ys)) : list_get_front (some l) st = some c.2 := by
  have hsz : l.size = ys.length + 1 := by simpa using h.2.2.1
  have hpos : l.size > 0 := by omega
  have rh := h.read_head
  have h0 : Chain st l hd tl ([] ++ c :: ys) := by simpa using h
  have rc := h0.read_cell
  simp only [List.cons_append, nextOf] at rh
  simp only [list_get_front, hpos, if_true, rh, rc]

theorem Chain.get_back {st : Store} {l : list_t} {hd tl : Nat} {c : Cell} {xs : List Cell}
    (h : Chain st l hd tl (xs ++ [c])) : list_get_back (some l) st = some c.2 := by
  have hsz : l.size = xs.length + 1 := by simpa using h.2.2.1
  have hpos : l.size > 0 := by omega
  have rt := h.read_tail
  have rc := h.read_cell
  have hl : lastOf ((hd, none) :: (xs ++ [c])) none = some c.1 := by
    simp [lastOf]
  rw [hl] at rt
  simp only [list_get_back, hpos, if_true, rt, rc]

/-- C13 (front and back access): on a list of size 0 `list_get_front` and `list_get_back`
return the null handle; on a non-empty list holding `s` they return the first and the last
handle, the same values `list_get` returns at index 0 and at index `size - 1`.  Both are
read-only: they yield a handle and no new list state. -/
theorem C13_get_front_back (st : Store) (l : list_t) (s : List T) (h : Holds st l s) :
    (∀ (l0 : list_t) (st0 : Store), list_size (some l0) = 0 →
      list_get_front (some l0) st0 = some none ∧ list_get_back (some l0) st0 = some none) ∧
    (∀ (hpos : 0 < s.length),
      list_get_front (some l) st = some s[0] ∧
      list_get_front (some l) st = list_get (some l) 0 st ∧
      list_get_back (some l) st = some s[s.length - 1] ∧
      list_get_back (some l) st = list_get (some l) ((list_size (some l) : Int) - 1) st) := by
  constructor
  · intro l0 st0 h0
    simp only [list_size] at h0
    simp [list_get_front, list_get_back, h0]
  · intro hpos
    have hsz := h.size
    have g0 := h.get 0 hpos
    have g1 := h.get (s.length - 1) (by omega)
    have hidx : ((list_size (some l) : Nat) : Int) - 1 = ((s.length - 1 : Nat) : Int) := by
      simp only [list_size]
      omega
    rw [hidx, g1]
    have g0' : list_get (some l) 0 st = some s[0] := by simpa using g0
    rw [g0']
    obtain ⟨hd, tl, cells, hc, rfl⟩ := h
    have hpos1 : 0 < cells.length := by simpa using hpos
    refine ⟨?_, ?_, ?_, ?_⟩
    · obtain ⟨c, ys, rfl⟩ := List.exists_cons_of_ne_nil (List.ne_nil_of_length_pos hpos1)
      simpa using hc.get_front
    · obtain ⟨c, ys, rfl⟩ := List.exists_cons_of_ne_nil (List.ne_nil_of_length_pos hpos1)
      simpa using hc.get_front
    · rcases List.eq_nil_or_concat cells with rfl | ⟨xs, c, rfl⟩
      · simp at hpos1
      · have hc1 : Chain st l hd tl (xs ++ [c]) := by simpa using hc
        simpa using hc1.get_back
    · rcases List.eq_nil_or_concat cells with rfl | ⟨xs, c, rfl⟩
      · simp at hpos1
      · have hc1 : Chain st l hd tl (xs ++ [c]) := by simpa using hc
        simpa using hc1.get_back

/-- Witness for C13: the list `a`, `b`, `c`. -/
theorem C13_get_front_back_witness :
    Holds abc_store abc_list [some 97, some 98, some 99] ∧
    list_get_front (some abc_list) abc_store = some (some 97) ∧
    list_get_front (some abc_list) abc_store = list_get (some abc_list) 0 abc_store ∧
    list_get_back (some abc_list) abc_store = some (some 99) ∧
    list_get_back (some abc_list) abc_store
      = list_get (some abc_list) ((list_size (some abc_list) : Int) - 1) abc_store :=
  ⟨abc_holds,
    (C13_get_front_back abc_store abc_list [some 97, some 98, some 99] abc_holds).2 (by decide)⟩

theorem Chain.empty_closed {st : Store} {l : list_t} {hd tl : Nat}
    (h : Chain st l hd tl []) :
    ∃ hdn tln, st.read l.head = some hdn ∧ st.read l.tail = some tln ∧
      hdn.next = l.tail ∧ tln.prev = l.head := by
  refine ⟨_, _, h.read_head, h.read_tail, ?_, ?_⟩
  · simp [nextOf, h.2.1]
  · simp [lastOf, h.1]

/-- C14 (pop at either end): on an empty list `list_pop_front` and `list_pop_back` return
the null handle and change nothing, so the size stays 0 and the sentinels stay linked to
each other; on a non-empty list holding `s` they return the handle at index 0 and at index
`size - 1`, and the list is left holding `s` without that element. -/
theorem C14_pop (st : Store) (l : list_t) (s : List T) (h : Holds st l s) :
    (s = [] →
      list_pop_front (some l) st = some (none, some l, st) ∧
      list_pop_back (some l) st = some (none, some l, st) ∧
      list_size (some l) = 0 ∧
      ∃ hdn tln, st.read l.head = some hdn ∧ st.read l.tail = some tln ∧
        hdn.next = l.tail ∧ tln.prev = l.head) ∧
    (∀ (hpos : 0 < s.length),
      (∃ l1 st1, list_pop_front (some l) st = some (s[0], some l1, st1) ∧
        Holds st1 l1 (s.eraseIdx 0) ∧ list_size (some l1) + 1 = list_size (some l)) ∧
      (∃ l1 st1, list_pop_back (some l) st = some (s[s.length - 1], some l1, st1) ∧
        Holds st1 l1 (s.eraseIdx (s.length - 1)) ∧
        list_size (some l1) + 1 = list_size (some l))) := by
  have hsz := h.size
  constructor
  · rintro rfl
    have h0 : l.size = 0 := by simpa using hsz
    obtain ⟨hd, tl, cells, hc, hs⟩ := h
    have hcells : cells = [] := by simpa using hs
    subst hcells
    exact ⟨by simp [list_pop_front, h0], by simp [list_pop_back, h0], by simp [list_size, h0],
      hc.empty_closed⟩
  · intro hpos
    have hlpos : l.size > 0 := by omega
    constructor
    · obtain ⟨st1, e1, h1, _⟩ := h.remove 0 hpos
      refine ⟨_, st1, ?_, h1, by simp only [list_size]; omega⟩
      simp only [list_pop_front, hlpos, if_true]
      simpa using e1
    · obtain ⟨st1, e1, h1, _⟩ := h.remove (s.length - 1) (by omega)
      refine ⟨_, st1, ?_, h1, by simp only [list_size]; omega⟩
      have hidx : (l.size : Int) - 1 = ((s.length - 1 : Nat) : Int) := by omega
      simp only [list_pop_back, hlpos, if_true, hidx]
      exact e1

theorem empty_holds : Holds empty_store empty_list [] := by
  refine ⟨0, 1, [], ⟨rfl, rfl, rfl, by decide, ?_⟩, rfl⟩
  simp [full, Seg, nextOf, Store.read, empty_store]

/-- Witness for C14: popping from the list `a`, `b`, `c` and from an empty list. -/
theorem C14_pop_witness :
    Holds abc_store abc_list [some 97, some 98, some 99] ∧
    ((∃ l1 st1, list_pop_front (some abc_list) abc_store = some (some 97, some l1, st1) ∧
        Holds st1 l1 [some 98, some 99] ∧ list_size (some l1) + 1 = list_size (some abc_list)) ∧
    (∃ l1 st1, list_pop_back (some abc_list) abc_store = some (some 99, some l1, st1) ∧
        Holds st1 l1 [some 97, some 98] ∧
        list_size (some l1) + 1 = list_size (some abc_list))) ∧
    Holds empty_store empty_list [] ∧
    (list_pop_front (some empty_list) empty_store = some (none, some empty_list, empty_store) ∧
      list_pop_back (some empty_list) empty_store = some (none, some empty_list, empty_store) ∧
      list_size (some empty_list) = 0 ∧
      ∃ hdn tln, empty_store.read empty_list.head = some hdn ∧
        empty_store.read empty_list.tail = some tln ∧
        hdn.next = empty_list.tail ∧ tln.prev = empty_list.head) :=
  ⟨abc_holds, (C14_pop abc_store abc_list [some 97, some 98, some 99] abc_holds).2 (by decide),
    empty_holds, (C14_pop empty_store empty_list [] empty_holds).1 rfl⟩

/-- C15 (set): on a list holding `s`, `list_set` at an index `k` below the size with any
handle makes exactly one callback call, the destruction policy on the handle previously at
`k`; afterwards `list_get` at `k` returns the new handle, every other index reads the
handle it read before, and the list (same record, same size) holds `s` with position `k`
replaced. -/
theorem C15_set (st : Store) (l : list_t) (s : List T) (h : Holds st l s)
    (k : Nat) (hk : k < s.length) (data : T) :
    ∃ st1, list_set (some l) (k : Int) data st = some st1 ∧
      st1.log = st.log ++ [Event.destroy l.destroy s[k]] ∧
      list_get (some l) (k : Int) st1 = some data ∧
      (∀ j, ∀ (hj : j < s.length), j ≠ k →
        list_get (some l) (j : Int) st1 = some s[j] ∧
        list_get (some l) (j : Int) st1 = list_get (some l) (j : Int) st) ∧
      Holds st1 l (s.set k data) ∧ (s.set k data).length = s.length := by
  obtain ⟨st1, e1, h1, g1⟩ := h.set k hk data
  refine ⟨st1, e1, g1, ?_, ?_, h1, by simp⟩
  · have := h1.get k (by simpa using hk)
    simpa using this
  · intro j hj hne
    have g := h1.get j (by simpa using hj)
    have hne2 : k ≠ j := fun e => hne e.symm
    have g2 : list_get (some l) (j : Int) st1 = some s[j] := by
      rw [g]
      simp [List.getElem_set, hne2]
    exact ⟨g2, by rw [g2, h.get j hj]⟩

/-- Witness for C15: replacing `b` by handle 120 in the list `a`, `b`, `c`. -/
theorem C15_set_witness :
    Holds abc_store abc_list [some 97, some 98, some 99] ∧
    ∃ st1, list_set (some abc_list) ((1 : Nat) : Int) (some 120) abc_store = some st1 ∧
      st1.log = abc_store.log ++ [Event.destroy abc_list.destroy (some 98)] ∧
      list_get (some abc_list) ((1 : Nat) : Int) st1 = some (some 120) ∧
      (∀ j, ∀ (hj : j < ([some 97, some 98, some 99] : List T).length), j ≠ 1 →
        list_get (some abc_list) (j : Int) st1
          = some ([some 97, some 98, some 99] : List T)[j] ∧
        list_get (some abc_list) (j : Int) st1 = list_get (some abc_list) (j : Int) abc_store) ∧
      Holds st1 abc_list (([some 97, some 98, some 99] : List T).set 1 (some 120)) ∧
      (([some 97, some 98, some 99] : List T).set 1 (some 120)).length
        = ([some 97, some 98, some 99] : List T).length :=
  ⟨abc_holds, C15_set abc_store abc_list [some 97, some 98, some 99] abc_holds 1 (by decide)
    (some 120)⟩

theorem Holds.remove_any {st : Store} {l : list_t} {s : List T} (h : Holds st l s)
    (index : Int) :
    ∃ r l1 st1 s1, list_remove (some l) index st = some (r, some l1, st1) ∧
      st1.log = st.log ∧ Holds st1 l1 s1 := by
  have hsz := h.size
  by_cases hg : 0 ≤ index ∧ index < (l.size : Int)
  · obtain ⟨h0, h1⟩ := hg
    obtain ⟨k, rfl⟩ := Int.eq_ofNat_of_zero_le h0
    obtain ⟨st1, e1, h3, g1⟩ := h.remove k (by omega)
    exact ⟨_, _, st1, _, e1, g1, h3⟩
  · have hg2 : ¬ (0 ≤ index ∧ index < (l.size : Int) ∧ l.size > 0) :=
      fun hc => hg ⟨hc.1, hc.2.1⟩
    exact ⟨none, l, st, s, by simp [list_remove, hg2], rfl, h⟩

theorem Holds.get_any {st : Store} {l : list_t} {s : List T} (h : Holds st l s)
    (index : Int) : ∃ v, list_get (some l) index st = some v := by
  have hsz := h.size
  by_cases hg : 0 ≤ index ∧ index < (l.size : Int)
  · obtain ⟨h0, h1⟩ := hg
    obtain ⟨k, rfl⟩ := Int.eq_ofNat_of_zero_le h0
    exact ⟨_, h.get k (by omega)⟩
  · exact ⟨none, by simp [list_get, hg]⟩

theorem Holds.get_front_any {st : Store} {l : list_t} {s : List T} (h : Holds st l s) :
    ∃ v, list_get_front (some l) st = some v := by
  obtain ⟨hd, tl, cells, hc, _⟩ := h
  cases cells with
  | nil =>
    have h0 : l.size = 0 := hc.2.2.1
    exact ⟨none, by simp [list_get_front, h0]⟩
  | cons c ys => exact ⟨_, hc.get_front⟩

theorem Holds.get_back_any {st : Store} {l : list_t} {s : List T} (h : Holds st l s) :
    ∃ v, list_get_back (some l) st = some v := by
  obtain ⟨hd, tl, cells, hc, _⟩ := h
  rcases List.eq_nil_or_concat cells with rfl | ⟨xs, c, rfl⟩
  · have h0 : l.size = 0 := hc.2.2.1
    exact ⟨none, by simp [list_get_back, h0]⟩
  · have hc1 : Chain st l hd tl (xs ++ [c]) := by simpa using hc
    exact ⟨_, hc1.get_back⟩

/-- C16 (no destruction on read, pop or remove): on a list holding `s`, `list_get`,
`list_get_front` and `list_get_back` return a handle and nothing else (they have no effect
on the store, so no callback can be recorded), and `list_pop_front`, `list_pop_back` and
`list_remove`, at any index, leave the callback log exactly as it was: no destruction call
is made, neither on the returned handle nor on any other. -/
theorem C16_no_destroy (st : Store) (l : list_t) (s : List T) (h : Holds st l s)
    (index : Int) :
    (∃ v, list_get (some l) index st = some v) ∧
    (∃ v, list_get_front (some l) st = some v) ∧
    (∃ v, list_get_back (some l) st = some v) ∧
    (∃ r l1 st1, list_pop_front (some l) st = some (r, some l1, st1) ∧ st1.log = st.log) ∧
    (∃ r l1 st1, list_pop_back (some l) st = some (r, some l1, st1) ∧ st1.log = st.log) ∧
    (∃ r l1 st1, list_remove (some l) index st = some (r, some l1, st1) ∧ st1.log = st.log) := by
  refine ⟨h.get_any index, h.get_front_any, h.get_back_any, ?_, ?_, ?_⟩
  · by_cases hpos : l.size > 0
    · obtain ⟨r, l1, st1, _, e, g, _⟩ := h.remove_any 0
      exact ⟨r, l1, st1, by simp only [list_pop_front, hpos, if_true]; exact e, g⟩
    · exact ⟨none, l, st, by simp [list_pop_front, hpos], rfl⟩
  · by_cases hpos : l.size > 0
    · obtain ⟨r, l1, st1, _, e, g, _⟩ := h.remove_any ((l.size : Int) - 1)
      exact ⟨r, l1, st1, by simp only [list_pop_back, hpos, if_true]; exact e, g⟩
    · exact ⟨none, l, st, by simp [list_pop_back, hpos], rfl⟩
  · obtain ⟨r, l1, st1, _, e, g, _⟩ := h.remove_any index
    exact ⟨r, l1, st1, e, g⟩

/-- Witness for C16: reads, pops and a remove at index 1 on the list `a`, `b`, `c`. -/
theorem C16_no_destroy_witness :
    Holds abc_store abc_list [some 97, some 98, some 99] ∧
    ((∃ v, list_get (some abc_list) 1 abc_store = some v) ∧
    (∃ v, list_get_front (some abc_list) abc_store = some v) ∧
    (∃ v, list_get_back (some abc_list) abc_store = some v) ∧
    (∃ r l1 st1, list_pop_front (some abc_list) abc_store = some (r, some l1, st1) ∧
      st1.log = abc_store.log) ∧
    (∃ r l1 st1, list_pop_back (some abc_list) abc_store = some (r, some l1, st1) ∧
      st1.log = abc_store.log) ∧
    (∃ r l1 st1, list_remove (some abc_list) 1 abc_store = some (r, some l1, st1) ∧
      st1.log = abc_store.log)) :=
  ⟨abc_holds, C16_no_destroy abc_store abc_list [some 97, some 98, some 99] abc_holds 1⟩

theorem Chain.cell_ne_tail {st : Store} {l : list_t} {hd tl : Nat} {cells : List Cell}
    (h : Chain st l hd tl cells) (c : Cell) (hc : c ∈ cells) : c.1 ≠ tl := by
  intro e
  have hnd := h.2.2.2.1
  simp only [full, List.cons_append, List.map_cons, List.map_append, List.nodup_cons,
    List.map_nil] at hnd
  have hd2 := (List.nodup_append.1 hnd.2).2.2
  exact hd2 (List.mem_map_of_mem Prod.fst hc) (by simp [e])

theorem Chain.closed_iff {st : Store} {l : list_t} {hd tl : Nat} {cells : List Cell}
    (h : Chain st l hd tl cells) : sentinels_closed st l = true ↔ l.size = 0 := by
  have rh := h.read_head
  have rt := h.read_tail
  have h1 := h.1
  have h2 := h.2.1
  have h3 := h.2.2.1
  rw [h1] at rh
  rw [h2] at rt
  simp only [sentinels_closed, h1, h2, rh, rt]
  cases cells with
  | nil => simp [nextOf, lastOf, h1, h2, h3]
  | cons c ys =>
    have hne := h.cell_ne_tail c (List.mem_cons_self _ _)
    simp [nextOf, h2, h3, hne]

theorem Chain.inner_linked {st : Store} {l : list_t} {hd tl : Nat} {cells : List Cell}
    (h : Chain st l hd tl cells) : sentinels_linked st l = true := by
  have rh := h.read_head
  have rt := h.read_tail
  have hx : ∃ x, st.read (nextOf (cells ++ [(tl, none)]) none) = some x ∧ x.prev = some hd := by
    cases cells with
    | nil => exact ⟨_, by simpa [nextOf, h.2.1] using rt, by simp [lastOf]⟩
    | cons c ys =>
      have h0 : Chain st l hd tl ([] ++ c :: ys) := by simpa using h
      exact ⟨_, by simpa [nextOf] using h0.read_cell, by simp [lastOf]⟩
  have hy : ∃ y, st.read (lastOf ((hd, none) :: cells) none) = some y ∧ y.next = some tl := by
    rcases List.eq_nil_or_concat cells with rfl | ⟨xs, c, rfl⟩
    · exact ⟨_, by simpa [lastOf, h.1] using rh, by simp [nextOf]⟩
    · have h0 : Chain st l hd tl (xs ++ [c]) := by simpa using h
      exact ⟨_, by simpa [lastOf] using h0.read_cell, by simp [nextOf]⟩
  obtain ⟨x, rx, hxp⟩ := hx
  obtain ⟨y, ry, hyn⟩ := hy
  rw [h.1] at rh
  rw [h.2.1] at rt
  simp only [sentinels_linked, h.1, h.2.1, rh, rt, rx, ry, hxp, hyn]
  simp

theorem Chain.payload_linked {st : Store} {l : list_t} {hd tl : Nat} {cells : List Cell}
    (h : Chain st l hd tl cells) (i : Nat) (hi : i < l.size) :
    ∃ a, payload_node st l i = some (some a) ∧ some a ≠ l.tail ∧
      linked_both_ways st a = true := by
  have hi1 : i < cells.length := by rw [← h.2.2.1]; exact hi
  obtain ⟨e, hlen⟩ := split_at cells i hi1
  have rh := h.read_head
  have h2 := h
  rw [e] at h2
  obtain ⟨A, z, y, B, _, _, hF, rz, rc, ry, _, _, _⟩ := h2.decompose3
  have hw := h2.walk_forward
  rw [hlen, ← e] at hw
  refine ⟨cells[i].1, ?_, ?_, ?_⟩
  · simp only [payload_node, rh]
    exact hw
  · rw [h.2.1]
    intro e1
    exact h.cell_ne_tail cells[i] (List.getElem_mem _) (Option.some.inj e1)
  · simp [linked_both_ways, rc, rz, ry]

theorem Chain.payload_end {st : Store} {l : list_t} {hd tl : Nat} {cells : List Cell}
    (h : Chain st l hd tl cells) : payload_node st l l.size = some l.tail := by
  have rh := h.read_head
  obtain ⟨_, h2, h3, _, h5⟩ := h
  have h6 : Seg st (some hd) (cells ++ [(tl, none)]) none := h5.2
  have := walk_next_seg h6
  simp only [payload_node, rh, h3, h2]
  simpa [nextOf] using this

/-- C17 (emptiness test): for every list argument, null included, `list_is_empty` is true
exactly when `list_size` is 0; on a null list `list_is_empty` returns true and `list_size`
returns 0.  In every state reached from `list_create` by insert/push/pop/remove/set calls
this agrees with the chain: `list_is_empty` is true exactly when no node lies between the
sentinels. -/
theorem C17_is_empty (compare_default : compare_t) (destroy_default : destroy_t)
    (data_type : data_type_t) (compare : Option compare_t) (destroy : Option destroy_t)
    (st : Store) (hv : is_valid_cino_data_type data_type = true) (ops : List Op) :
    (∀ list : Option list_t, list_is_empty list = decide (list_size list = 0)) ∧
    list_is_empty none = true ∧ list_size none = 0 ∧
    ∃ l0 st0 l1 st1 n m,
      list_create compare_default destroy_default data_type compare destroy st
        = some (some l0, st0) ∧
      run_ops ops l0 st0 = some (l1, st1, n, m) ∧
      list_is_empty (some l1) = decide (list_size (some l1) = 0) ∧
      (list_is_empty (some l1) = true ↔ count_between st1 l1 = some 0) := by
  have hall : ∀ list : Option list_t, list_is_empty list = decide (list_size list = 0) := by
    intro list
    cases list with
    | none => rfl
    | some l =>
      simp only [list_is_empty, list_size]
      rw [Bool.eq_iff_iff]
      simp
  obtain ⟨st0, e0, hc0, _, _⟩ :=
    create_chain compare_default destroy_default data_type compare destroy st hv
  have h0 : Holds st0 _ [] := ⟨_, _, [], hc0, rfl⟩
  obtain ⟨l1, st1, n, m, s1, e1, h1, _⟩ := h0.run_ops ops
  refine ⟨hall, rfl, rfl, _, st0, l1, st1, n, m, e0, e1, hall _, ?_⟩
  rw [h1.count]
  simp [list_is_empty]

/-- Witness for C17: a fresh character list after two pushes and two pops. -/
theorem C17_is_empty_witness :
    is_valid_cino_data_type DATA_TYPE_CHAR = true ∧
    ((∀ list : Option list_t, list_is_empty list = decide (list_size list = 0)) ∧
    list_is_empty none = true ∧ list_size none = 0 ∧
    ∃ l0 st0 l1 st1 n m,
      list_create sample_compare 7 DATA_TYPE_CHAR none none ⟨[], []⟩ = some (some l0, st0) ∧
      run_ops [Op.push_back (some 97), Op.push_front (some 98), Op.pop_back, Op.pop_back]
        l0 st0 = some (l1, st1, n, m) ∧
      list_is_empty (some l1) = decide (list_size (some l1) = 0) ∧
      (list_is_empty (some l1) = true ↔ count_between st1 l1 = some 0)) :=
  ⟨rfl, C17_is_empty sample_compare 7 DATA_TYPE_CHAR none none ⟨[], []⟩ rfl
    [Op.push_back (some 97), Op.push_front (some 98), Op.pop_back, Op.pop_back]⟩

/-- C18 (chain invariant): in every state reached from `list_create` by
insert/push/pop/remove/set calls, both sentinels are linked on their inner side, every
payload node `n` is live, is not the tail sentinel and satisfies
`n.prev.next == n == n.next.prev`, following `next` from the head sentinel arrives at the
tail sentinel after exactly `size` payload nodes, and `head.next == tail` together with
`tail.prev == head` holds exactly when the size is 0. -/
theorem C18_chain_invariant (compare_default : compare_t) (destroy_default : destroy_t)
    (data_type : data_type_t) (compare : Option compare_t) (destroy : Option destroy_t)
    (st : Store) (hv : is_valid_cino_data_type data_type = true) (ops : List Op) :
    ∃ l0 st0 l1 st1 n m,
      list_create compare_default destroy_default data_type compare destroy st
        = some (some l0, st0) ∧
      run_ops ops l0 st0 = some (l1, st1, n, m) ∧
      sentinels_linked st1 l1 = true ∧
      (∀ i, i < list_size (some l1) →
        ∃ a, payload_node st1 l1 i = some (some a) ∧ some a ≠ l1.tail ∧
          linked_both_ways st1 a = true) ∧
      payload_node st1 l1 (list_size (some l1)) = some l1.tail ∧
      count_between st1 l1 = some (list_size (some l1)) ∧
      (sentinels_closed st1 l1 = true ↔ list_size (some l1) = 0) := by
  obtain ⟨st0, e0, hc0, _, _⟩ :=
    create_chain compare_default destroy_default data_type compare destroy st hv
  have h0 : Holds st0 _ [] := ⟨_, _, [], hc0, rfl⟩
  obtain ⟨l1, st1, n, m, s1, e1, h1, _⟩ := h0.run_ops ops
  obtain ⟨hd, tl, cells, hc, _⟩ := h1
  exact ⟨_, st0, l1, st1, n, m, e0, e1, hc.inner_linked, hc.payload_linked, hc.payload_end,
    hc.count_nodes, hc.closed_iff⟩

/-- Witness for C18: a fresh character list after pushes, an insert, a remove, a set and
a pop. -/
theorem C18_chain_invariant_witness :
    is_valid_cino_data_type DATA_TYPE_CHAR = true ∧
    ∃ l0 st0 l1 st1 n m,
      list_create sample_compare 7 DATA_TYPE_CHAR none none ⟨[], []⟩ = some (some l0, st0) ∧
      run_ops [Op.push_back (some 97), Op.push_front (some 98), Op.insert 1 (some 99),
          Op.remove 0, Op.set 0 (some 101), Op.push_back (some 102), Op.pop_front] l0 st0
        = some (l1, st1, n, m) ∧
      sentinels_linked st1 l1 = true ∧
      (∀ i, i < list_size (some l1) →
        ∃ a, payload_node st1 l1 i = some (some a) ∧ some a ≠ l1.tail ∧
          linked_both_ways st1 a = true) ∧
      payload_node st1 l1 (list_size (some l1)) = some l1.tail ∧
      count_between st1 l1 = some (list_size (some l1)) ∧
      (sentinels_closed st1 l1 = true ↔ list_size (some l1) = 0) :=
  ⟨rfl, C18_chain_invariant sample_compare 7 DATA_TYPE_CHAR none none ⟨[], []⟩ rfl
    [Op.push_back (some 97), Op.push_front (some 98), Op.insert 1 (some 99),
      Op.remove 0, Op.set 0 (some 101), Op.push_back (some 102), Op.pop_front]⟩

/-- C19 (creation): `list_create` returns the null list exactly when the element kind is
not valid, and is valid exactly for the four recognised kinds; for a valid kind it returns
a list of that kind with size 0, `list_is_empty` true, and the two sentinels linked to each
other (`head.next == tail` and `tail.prev == head`). -/
theorem C19_create (compare_default : compare_t) (destroy_default : destroy_t)
    (data_type : data_type_t) (compare : Option compare_t) (destroy : Option destroy_t)
    (st : Store) :
    ((list_create compare_default destroy_default data_type compare destroy st).map Prod.fst
        = some none ↔ is_valid_cino_data_type data_type = false) ∧
    (is_valid_cino_data_type data_type = true ↔
      data_type = DATA_TYPE_INT ∨ data_type = DATA_TYPE_DOUBLE ∨
      data_type = DATA_TYPE_CHAR ∨ data_type = DATA_TYPE_T) ∧
    (is_valid_cino_data_type data_type = false →
      list_create compare_default destroy_default data_type compare destroy st
        = some (none, st)) ∧
    (is_valid_cino_data_type data_type = true →
      ∃ l st1, list_create compare_default destroy_default data_type compare destroy st
          = some (some l, st1) ∧
        l.data_type = data_type ∧ list_size (some l) = 0 ∧ list_is_empty (some l) = true ∧
        sentinels_closed st1 l = true) := by
  have hinv : is_valid_cino_data_type data_type = false →
      list_create compare_default destroy_default data_type compare destroy st
        = some (none, st) := by
    intro h
    simp [list_create, h]
  have hval : is_valid_cino_data_type data_type = true →
      ∃ l st1, list_create compare_default destroy_default data_type compare destroy st
          = some (some l, st1) ∧
        l.data_type = data_type ∧ list_size (some l) = 0 ∧ list_is_empty (some l) = true ∧
        sentinels_closed st1 l = true := by
    intro h
    obtain ⟨st4, e4, hc, _, _⟩ :=
      create_chain compare_default destroy_default data_type compare destroy st h
    exact ⟨_, st4, e4, rfl, rfl, rfl, hc.closed_iff.2 rfl⟩
  refine ⟨?_, ?_, hinv, hval⟩
  · constructor
    · intro h
      by_contra hc
      have hc1 : is_valid_cino_data_type data_type = true := by simpa using hc
      obtain ⟨l, st1, e, _⟩ := hval hc1
      rw [e] at h
      simp at h
    · intro h
      rw [hinv h]
      rfl
  · cases data_type <;> simp [is_valid_cino_data_type]

/-- Witness for C19: creation succeeds for the integer kind and fails for an unknown one. -/
theorem C19_create_witness :
    (is_valid_cino_data_type DATA_TYPE_INT = true ∧
      ∃ l st1, list_create sample_compare 7 DATA_TYPE_INT none none ⟨[], []⟩
          = some (some l, st1) ∧
        l.data_type = DATA_TYPE_INT ∧ list_size (some l) = 0 ∧
        list_is_empty (some l) = true ∧ sentinels_closed st1 l = true) ∧
    (is_valid_cino_data_type (DATA_TYPE_OTHER 9) = false ∧
      list_create sample_compare 7 (DATA_TYPE_OTHER 9) none none ⟨[], []⟩
        = some (none, ⟨[], []⟩)) :=
  ⟨⟨rfl, (C19_create sample_compare 7 DATA_TYPE_INT none none ⟨[], []⟩).2.2.2 rfl⟩,
    ⟨rfl, (C19_create sample_compare 7 (DATA_TYPE_OTHER 9) none none ⟨[], []⟩).2.2.1 rfl⟩⟩

/-- C20 (counterexample to the claim as stated): an integer list created without policies
binds `compare_default` and `destroy_default`, which are not `compare_int` and
`destroy_int`: two distinct handles boxing the same integer compare equal under
`compare_int` and unequal under the bound policy. -/
theorem C20_int_list_binds_generic_default :
    ∃ l st1, list_create COOP.compare_default COOP.destroy_default DATA_TYPE_INT none none
        ⟨[], []⟩ = some (some l, st1) ∧
      l.compare = COOP.compare_default ∧ l.destroy = COOP.destroy_default ∧
      l.destroy ≠ destroy_int ∧
      compare_int (some 101) (some 201) = 0 ∧ l.compare (some 101) (some 201) ≠ 0 ∧
      l.compare ≠ compare_int :=
  ⟨_, _, rfl, rfl, rfl, by decide, by decide, by decide,
    fun e => absurd (congrFun (congrFun e (some 101)) (some 201)) (by decide)⟩

/-- C20 (as amended): for every valid kind, `list_create` called without a comparison
policy binds `compare_default` and called without a destruction policy binds
`destroy_default`, whatever the element kind; a supplied policy is bound exactly as
given. -/
theorem C20_create_binds (compare_default : compare_t) (destroy_default : destroy_t)
    (data_type : data_type_t) (compare : Option compare_t) (destroy : Option destroy_t)
    (st : Store) (hv : is_valid_cino_data_type data_type = true) :
    ∃ l st1, list_create compare_default destroy_default data_type compare destroy st
        = some (some l, st1) ∧
      (compare = none → l.compare = compare_default) ∧
      (∀ c, compare = some c → l.compare = c) ∧
      (destroy = none → l.destroy = destroy_default) ∧
      (∀ d, destroy = some d → l.destroy = d) := by
  obtain ⟨st4, e4, _, _, _⟩ :=
    create_chain compare_default destroy_default data_type compare destroy st hv
  refine ⟨_, st4, e4, ?_, ?_, ?_, ?_⟩
  · rintro rfl; rfl
  · rintro c rfl; rfl
  · rintro rfl; rfl
  · rintro d rfl; rfl

/-- Witness for C20 as amended: an integer list created without a comparison policy and
with `destroy_int` supplied. -/
theorem C20_create_binds_witness :
    is_valid_cino_data_type DATA_TYPE_INT = true ∧
    (∃ l st1, list_create COOP.compare_default COOP.destroy_default DATA_TYPE_INT
          none (some destroy_int) ⟨[], []⟩ = some (some l, st1) ∧
      ((none : Option compare_t) = none → l.compare = COOP.compare_default) ∧
      (∀ c, (none : Option compare_t) = some c → l.compare = c) ∧
      ((some destroy_int : Option destroy_t) = none → l.destroy = COOP.destroy_default) ∧
      (∀ d, (some destroy_int : Option destroy_t) = some d → l.destroy = d)) :=
  ⟨rfl, C20_create_binds COOP.compare_default COOP.destroy_default DATA_TYPE_INT
    none (some destroy_int) ⟨[], []⟩ rfl⟩

theorem foreach_forward_seg (v : visit_t) (tl : Nat) (rest : List Cell) :
    ∀ (z : Cell) (p : Ptr) (fuel : Nat) (st : Store),
    Seg st p (z :: rest ++ [(tl, none)]) none →
    ((z :: rest ++ [(tl, none)]).map Prod.fst).Nodup →
    rest.length < fuel →
    foreach_forward v (some tl) fuel (some z.1) st
      = some ⟨st.heap, st.log ++ rest.map (fun c => Event.visit v c.2)⟩ := by
  induction rest with
  | nil =>
    intro z p fuel st hs _ hf
    obtain ⟨f, rfl⟩ : ∃ f, fuel = f + 1 := ⟨fuel - 1, by simp at hf; omega⟩
    have rz : st.read (some z.1) = some ⟨z.2, p, some tl⟩ := by
      simpa [Seg, nextOf] using hs.1
    simp [foreach_forward, rz]
  | cons y rest ih =>
    intro z p fuel st hs hnd hf
    obtain ⟨f, rfl⟩ : ∃ f, fuel = f + 1 := ⟨fuel - 1, by simp at hf; omega⟩
    have rz : st.read (some z.1) = some ⟨z.2, p, some y.1⟩ := by
      simpa [Seg, nextOf] using hs.1
    have hs2 : Seg st (some z.1) (y :: rest ++ [(tl, none)]) none := hs.2
    have ry : st.read (some y.1) = some ⟨y.2, some z.1, nextOf (rest ++ [(tl, none)]) none⟩ := by
      simpa [Seg] using hs2.1
    have hnd2 : ((y :: rest ++ [(tl, none)]).map Prod.fst).Nodup := by
      simp only [List.cons_append, List.map_cons, List.nodup_cons] at hnd
      simpa using hnd.2
    have hyt : y.1 ≠ tl := by
      simp only [List.cons_append, List.map_cons, List.nodup_cons, List.map_append,
        List.mem_append] at hnd2
      intro e
      apply hnd2.1
      right
      simp [e]
    have hs3 : Seg (st.emit (Event.visit v y.2)) (some z.1) (y :: rest ++ [(tl, none)]) none :=
      Seg_congr (fun _ _ => Store.read_emit st _ _) hs2
    have e := ih y (some z.1) f _ hs3 hnd2 (by simp at hf; omega)
    simp only [foreach_forward, rz, ry]
    simp only [Option.some.injEq, hyt, or_self, if_false, reduceCtorEq]
    rw [e]
    simp [Store.emit]

theorem foreach_backward_seg (v : visit_t) (hd : Nat) (rest : List Cell) :
    ∀ (z : Cell) (n : Ptr) (fuel : Nat) (st : Store),
    Seg st none ((hd, none) :: rest ++ [z]) n →
    (((hd, none) :: rest ++ [z]).map Prod.fst).Nodup →
    rest.length < fuel →
    foreach_backward v (some hd) fuel (some z.1) st
      = some ⟨st.heap, st.log ++ rest.reverse.map (fun c => Event.visit v c.2)⟩ := by
  induction rest using List.reverseRecOn with
  | nil =>
    intro z n fuel st hs _ hf
    obtain ⟨f, rfl⟩ : ∃ f, fuel = f + 1 := ⟨fuel - 1, by simp at hf; omega⟩
    have rz : st.read (some z.1) = some ⟨z.2, some hd, n⟩ := by
      have := Seg_read [(hd, none)] [] z (by simpa using hs)
      simpa [lastOf, nextOf] using this
    simp [foreach_backward, rz]
  | append_singleton rest y ih =>
    intro z n fuel st hs hnd hf
    obtain ⟨f, rfl⟩ : ∃ f, fuel = f + 1 := ⟨fuel - 1, by simp at hf; omega⟩
    have rz : st.read (some z.1) = some ⟨z.2, some y.1, n⟩ := by
      have := Seg_read ((hd, none) :: rest ++ [y]) [] z (by simpa using hs)
      simpa [lastOf, nextOf] using this
    have hs2 : Seg st none ((hd, none) :: rest ++ [y]) (some z.1) := by
      have := (Seg_append st ((hd, none) :: rest ++ [y]) [z] none n).1 (by simpa using hs)
      simpa [nextOf] using this.1
    have ry : st.read (some y.1)
        = some ⟨y.2, lastOf ((hd, none) :: rest) none, some z.1⟩ := by
      have := Seg_read ((hd, none) :: rest) [] y (by simpa using hs2)
      simpa [nextOf] using this
    have hnd2 : (((hd, none) :: rest ++ [y]).map Prod.fst).Nodup := by
      have hsub : List.Sublist (((hd, none) :: rest ++ [y]).map Prod.fst)
          (((hd, none) :: (rest ++ [y]) ++ [z]).map Prod.fst) := by
        apply List.Sublist.map
        simp
      exact hnd.sublist hsub
    have hyh : y.1 ≠ hd := by
      simp only [List.cons_append, List.map_cons, List.nodup_cons, List.map_append,
        List.mem_append] at hnd2
      intro e
      apply hnd2.1
      right
      simp [e]
    have hs3 : Seg (st.emit (Event.visit v y.2)) none ((hd, none) :: rest ++ [y]) (some z.1) :=
      Seg_congr (fun _ _ => Store.read_emit st _ _) hs2
    have e := ih y (some z.1) f _ hs3 hnd2 (by simp at hf; omega)
    simp only [foreach_backward, rz, ry]
    simp only [Option.some.injEq, hyh, or_self, if_false, reduceCtorEq]
    rw [e]
    simp [Store.emit]

/-- C21 (traversal): on a list holding `s`, `list_foreach` with a visitor calls it once per
element and on nothing else, in the order `s[0], ..., s[size-1]` when `backward` is false
and in the reverse order when it is true; node memory is untouched and the list still
holds `s`. -/
theorem C21_foreach (st : Store) (l : list_t) (s : List T) (h : Holds st l s) (v : visit_t) :
    (∃ st1, list_foreach (some l) (some v) false st = some st1 ∧
      st1.log = st.log ++ s.map (fun e => Event.visit v e) ∧
      st1.heap = st.heap ∧ Holds st1 l s) ∧
    (∃ st1, list_foreach (some l) (some v) true st = some st1 ∧
      st1.log = st.log ++ s.reverse.map (fun e => Event.visit v e) ∧
      st1.heap = st.heap ∧ Holds st1 l s) := by
  have h0 := h
  obtain ⟨hd, tl, cells, hc, rfl⟩ := h
  have hlt := hc.length_lt
  obtain ⟨h1, h2, _, h4, h5⟩ := hc
  constructor
  · have e := foreach_forward_seg v tl cells (hd, none) none (st.heap.length + 1) st h5 h4 hlt
    refine ⟨⟨st.heap, st.log ++ (cells.map Prod.snd).map (fun e => Event.visit v e)⟩, ?_,
      rfl, rfl, h0.of_heap_eq rfl⟩
    simp only [list_foreach, h1, h2]
    simp only [Bool.false_eq_true, not_false_eq_true, if_true]
    rw [e]
    simp [List.map_map, Function.comp_def]
  · have e := foreach_backward_seg v hd cells (tl, none) none (st.heap.length + 1) st h5 h4 hlt
    refine ⟨⟨st.heap, st.log ++ (cells.map Prod.snd).reverse.map (fun e => Event.visit v e)⟩,
      ?_, rfl, rfl, h0.of_heap_eq rfl⟩
    simp only [list_foreach, h1, h2]
    simp only [not_true_eq_false, if_false]
    rw [e]
    simp [List.map_map, Function.comp_def, List.map_reverse]

/-- Witness for C21: visiting the list `a`, `b`, `c` in both directions. -/
theorem C21_foreach_witness :
    Holds abc_store abc_list [some 97, some 98, some 99] ∧
    ((∃ st1, list_foreach (some abc_list) (some 5) false abc_store = some st1 ∧
      st1.log = abc_store.log
        ++ ([some 97, some 98, some 99] : List T).map (fun e => Event.visit 5 e) ∧
      st1.heap = abc_store.heap ∧ Holds st1 abc_list [some 97, some 98, some 99]) ∧
    (∃ st1, list_foreach (some abc_list) (some 5) true abc_store = some st1 ∧
      st1.log = abc_store.log
        ++ ([some 97, some 98, some 99] : List T).reverse.map (fun e => Event.visit 5 e) ∧
      st1.heap = abc_store.heap ∧ Holds st1 abc_list [some 97, some 98, some 99])) :=
  ⟨abc_holds, C21_foreach abc_store abc_list [some 97, some 98, some 99] abc_holds 5⟩

theorem Holds.get_front_cons {st : Store} {l : list_t} {e : T} {s : List T}
    (h : Holds st l (e :: s)) : list_get_front (some l) st = some e := by
  obtain ⟨hd, tl, cells, hc, hs⟩ := h
  cases cells with
  | nil => simp at hs
  | cons c ys =>
    simp only [List.map_cons, List.cons.injEq] at hs
    rw [hc.get_front, hs.1]

theorem Holds.get_back_snoc {st : Store} {l : list_t} {e : T} {s : List T}
    (h : Holds st l (s ++ [e])) : list_get_back (some l) st = some e := by
  obtain ⟨hd, tl, cells, hc, hs⟩ := h
  rcases List.eq_nil_or_concat cells with rfl | ⟨xs, c, rfl⟩
  · simp at hs
  · have hc1 : Chain st l hd tl (xs ++ [c]) := by simpa using hc
    have hs1 : List.map Prod.snd xs ++ [c.2] = s ++ [e] := by simpa using hs
    have := List.append_inj' hs1 rfl
    rw [hc1.get_back]
    simpa using this.2

theorem Holds.drain_front_all (s : List T) :
    ∀ {st : Store} {l : list_t}, Holds st l s →
    ∃ l1 st1, drain_front s.length l st = some (s.map (fun e => (e, e)), l1, st1) ∧
      Holds st1 l1 [] ∧ st1.log = st.log := by
  induction s with
  | nil =>
    intro st l h
    exact ⟨l, st, rfl, h, rfl⟩
  | cons e s ih =>
    intro st l h
    obtain ⟨st1, e1, h1, g1⟩ := h.pop_front
    obtain ⟨l2, st2, e2, h2, g2⟩ := ih h1
    refine ⟨l2, st2, ?_, h2, by rw [g2, g1]⟩
    simp [drain_front, h.get_front_cons, e1, e2]

theorem Holds.drain_back_all (s : List T) :
    ∀ {st : Store} {l : list_t}, Holds st l s →
    ∃ l1 st1, drain_back s.length l st = some (s.reverse.map (fun e => (e, e)), l1, st1) ∧
      Holds st1 l1 [] ∧ st1.log = st.log := by
  induction s using List.reverseRecOn with
  | nil =>
    intro st l h
    exact ⟨l, st, rfl, h, rfl⟩
  | append_singleton s e ih =>
    intro st l h
    obtain ⟨st1, e1, h1, g1⟩ := h.pop_back
    obtain ⟨l2, st2, e2, h2, g2⟩ := ih h1
    refine ⟨l2, st2, ?_, h2, by rw [g2, g1]⟩
    simp [drain_back, h.get_back_snoc, e1, e2]

/-- C22 (queue order): after enqueuing the non-null handles `hs` with `list_push_back` on
a freshly created list, `hs.length` rounds of peek (`list_get_front`) and dequeue
(`list_pop_front`) return the handles in insertion order, each peek returning the handle
the following dequeue returns, and the size is 0 afterwards. -/
theorem C22_fifo (compare_default : compare_t) (destroy_default : destroy_t)
    (data_type : data_type_t) (compare : Option compare_t) (destroy : Option destroy_t)
    (st : Store) (hv : is_valid_cino_data_type data_type = true) (hs : List Nat) :
    ∃ l1 st1 l2 st2,
      push_all_back (list_create compare_default destroy_default data_type compare destroy st) hs
        = some (some l1, st1) ∧
      drain_front hs.length l1 st1 = some (hs.map (fun h => (some h, some h)), l2, st2) ∧
      list_size (some l2) = 0 ∧ list_is_empty (some l2) = true := by
  obtain ⟨st0, e0, hc0, _, _⟩ :=
    create_chain compare_default destroy_default data_type compare destroy st hv
  have h0 : Holds st0 _ [] := ⟨_, _, [], hc0, rfl⟩
  obtain ⟨st1, e1, h1, _⟩ := push_all_back_holds hs h0
  rw [e0]
  simp only [List.nil_append] at h1
  obtain ⟨l2, st2, e2, h2, _⟩ := Holds.drain_front_all (hs.map some) h1
  have hz : l2.size = 0 := by simpa using h2.size
  refine ⟨_, st1, l2, st2, e1, ?_, by simp [list_size, hz], by simp [list_is_empty, hz]⟩
  simpa [List.map_map, Function.comp_def] using e2

/-- Witness for C22: four handles through the queue. -/
theorem C22_fifo_witness :
    is_valid_cino_data_type DATA_TYPE_INT = true ∧
    ∃ l1 st1 l2 st2,
      push_all_back (list_create sample_compare 7 DATA_TYPE_INT none none ⟨[], []⟩)
          [10, 11, 12, 13] = some (some l1, st1) ∧
      drain_front [10, 11, 12, 13].length l1 st1
        = some ([10, 11, 12, 13].map (fun h => (some h, some h)), l2, st2) ∧
      list_size (some l2) = 0 ∧ list_is_empty (some l2) = true :=
  ⟨rfl, C22_fifo sample_compare 7 DATA_TYPE_INT none none ⟨[], []⟩ rfl [10, 11, 12, 13]⟩

/-- C23 (stack order): after pushing the non-null handles `hs` with `list_push_back` on a
freshly created list, `hs.length` rounds of peek (`list_get_back`) and pop
(`list_pop_back`) return the handles in reverse insertion order (round `i` returns the
handle pushed at position `N - i - 1`), each peek returning the handle the following pop
returns, and the size is 0 afterwards. -/
theorem C23_lifo (compare_default : compare_t) (destroy_default : destroy_t)
    (data_type : data_type_t) (compare : Option compare_t) (destroy : Option destroy_t)
    (st : Store) (hv : is_valid_cino_data_type data_type = true) (hs : List Nat) :
    ∃ r l1 st1 l2 st2,
      push_all_back (list_create compare_default destroy_default data_type compare destroy st) hs
        = some (some l1, st1) ∧
      drain_back hs.length l1 st1 = some (r, l2, st2) ∧
      r = hs.reverse.map (fun h => (some h, some h)) ∧
      (∀ i, ∀ (hi : i < hs.length), r[i]? = some (some hs[hs.length - i - 1],
        some hs[hs.length - i - 1])) ∧
      list_size (some l2) = 0 ∧ list_is_empty (some l2) = true := by
  obtain ⟨st0, e0, hc0, _, _⟩ :=
    create_chain compare_default destroy_default data_type compare destroy st hv
  have h0 : Holds st0 _ [] := ⟨_, _, [], hc0, rfl⟩
  obtain ⟨st1, e1, h1, _⟩ := push_all_back_holds hs h0
  rw [e0]
  simp only [List.nil_append] at h1
  obtain ⟨l2, st2, e2, h2, _⟩ := Holds.drain_back_all (hs.map some) h1
  have hz : l2.size = 0 := by simpa using h2.size
  refine ⟨_, _, st1, l2, st2, e1, by simpa using e2, ?_, ?_, by simp [list_size, hz],
    by simp [list_is_empty, hz]⟩
  · simp [List.map_map, Function.comp_def, List.map_reverse]
  · intro i hi
    have hi2 : hs.length - 1 - i < hs.length := by omega
    simp [List.getElem?_map, List.getElem?_reverse, hi, List.getElem?_eq_getElem hi2,
      Nat.sub_right_comm]

/-- Witness for C23: four handles through the stack. -/
theorem C23_lifo_witness :
    is_valid_cino_data_type DATA_TYPE_INT = true ∧
    ∃ r l1 st1 l2 st2,
      push_all_back (list_create sample_compare 7 DATA_TYPE_INT none none ⟨[], []⟩)
          [10, 11, 12, 13] = some (some l1, st1) ∧
      drain_back [10, 11, 12, 13].length l1 st1 = some (r, l2, st2) ∧
      r = [10, 11, 12, 13].reverse.map (fun h => (some h, some h)) ∧
      (∀ i, ∀ (hi : i < [10, 11, 12, 13].length),
        r[i]? = some (some [10, 11, 12, 13][[10, 11, 12, 13].length - i - 1],
          some [10, 11, 12, 13][[10, 11, 12, 13].length - i - 1])) ∧
      list_size (some l2) = 0 ∧ list_is_empty (some l2) = true :=
  ⟨rfl, C23_lifo sample_compare 7 DATA_TYPE_INT none none ⟨[], []⟩ rfl [10, 11, 12, 13]⟩

theorem tolower_ne_zero (c : Nat) (h : c ≠ 0) : tolower c ≠ 0 := by
  unfold tolower
  split <;> omega

theorem eq_ignore_case_loop_iff (s1 : List Nat) :
    ∀ s2 : List Nat, 0 ∉ s1 → 0 ∉ s2 →
    (cino_utils.str_equal_ignore_case_loop s1 s2 = true ↔
      s1.map tolower = s2.map tolower) := by
  induction s1 with
  | nil =>
    intro s2 _ h2
    cases s2 with
    | nil => simp [cino_utils.str_equal_ignore_case_loop]
    | cons d ds =>
      have hd : d ≠ 0 := fun e => h2 (by simp [e])
      simp [cino_utils.str_equal_ignore_case_loop, Ne.symm hd]
  | cons c cs ih =>
    intro s2 h1 h2
    have hc : c ≠ 0 := fun e => h1 (by simp [e])
    have hcs : 0 ∉ cs := fun e => h1 (List.mem_cons_of_mem _ e)
    cases s2 with
    | nil =>
      have h0 : tolower 0 = 0 := by decide
      simp [cino_utils.str_equal_ignore_case_loop, hc, h0, tolower_ne_zero c hc]
    | cons d ds =>
      have hds : 0 ∉ ds := fun e => h2 (List.mem_cons_of_mem _ e)
      by_cases ht : tolower c = tolower d
      · simp [cino_utils.str_equal_ignore_case_loop, hc, ht, ih ds hcs hds]
      · simp [cino_utils.str_equal_ignore_case_loop, hc, ht]

theorem str_to_bool_loop_iff (s : List Nat) (hz : 0 ∉ s) :
    cino_utils.str_to_bool_loop s = false ↔ ∀ c ∈ s, c = 48 := by
  induction s with
  | nil => simp [cino_utils.str_to_bool_loop]
  | cons c cs ih =>
    have hc : c ≠ 0 := fun e => hz (by simp [e])
    have hcs : 0 ∉ cs := fun e => hz (List.mem_cons_of_mem _ e)
    by_cases h48 : c = 48
    · simp [cino_utils.str_to_bool_loop, h48, ih hcs]
    · simp [cino_utils.str_to_bool_loop, hc, h48]

/-- C26 (string to boolean): `str_to_bool` returns false exactly when its argument is
null, is the empty string, equals `false` when case is ignored (both sides mapped through
`tolower`), or consists only of the character `0` (byte 48); for every other string it
returns true. -/
theorem C26_str_to_bool (str : Option (List Nat)) (hz : ∀ s, str = some s → 0 ∉ s) :
    (cino_utils.str_to_bool str = false ↔
      (str = none ∨ str = some [] ∨
        (∃ s, str = some s ∧ s.map tolower = [102, 97, 108, 115, 101]) ∨
        (∃ s, str = some s ∧ ∀ c ∈ s, c = 48))) ∧
    (cino_utils.str_to_bool str = true ↔
      ¬ (str = none ∨ str = some [] ∨
        (∃ s, str = some s ∧ s.map tolower = [102, 97, 108, 115, 101]) ∨
        (∃ s, str = some s ∧ ∀ c ∈ s, c = 48))) := by
  have key : cino_utils.str_to_bool str = false ↔
      (str = none ∨ str = some [] ∨
        (∃ s, str = some s ∧ s.map tolower = [102, 97, 108, 115, 101]) ∨
        (∃ s, str = some s ∧ ∀ c ∈ s, c = 48)) := by
    cases str with
    | none => simp [cino_utils.str_to_bool]
    | some s =>
      have h0 : 0 ∉ s := hz s rfl
      have hf : (0 : Nat) ∉ [102, 97, 108, 115, 101] := by decide
      have he := eq_ignore_case_loop_iff s [102, 97, 108, 115, 101] h0 hf
      have hm : List.map tolower [102, 97, 108, 115, 101] = [102, 97, 108, 115, 101] := by
        decide
      rw [hm] at he
      have hl := str_to_bool_loop_iff s h0
      simp only [cino_utils.str_to_bool, cino_utils.str_equal_ignore_case, reduceCtorEq,
        Option.some.injEq, false_or, exists_eq_left']
      by_cases hcond : s.length = 0 ∨ cino_utils.str_equal_ignore_case_loop s
          [102, 97, 108, 115, 101] = true
      · simp only [hcond, if_true, true_iff]
        rcases hcond with h | h
        · left
          exact List.length_eq_zero.1 h
        · right; left
          exact he.1 h
      · simp only [hcond, if_false]
        rw [hl]
        constructor
        · intro h
          right; right
          exact h
        · rintro (h | h | h)
          · exact absurd (Or.inl (by simp [h])) hcond
          · exact absurd (Or.inr (he.2 h)) hcond
          · exact h
  refine ⟨key, ?_⟩
  rw [← key]
  simp

/-- Witness for C26: the string `FaLsE` (bytes 70, 97, 76, 115, 69) gives false. -/
theorem C26_str_to_bool_witness :
    (∀ s, (some [70, 97, 76, 115, 69] : Option (List Nat)) = some s → 0 ∉ s) ∧
    cino_utils.str_to_bool (some [70, 97, 76, 115, 69]) = false ∧
    cino_utils.str_to_bool (some [48, 48, 49]) = true := by
  have hz : ∀ s, (some [70, 97, 76, 115, 69] : Option (List Nat)) = some s → 0 ∉ s := by
    intro s hs
    cases hs
    decide
  refine ⟨hz, ?_, by decide⟩
  exact (C26_str_to_bool (some [70, 97, 76, 115, 69]) hz).1.2
    (Or.inr (Or.inr (Or.inl ⟨_, rfl, by decide⟩)))

theorem strlen_list_content (s pad : List Nat) (hz : 0 ∉ s) :
    strlen_list (s ++ 0 :: pad) = some s.length := by
  induction s with
  | nil => simp [strlen_list]
  | cons c cs ih =>
    have hc : c ≠ 0 := fun e => hz (by simp [e])
    have hcs : 0 ∉ cs := fun e => hz (List.mem_cons_of_mem _ e)
    simp [strlen_list, hc, ih hcs]

theorem c_strlen_at (pre s pad : List Nat) (hz : 0 ∉ s) :
    c_strlen (pre ++ s ++ 0 :: pad) pre.length = some s.length := by
  simp only [c_strlen, List.append_assoc, List.drop_left]
  exact strlen_list_content s pad hz

theorem c_str_at (pre s pad : List Nat) (hz : 0 ∉ s) :
    c_str (pre ++ s ++ 0 :: pad) pre.length = some s := by
  simp only [c_str, c_strlen_at pre s pad hz, Option.map_some']
  simp

theorem skip_spaces_list_split (w : List Nat) :
    ∀ (r : List Nat) (cur : Nat), (∀ c ∈ w, isspace c = true) → r ≠ [] →
    isspace (r.headD 0) = false →
    skip_spaces_list (w ++ r) cur = some (cur + w.length) := by
  induction w with
  | nil =>
    intro r cur _ hr hh
    obtain ⟨c, cs, rfl⟩ := List.exists_cons_of_ne_nil hr
    have hc : isspace c = false := by simpa using hh
    simp [skip_spaces_list, hc]
  | cons a w ih =>
    intro r cur hw hr hh
    have ha : isspace a = true := hw a (List.mem_cons_self _ _)
    have hw2 : ∀ c ∈ w, isspace c = true := fun c hc => hw c (List.mem_cons_of_mem _ hc)
    have h := ih r (cur + 1) hw2 hr hh
    simp only [List.cons_append, skip_spaces_list, ha, if_true, List.length_cons]
    show skip_spaces_list (w ++ r) (cur + 1) = some (cur + (w.length + 1))
    rw [h]
    congr 1
    omega

theorem scan_back_content (t : List Nat) :
    ∀ (rest : List Nat), t ≠ [] → isspace (t.headD 0) = false →
    scan_back (t ++ rest) (t.length - 1) = some ((t.rdropWhile isspace).length - 1) ∧
      0 < (t.rdropWhile isspace).length := by
  induction t using List.reverseRecOn with
  | nil => intro rest h; exact absurd rfl h
  | append_singleton u c ih =>
    intro rest _ hhead
    by_cases hu : u = []
    · subst hu
      have hc : isspace c = false := by simpa using hhead
      have : List.rdropWhile isspace [c] = [c] := by
        simp [List.rdropWhile_singleton, hc]
      simp [scan_back, this]
    · obtain ⟨k, hk⟩ : ∃ k, u.length = k + 1 :=
        ⟨u.length - 1, by have := List.length_pos.2 hu; omega⟩
      have hidx : (u ++ [c]).length - 1 = k + 1 := by simp [hk]
      have hget : (u ++ [c] ++ rest)[k + 1]? = some c := by
        rw [← hk, List.append_assoc, List.getElem?_append_right (Nat.le_refl _)]
        simp
      have hhead2 : isspace (u.headD 0) = false := by
        cases u with
        | nil => exact absurd rfl hu
        | cons a as => simpa using hhead
      have ih2 := ih (c :: rest) hu hhead2
      have hk1 : u.length - 1 = k := by omega
      rw [hk1] at ih2
      by_cases hc : isspace c = true
      · rw [hidx, List.rdropWhile_concat_pos _ _ _ hc]
        refine ⟨?_, ih2.2⟩
        simp only [scan_back, hget, hc, if_true]
        have : u ++ [c] ++ rest = u ++ c :: rest := by simp
        rw [this]
        exact ih2.1
      · rw [hidx, List.rdropWhile_concat_neg _ _ _ hc]
        refine ⟨?_, by simp⟩
        simp only [scan_back, hget, hc]
        simp [hk]

theorem set_terminator (t pad : List Nat) (m : Nat) (hm : m ≤ t.length) :
    ∃ pad1, (t ++ 0 :: pad).set m 0 = t.take m ++ 0 :: pad1 ∧
      pad1.length + m = t.length + pad.length := by
  rcases Nat.lt_or_ge m t.length with h | h
  · refine ⟨t.drop (m + 1) ++ 0 :: pad, ?_, ?_⟩
    · rw [List.set_eq_take_cons_drop _ (by simp; omega)]
      rw [List.take_append_of_le_length (by omega), List.drop_append_of_le_length (by omega)]
    · simp
      omega
  · have hm2 : m = t.length := by omega
    subst hm2
    refine ⟨pad, ?_, by omega⟩
    rw [List.set_eq_take_cons_drop _ (by simp)]
    simp

theorem memmove_to_front (w t pad : List Nat) :
    ∃ pad1, memmove (w ++ t ++ 0 :: pad) 0 w.length (t.length + 1)
        = some (t ++ 0 :: pad1) ∧
      pad1.length = w.length + pad.length ∧ (w.length = 0 → pad1 = pad) := by
  refine ⟨(w ++ t ++ 0 :: pad).drop (t.length + 1), ?_, by simp; omega, ?_⟩
  swap
  · intro hk
    rw [List.length_eq_zero.1 hk]
    simp
  have hguard : w.length + (t.length + 1) ≤ (w ++ t ++ 0 :: pad).length ∧
      0 + (t.length + 1) ≤ (w ++ t ++ 0 :: pad).length := by
    simp
    omega
  simp only [memmove, hguard, and_self, if_true, List.take_zero, List.nil_append,
    Nat.zero_add, Option.some.injEq]
  have h1 : List.drop w.length (w ++ t ++ 0 :: pad) = (t ++ [0]) ++ pad := by
    rw [List.append_assoc, List.drop_left]
    simp
  have h2 : List.take (t.length + 1) ((t ++ [0]) ++ pad) = t ++ [0] := by
    rw [List.take_append_of_le_length (by simp)]
    rw [List.take_of_length_le (by simp)]
  rw [h1, h2]
  simp
  omega

theorem str_strip_unfold (b b1 : Buf) (start n : Nat) (hskip : skip_spaces b 0 = some start)
    (h0 : start = 0 → b1 = b)
    (h1 : start ≠ 0 → c_strlen b start = some n ∧ memmove b 0 start (n + 1) = some b1) :
    coop_utils.str_strip (some b) =
      match b1[0]? with
      | none => none
      | some c =>
        if c = 0 then some (some b1)
        else
          match c_strlen b1 0 with
          | none => none
          | some n =>
            match scan_back b1 (n - 1) with
            | none => none
            | some e => (poke b1 (e + 1) 0).map some := by
  simp only [coop_utils.str_strip, hskip]
  by_cases hs : start = 0
  · rw [h0 hs]
    simp only [hs, ne_eq, not_true_eq_false, if_false]
  · obtain ⟨hl, hm⟩ := h1 hs
    simp only [hs, ne_eq, not_false_eq_true, if_true, hl, hm]

theorem strip_split (w t pad : List Nat) (hw : ∀ c ∈ w, isspace c = true)
    (ht : isspace (t.headD 0) = false) (hz : 0 ∉ t) :
    ∃ pad1, coop_utils.str_strip (some (w ++ t ++ 0 :: pad))
        = some (some (t.rdropWhile isspace ++ 0 :: pad1)) ∧
      (t.rdropWhile isspace ++ 0 :: pad1).length = (w ++ t ++ 0 :: pad).length := by
  have hskip : skip_spaces (w ++ t ++ 0 :: pad) 0 = some w.length := by
    have hh : isspace ((t ++ 0 :: pad).headD 0) = false := by
      cases t with
      | nil => rfl
      | cons a as => simpa using ht
    have := skip_spaces_list_split w (t ++ 0 :: pad) 0 hw (by simp) hh
    simpa [skip_spaces] using this
  -- the array after the leading whitespace has been moved out
  obtain ⟨pad2, hmm, hlen2, hpad⟩ := memmove_to_front w t pad
  have hmv0 : w.length = 0 → t ++ 0 :: pad2 = w ++ t ++ 0 :: pad := by
    intro hk
    rw [hpad hk, List.length_eq_zero.1 hk]
    rfl
  have hmv1 : w.length ≠ 0 → c_strlen (w ++ t ++ 0 :: pad) w.length = some t.length ∧
      memmove (w ++ t ++ 0 :: pad) 0 w.length (t.length + 1) = some (t ++ 0 :: pad2) :=
    fun _ => ⟨c_strlen_at w t pad hz, hmm⟩
  by_cases hte : t = []
  · subst hte
    refine ⟨pad2, ?_, by simp; omega⟩
    rw [str_strip_unfold _ _ _ _ hskip hmv0 hmv1]
    simp
  · obtain ⟨c, cs, hcs⟩ := List.exists_cons_of_ne_nil hte
    have hc0 : c ≠ 0 := by
      intro e
      apply hz
      rw [hcs, e]
      simp
    obtain ⟨hscan, hpos⟩ := scan_back_content t (0 :: pad2) hte ht
    have hpre : t.rdropWhile isspace = t.take (t.rdropWhile isspace).length :=
      List.prefix_iff_eq_take.1 ( List.rdropWhile_prefix isspace t)
    have hle : (t.rdropWhile isspace).length ≤ t.length :=
      ( List.rdropWhile_prefix isspace t).length_le
    obtain ⟨pad1, hset, hl1⟩ := set_terminator t pad2 (t.rdropWhile isspace).length hle
    refine ⟨pad1, ?_, ?_⟩
    · have hlen0 := c_strlen_at [] t pad2 hz
      simp only [List.nil_append, List.length_nil] at hlen0
      have hget0 : (t ++ 0 :: pad2)[0]? = some c := by
        rw [hcs]; simp
      have he : (t.rdropWhile isspace).length - 1 + 1 = (t.rdropWhile isspace).length := by
        omega
      have hlt : (t.rdropWhile isspace).length < (t ++ 0 :: pad2).length := by
        simp
        omega
      rw [str_strip_unfold _ _ _ _ hskip hmv0 hmv1]
      simp only [hget0, hc0, if_false, hlen0, hscan, he,
        poke, hlt, if_true, Option.map_some']
      rw [hset, ← hpre]
    · simp only [List.length_append, List.length_cons]
      have := congrArg List.length hpre
      simp only [List.length_take] at this
      omega
theorem isspace_head_dropWhile (s : List Nat) :
    isspace ((s.dropWhile isspace).headD 0) = false := by
  cases h : s.dropWhile isspace with
  | nil => rfl
  | cons a as =>
    have hne : s.dropWhile isspace ≠ [] := by simp [h]
    have := List.head_dropWhile_not isspace s hne
    simp only [h, List.head_cons] at this
    simpa using this

theorem isspace_head_strip_spec (s : List Nat) :
    isspace ((strip_spec s).headD 0) = false := by
  obtain ⟨r, hr⟩ :=  List.rdropWhile_prefix isspace (s.dropWhile isspace)
  have hd := isspace_head_dropWhile s
  unfold strip_spec
  cases ht : List.rdropWhile isspace (s.dropWhile isspace) with
  | nil => rfl
  | cons a as =>
    rw [ht] at hr
    rw [← hr] at hd
    simpa using hd

theorem not_mem_strip_spec (s : List Nat) (hz : 0 ∉ s) : 0 ∉ strip_spec s := by
  intro h
  apply hz
  have h1 := ( List.rdropWhile_prefix isspace (s.dropWhile isspace)).subset h
  exact (List.dropWhile_suffix isspace).subset h1

theorem strip_spec_idem (s : List Nat) : strip_spec (strip_spec s) = strip_spec s := by
  have key : ∀ t : List Nat, isspace (t.headD 0) = false → t.dropWhile isspace = t := by
    intro t ht
    cases t with
    | nil => rfl
    | cons a as =>
      have ha : isspace a = false := by simpa using ht
      simp [List.dropWhile, ha]
  have h1 := key _ (isspace_head_strip_spec s)
  show ((strip_spec s).dropWhile isspace).rdropWhile isspace = strip_spec s
  rw [h1]
  exact List.rdropWhile_idempotent isspace _

theorem strip_spec_all_space (s : List Nat) (h : ∀ c ∈ s, isspace c = true) :
    strip_spec s = [] := by
  have : s.dropWhile isspace = [] := by
    rw [List.dropWhile_eq_nil_iff]
    exact h
  simp [strip_spec, this]

theorem strip_core (s pad : List Nat) (hz : 0 ∉ s) :
    ∃ pad1, coop_utils.str_strip (some (s ++ 0 :: pad))
        = some (some (strip_spec s ++ 0 :: pad1)) ∧
      (strip_spec s ++ 0 :: pad1).length = (s ++ 0 :: pad).length := by
  have hw : ∀ c ∈ s.takeWhile isspace, isspace c = true :=
    fun c hc => (List.mem_takeWhile_imp hc)
  have hzt : 0 ∉ s.dropWhile isspace :=
    fun h => hz ((List.dropWhile_suffix isspace).subset h)
  have := strip_split (s.takeWhile isspace) (s.dropWhile isspace) pad hw
    (isspace_head_dropWhile s) hzt
  rw [List.takeWhile_append_dropWhile] at this
  exact this

/-- C25: on a buffer holding the NUL-terminated string `s` (no NUL inside `s`, any bytes after
the terminator), `str_strip` of `coop_utils` returns the buffer, of unchanged size, holding
exactly `s` without its leading and trailing whitespace (`strip_spec s`); this is the empty
string when `s` is all whitespace; and stripping the result again succeeds and yields the same
string. -/
theorem C25_str_strip (s pad : List Nat) (hz : 0 ∉ s) :
    ∃ b1, coop_utils.str_strip (some (s ++ 0 :: pad)) = some (some b1) ∧
      b1.length = (s ++ 0 :: pad).length ∧
      c_str b1 0 = some (strip_spec s) ∧
      ((∀ c ∈ s, isspace c = true) → c_str b1 0 = some []) ∧
      ∃ b2, coop_utils.str_strip (some b1) = some (some b2) ∧ c_str b2 0 = c_str b1 0 := by
  obtain ⟨pad1, h1, hl1⟩ := strip_core s pad hz
  have hz1 := not_mem_strip_spec s hz
  have hstr : c_str (strip_spec s ++ 0 :: pad1) 0 = some (strip_spec s) :=
    c_str_at [] (strip_spec s) pad1 hz1
  obtain ⟨pad2, h2, _⟩ := strip_core (strip_spec s) pad1 hz1
  rw [strip_spec_idem] at h2
  refine ⟨_, h1, hl1, hstr, ?_, _, h2, ?_⟩
  · intro hall
    rw [hstr, strip_spec_all_space s hall]
  · rw [hstr]
    exact c_str_at [] (strip_spec s) pad2 hz1

theorem C25_str_strip_witness :
    (0 : Nat) ∉ [32, 32, 97, 32, 98, 32, 9] ∧
    strip_spec [32, 32, 97, 32, 98, 32, 9] = [97, 32, 98] ∧
    ∃ b1, coop_utils.str_strip (some ([32, 32, 97, 32, 98, 32, 9] ++ 0 :: [7, 7])) = some (some b1) ∧
      b1.length = ([32, 32, 97, 32, 98, 32, 9] ++ 0 :: [7, 7]).length ∧
      c_str b1 0 = some (strip_spec [32, 32, 97, 32, 98, 32, 9]) ∧
      ((∀ c ∈ [32, 32, 97, 32, 98, 32, 9], isspace c = true) → c_str b1 0 = some []) ∧
      ∃ b2, coop_utils.str_strip (some b1) = some (some b2) ∧ c_str b2 0 = c_str b1 0 :=
  ⟨by decide, by decide, C25_str_strip [32, 32, 97, 32, 98, 32, 9] [7, 7] (by decide)⟩

/-- C24 (code defect): `str_trim` of `cino_utils` on the buffer holding `"  ab"` (two leading
blanks) returns the buffer holding `"aba"`, not `"ab"`: after the move to the front only
the byte at the old last position is cleared, so with two or more leading whitespace
characters stale bytes of the tail stay in the string.  With one leading blank the result is
the stripped string. -/
theorem C24_str_trim_stale_tail :
    cino_utils.str_trim (some [32, 32, 97, 98, 0]) = some (some [97, 98, 97, 0, 0]) ∧
    c_str [97, 98, 97, 0, 0] 0 = some [97, 98, 97] ∧
    strip_spec [32, 32, 97, 98] = [97, 98] ∧
    cino_utils.str_trim (some [32, 97, 98, 0]) = some (some [97, 98, 0, 0]) := by
  refine ⟨by rfl, by rfl, by decide, by rfl⟩

/-- C27 (code defect): `str_split` of `cino_utils` on `"a,b"` with delimiter `","` stores the
single item `"a"` and returns 1, for every loop budget of at least two rounds: the final
piece `"b"` of length one is dropped by the test `str < end`.  A final piece of length two,
as in `"a,bc"`, is stored. -/
theorem C27_str_split_drops_last_char (fuel : Nat) :
    cino_utils.str_split (fuel + 2) (some [97, 44, 98]) (some [44]) (some [[], [], []])
      = some (1, some [[97], [], []]) ∧
    cino_utils.str_split (fuel + 2) (some [97, 44, 98, 99]) (some [44]) (some [[], [], []])
      = some (2, some [[97], [98, 99], []]) := by
  refine ⟨by rfl, by rfl⟩

/-- C28 (code defect): `str_replace` of `cino_utils` searches from the start of the string in
every round.  Replacing `"a"` by `"a"` in `"a"` leaves the state unchanged after one round,
so the loop returns for no budget; and replacing `"ab"` by `"b"` in `"aab"` gives `"b"`,
because the inserted text is matched again, where one left-to-right pass gives `"ab"`
(as `str_replace_string` of `coop_utils` does). -/
theorem C28_str_replace_rescans :
    (∀ fuel, cino_utils.str_replace_loop [97] [97] (fuel + 1) [97, 0]
      = cino_utils.str_replace_loop [97] [97] fuel [97, 0]) ∧
    (∀ fuel, cino_utils.str_replace fuel (some [97, 0]) (some [97]) (some [97]) = none) ∧
    (∀ fuel, cino_utils.str_replace (fuel + 3) (some [97, 97, 98, 0]) (some [97, 98]) (some [98])
      = some (some [98, 0, 0, 0])) ∧
    (∀ fuel, coop_utils.str_replace_string (fuel + 2) (some [97, 97, 98, 0]) (some [97, 98])
      (some [98]) = some (some [97, 98, 0, 0])) := by
  have step : ∀ fuel, cino_utils.str_replace_loop [97] [97] (fuel + 1) [97, 0]
      = cino_utils.str_replace_loop [97] [97] fuel [97, 0] := fun _ => rfl
  have loops : ∀ fuel, cino_utils.str_replace_loop [97] [97] fuel [97, 0] = none := by
    intro fuel
    induction fuel with
    | zero => rfl
    | succ k ih => rw [step k, ih]
  refine ⟨step, ?_, fun _ => rfl, fun _ => rfl⟩
  intro fuel
  simp only [cino_utils.str_replace, loops fuel, Option.map_none']

/-- C30 (code defect): `str_remove_string` of `coop_utils` with the empty `substr` on the
string `"a"`: the comparison of zero characters succeeds, the move copies the string onto
itself and the pointer is not advanced, so one round of the loop leaves the state unchanged
and the call returns for no budget. -/
theorem C30_remove_empty_substr_loops :
    (∀ fuel, coop_utils.str_remove_string_loop [] (fuel + 1) [97, 0] 0
      = coop_utils.str_remove_string_loop [] fuel [97, 0] 0) ∧
    (∀ fuel, coop_utils.str_remove_string fuel (some [97, 0]) (some []) = none) ∧
    (∀ fuel, coop_utils.str_remove_string (fuel + 4) (some [97, 98, 97, 0]) (some [97])
      = some (some [98, 0, 0, 0])) := by
  have step : ∀ fuel, coop_utils.str_remove_string_loop [] (fuel + 1) [97, 0] 0
      = coop_utils.str_remove_string_loop [] fuel [97, 0] 0 := fun _ => rfl
  have loops : ∀ fuel, coop_utils.str_remove_string_loop [] fuel [97, 0] 0 = none := by
    intro fuel
    induction fuel with
    | zero => rfl
    | succ k ih => rw [step k, ih]
  refine ⟨step, ?_, fun _ => rfl⟩
  intro fuel
  simp only [coop_utils.str_remove_string, loops fuel, Option.map_none']

theorem match_at_append (pat r : List Nat) : match_at pat (pat ++ r) = true := by
  induction pat with
  | nil => rfl
  | cons a p ih => simp [match_at, ih]

theorem match_at_split (pat : List Nat) :
    ∀ s, match_at pat s = true → ∃ r, s = pat ++ r := by
  induction pat with
  | nil => intro s _; exact ⟨s, rfl⟩
  | cons a p ih =>
    intro s h
    cases s with
    | nil => simp [match_at] at h
    | cons c cs =>
      simp only [match_at, Bool.and_eq_true, beq_iff_eq] at h
      obtain ⟨r, hr⟩ := ih cs h.2
      exact ⟨r, by rw [h.1, hr]; rfl⟩

theorem replace_scan_skip (old_str new_str : List Nat) :
    ∀ (k : Nat) (s : List Nat), k ≤ s.length →
      replace_scan old_str new_str k s = replace_scan old_str new_str 0 (s.drop k) := by
  intro k
  induction k with
  | zero => intro s _; rfl
  | succ k ih =>
    intro s hk
    cases s with
    | nil => simp at hk
    | cons c cs =>
      simp only [replace_scan, List.drop_succ_cons]
      exact ih cs (by simpa using hk)

theorem replace_scan_match (old_str new_str r : List Nat) (hne : old_str ≠ []) :
    replace_scan old_str new_str 0 (old_str ++ r)
      = new_str ++ replace_scan old_str new_str 0 r := by
  obtain ⟨a, p, rfl⟩ := List.exists_cons_of_ne_nil hne
  have hm : match_at (a :: p) (a :: (p ++ r)) = true := match_at_append (a :: p) r
  show (if match_at (a :: p) (a :: (p ++ r)) = true then
      new_str ++ replace_scan (a :: p) new_str ((a :: p).length - 1) (p ++ r)
    else a :: replace_scan (a :: p) new_str 0 (p ++ r)) = _
  rw [if_pos hm]
  simp only [List.length_cons, Nat.add_sub_cancel]
  rw [replace_scan_skip _ _ p.length (p ++ r) (by simp)]
  simp

theorem find_sub_none_scan (old_str new_str : List Nat) :
    ∀ s, find_sub old_str s = none → replace_scan old_str new_str 0 s = s := by
  intro s
  induction s with
  | nil => intro _; rfl
  | cons c cs ih =>
    intro h
    simp only [find_sub] at h
    cases hm : match_at old_str (c :: cs) with
    | true => simp [hm] at h
    | false =>
      simp only [hm, Bool.false_eq_true, if_false, Option.map_eq_none'] at h
      simp only [replace_scan, hm, Bool.false_eq_true, if_false, ih h]

theorem find_sub_some_scan (old_str new_str : List Nat) (hne : old_str ≠ []) :
    ∀ (s : List Nat) (i : Nat), find_sub old_str s = some i →
      ∃ u r, s = u ++ old_str ++ r ∧ u.length = i ∧
        replace_scan old_str new_str 0 s = u ++ new_str ++ replace_scan old_str new_str 0 r := by
  intro s
  induction s with
  | nil =>
    intro i h
    obtain ⟨a, p, rfl⟩ := List.exists_cons_of_ne_nil hne
    simp [find_sub, match_at] at h
  | cons c cs ih =>
    intro i h
    simp only [find_sub] at h
    cases hm : match_at old_str (c :: cs) with
    | true =>
      simp only [hm, if_true, Option.some.injEq] at h
      obtain ⟨r, hr⟩ := match_at_split old_str _ hm
      refine ⟨[], r, by simpa using hr, by simpa using h, ?_⟩
      rw [hr, replace_scan_match old_str new_str r hne]
      rfl
    | false =>
      simp only [hm, Bool.false_eq_true, if_false, Option.map_eq_some'] at h
      obtain ⟨j, hj, hij⟩ := h
      obtain ⟨u, r, hs, hu, hR⟩ := ih j hj
      refine ⟨c :: u, r, by rw [hs]; rfl, by simp [hu, ← hij], ?_⟩
      simp only [replace_scan, hm, Bool.false_eq_true, if_false, hR]
      rfl

theorem replace_scan_length_ge (old_str new_str : List Nat) (hne : old_str ≠ [])
    (hlen : old_str.length ≤ new_str.length) :
    ∀ (s : List Nat) (k : Nat), s.length ≤ (replace_scan old_str new_str k s).length + k := by
  have hpos : 0 < old_str.length := List.length_pos.2 hne
  intro s
  induction s with
  | nil => intro k; simp
  | cons c cs ih =>
    intro k
    cases k with
    | zero =>
      cases hm : match_at old_str (c :: cs) with
      | true =>
        have := ih (old_str.length - 1)
        simp only [replace_scan, hm, if_true, List.length_append, List.length_cons]
        omega
      | false =>
        have := ih 0
        simp only [replace_scan, hm, Bool.false_eq_true, if_false, List.length_cons]
        omega
    | succ k =>
      have := ih k
      simp only [replace_scan, List.length_cons]
      omega

theorem not_mem_replace_scan (old_str new_str : List Nat) (hzn : 0 ∉ new_str) :
    ∀ (s : List Nat) (k : Nat), 0 ∉ s → 0 ∉ replace_scan old_str new_str k s := by
  intro s
  induction s with
  | nil => intro k _; simp [replace_scan]
  | cons c cs ih =>
    intro k hz
    have hc : ¬ 0 = c := fun e => hz (by simp [e])
    have hcs : 0 ∉ cs := fun e => hz (List.mem_cons_of_mem _ e)
    cases k with
    | zero =>
      cases hm : match_at old_str (c :: cs) with
      | true =>
        simp only [replace_scan, hm, if_true, List.mem_append, not_or]
        exact ⟨hzn, ih _ hcs⟩
      | false =>
        simp only [replace_scan, hm, Bool.false_eq_true, if_false, List.mem_cons, not_or]
        exact ⟨hc, ih _ hcs⟩
    | succ k =>
      simp only [replace_scan]
      exact ih _ hcs
theorem splice_buf (A O T P N : List Nat) (hcap : N.length ≤ O.length + P.length) :
    ∃ b1 P1, memmove (A ++ O ++ T ++ P) (A.length + N.length) (A.length + O.length) T.length
        = some b1 ∧
      memcpy b1 A.length N = some (A ++ N ++ T ++ P1) ∧
      P1.length + N.length = O.length + P.length := by
  have hL : (A ++ O ++ T ++ P).length = A.length + O.length + T.length + P.length := by
    simp only [List.length_append]
  have hguard : A.length + O.length + T.length ≤ (A ++ O ++ T ++ P).length ∧
      A.length + N.length + T.length ≤ (A ++ O ++ T ++ P).length := by
    rw [hL]
    omega
  have hsrc : List.take T.length (List.drop (A.length + O.length) (A ++ O ++ T ++ P)) = T := by
    have : A ++ O ++ T ++ P = (A ++ O) ++ (T ++ P) := by simp
    rw [this, ← List.length_append, List.drop_left, List.take_left]
  have hX : (List.take (A.length + N.length) (A ++ O ++ T ++ P)).length
      = A.length + N.length := by
    rw [List.length_take, hL]
    omega
  have hXA : List.take A.length (List.take (A.length + N.length) (A ++ O ++ T ++ P)) = A := by
    rw [List.take_take, Nat.min_eq_left (Nat.le_add_right _ _)]
    have : A ++ O ++ T ++ P = A ++ (O ++ T ++ P) := by simp
    rw [this, List.take_left]
  refine ⟨List.take (A.length + N.length) (A ++ O ++ T ++ P) ++ T ++
      List.drop (A.length + N.length + T.length) (A ++ O ++ T ++ P),
    List.drop (A.length + N.length + T.length) (A ++ O ++ T ++ P), ?_, ?_, ?_⟩
  · simp only [memmove, hguard, and_self, if_true, hsrc]
  · have hlen : A.length + N.length ≤
        (List.take (A.length + N.length) (A ++ O ++ T ++ P) ++ T ++
          List.drop (A.length + N.length + T.length) (A ++ O ++ T ++ P)).length := by
      simp only [List.length_append, hX]
      omega
    simp only [memcpy, hlen, if_true, Option.some.injEq]
    have h1 : List.take A.length
        (List.take (A.length + N.length) (A ++ O ++ T ++ P) ++ T ++
          List.drop (A.length + N.length + T.length) (A ++ O ++ T ++ P)) = A := by
      rw [List.append_assoc, List.take_append_of_le_length (by rw [hX]; omega), hXA]
    have h2 : List.drop (A.length + N.length)
        (List.take (A.length + N.length) (A ++ O ++ T ++ P) ++ T ++
          List.drop (A.length + N.length + T.length) (A ++ O ++ T ++ P))
        = T ++ List.drop (A.length + N.length + T.length) (A ++ O ++ T ++ P) := by
      rw [List.append_assoc]
      exact List.drop_left' hX
    rw [h1, h2]
    simp
  · rw [List.length_drop, hL]
    omega

theorem replace_loop_spec (old_str new_str : List Nat) (hne : old_str ≠ []) :
    ∀ (fuel : Nat) (rest pre pad : List Nat), rest.length < fuel → 0 ∉ rest →
      (replace_scan old_str new_str 0 rest).length ≤ rest.length + pad.length →
      ∃ pad1, coop_utils.str_replace_string_loop old_str new_str fuel
          (pre ++ rest ++ 0 :: pad) pre.length
          = some (pre ++ replace_scan old_str new_str 0 rest ++ 0 :: pad1) ∧
        (replace_scan old_str new_str 0 rest).length + pad1.length
          = rest.length + pad.length := by
  have hpos : 0 < old_str.length := List.length_pos.2 hne
  intro fuel
  induction fuel with
  | zero => intro rest pre pad h; exact absurd h (Nat.not_lt_zero _)
  | succ fuel ih =>
    intro rest pre pad hfuel hz hcap
    have hstr : c_strstr (pre ++ rest ++ 0 :: pad) pre.length old_str
        = some ((find_sub old_str rest).map (fun i => pre.length + i)) := by
      simp only [c_strstr, c_str_at pre rest pad hz, Option.map_some']
    cases hf : find_sub old_str rest with
    | none =>
      refine ⟨pad, ?_, by rw [find_sub_none_scan old_str new_str rest hf]⟩
      rw [hf] at hstr
      simp only [coop_utils.str_replace_string_loop, hstr, Option.map_none',
        find_sub_none_scan old_str new_str rest hf]
    | some i =>
      rw [hf] at hstr
      obtain ⟨u, r, hs, hu, hR⟩ := find_sub_some_scan old_str new_str hne rest i hf
      have hzr : 0 ∉ r := fun h => hz (by rw [hs]; simp [h])
      have hlen_rest : rest.length = u.length + old_str.length + r.length := by
        rw [hs]; simp only [List.length_append]
      have hlenR : (replace_scan old_str new_str 0 rest).length
          = u.length + new_str.length + (replace_scan old_str new_str 0 r).length := by
        rw [hR]; simp only [List.length_append]
      have hcapN : new_str.length ≤ old_str.length + pad.length := by
        rcases Nat.le_total new_str.length old_str.length with h | h
        · omega
        · have := replace_scan_length_ge old_str new_str hne h r 0
          omega
      have hb : pre ++ rest ++ 0 :: pad = (pre ++ u) ++ old_str ++ (r ++ [0]) ++ pad := by
        rw [hs]; simp
      have hb2 : pre ++ rest ++ 0 :: pad = (pre ++ u ++ old_str) ++ r ++ 0 :: pad := by
        rw [hs]; simp
      have hq : pre.length + i = (pre ++ u).length := by simp only [List.length_append, hu]
      have hlen : c_strlen (pre ++ rest ++ 0 :: pad) (pre.length + i + old_str.length)
          = some r.length := by
        have := c_strlen_at (pre ++ u ++ old_str) r pad hzr
        rw [← hb2] at this
        rw [← this]
        congr 1
        simp only [List.length_append, hu]
      obtain ⟨b1, P1, hmm, hmc, hP1⟩ := splice_buf (pre ++ u) old_str (r ++ [0]) pad new_str hcapN
      rw [← hb, ← hq] at hmm
      rw [← hq] at hmc
      have hT : (r ++ [0]).length = r.length + 1 := by simp
      rw [hT] at hmm
      have hcap2 : (replace_scan old_str new_str 0 r).length ≤ r.length + P1.length := by
        omega
      obtain ⟨pad1, hrec, hl⟩ := ih r (pre ++ u ++ new_str) P1 (by omega) hzr hcap2
      have hb3 : pre ++ u ++ new_str ++ (r ++ [0]) ++ P1
          = (pre ++ u ++ new_str) ++ r ++ 0 :: P1 := by simp
      have hq3 : pre.length + i + new_str.length = (pre ++ u ++ new_str).length := by
        simp only [List.length_append, hu]
      refine ⟨pad1, ?_, by omega⟩
      simp only [coop_utils.str_replace_string_loop, hstr, Option.map_some', hlen, hmm, hmc]
      rw [hb3, hq3, hrec, hR]
      simp
/-- C29: on a buffer holding the NUL-terminated string `s` with room for the result,
`str_replace_string` of `coop_utils` with a non-empty `old_str` returns (every loop budget
above the length of `s` suffices) the buffer, of unchanged size, holding `s` with each
occurrence of `old_str`, matched left to right without overlap and without scanning inserted
text, replaced by `new_str` (`replace_spec`); with an empty `old_str` the buffer is returned
unchanged. -/
theorem C29_str_replace_string (s old_str new_str pad : List Nat) (fuel : Nat)
    (hs : 0 ∉ s) (hn : 0 ∉ new_str) (hne : old_str ≠ [])
    (hcap : (replace_spec old_str new_str s).length ≤ s.length + pad.length)
    (hfuel : s.length < fuel) :
    (∃ b1, coop_utils.str_replace_string fuel (some (s ++ 0 :: pad)) (some old_str)
        (some new_str) = some (some b1) ∧
      b1.length = (s ++ 0 :: pad).length ∧
      c_str b1 0 = some (replace_spec old_str new_str s)) ∧
    coop_utils.str_replace_string fuel (some (s ++ 0 :: pad)) (some []) (some new_str)
      = some (some (s ++ 0 :: pad)) := by
  have hspec : replace_spec old_str new_str s = replace_scan old_str new_str 0 s := by
    simp only [replace_spec, hne, if_false]
  rw [hspec] at hcap ⊢
  have hpos : old_str.length > 0 := List.length_pos.2 hne
  obtain ⟨pad1, hloop, hl⟩ := replace_loop_spec old_str new_str hne fuel s [] pad hfuel hs hcap
  simp only [List.nil_append, List.length_nil] at hloop
  refine ⟨⟨replace_scan old_str new_str 0 s ++ 0 :: pad1, ?_, ?_, ?_⟩, ?_⟩
  · simp only [coop_utils.str_replace_string, hpos, if_true, hloop, Option.map_some']
  · simp only [List.length_append, List.length_cons]
    omega
  · exact c_str_at [] _ pad1 (not_mem_replace_scan old_str new_str hn s 0 hs)
  · simp [coop_utils.str_replace_string]

theorem C29_str_replace_string_witness :
    (0 : Nat) ∉ [97, 97] ∧ (0 : Nat) ∉ [97, 97] ∧ [97] ≠ ([] : List Nat) ∧
    (replace_spec [97] [97, 97] [97, 97]).length ≤ [97, 97].length + [7, 7].length ∧
    [97, 97].length < 3 ∧
    replace_spec [97] [97, 97] [97, 97] = [97, 97, 97, 97] ∧
    ((∃ b1, coop_utils.str_replace_string 3 (some ([97, 97] ++ 0 :: [7, 7])) (some [97])
        (some [97, 97]) = some (some b1) ∧
      b1.length = ([97, 97] ++ 0 :: [7, 7]).length ∧
      c_str b1 0 = some (replace_spec [97] [97, 97] [97, 97])) ∧
    coop_utils.str_replace_string 3 (some ([97, 97] ++ 0 :: [7, 7])) (some []) (some [97, 97])
      = some (some ([97, 97] ++ 0 :: [7, 7]))) :=
  ⟨by decide, by decide, by decide, by decide, by decide, by decide,
    C29_str_replace_string [97, 97] [97] [97, 97] [7, 7] 3 (by decide) (by decide) (by decide)
      (by decide) (by decide)⟩

/-- C40 (round trip): `str_to_bool` applied to the string `bool_to_str` returns for a
boolean gives that boolean back. -/
theorem C40_bool_round_trip (b : Bool) :
    cino_utils.str_to_bool (some (cino_utils.bool_to_str b)) = b := by
  cases b <;> rfl

/-- C37 (code defect): after `list_clear` on a freshly created list both sentinels are
released and `head`, `tail` are `NULL`, so `list_push_back` and `list_push_front` with a
non-null handle dereference the missing tail sentinel: the calls have no defined result.
On the fresh list itself the same push succeeds, with size 1 and the handle at index 0. -/
theorem C37_push_after_clear_faults :
    ∃ l0 st0 l1 st1 l2 st2,
      list_create sample_compare 7 DATA_TYPE_INT none none ⟨[], []⟩ = some (some l0, st0) ∧
      list_clear (some l0) st0 = some (some l1, st1) ∧
      l1.head = none ∧ l1.tail = none ∧
      list_push_back (some l1) (some 5) st1 = none ∧
      list_push_front (some l1) (some 5) st1 = none ∧
      list_push_back (some l0) (some 5) st0 = some (some l2, st2) ∧
      list_size (some l2) = 1 ∧ list_get (some l2) 0 st2 = some (some 5) :=
  ⟨_, _, _, _, _, _, rfl, rfl, rfl, rfl, rfl, rfl, rfl, rfl, rfl⟩

/-- C34 (code defect): `string_insert_string` leaves the length field as it was.  Inserting
the string `b` at position 0 into the string `a` gives the array holding `ba`, of length 2,
while the length field and `string_length` still say 1.  `string_concat` on the same two
strings adds the length of its argument to the field. -/
theorem C34_insert_string_stale_length :
    ∃ s sub s1 s2,
      string_create (some [97]) = some (some s) ∧
      string_create (some [98]) = some (some sub) ∧
      string_length (some s) = 1 ∧ s.content = some [97] ∧
      string_insert_string (some s) 0 (some sub) = some (some s1) ∧
      s1.content = some [98, 97] ∧ string_length (some s1) = 1 ∧
      string_concat (some s) (some sub) = some (some s2) ∧
      s2.content = some [97, 98] ∧ string_length (some s2) = 2 :=
  ⟨_, _, _, _, rfl, rfl, rfl, rfl, rfl, rfl, rfl, rfl, rfl, rfl⟩

/-- C33 (counterexample to the claim as worded): for `min = -1` and `max = INT_MAX`, both
`int` values with `min <= max`, and `rand()` returning 0, the subtraction `max - min` of
`randint` overflows, so the call has no defined result. -/
theorem C33_randint_width_overflows :
    INT_MIN ≤ -1 ∧ (-1 : Int) ≤ INT_MAX ∧ (0 : Int) ≤ 0 ∧
    coop_utils.randint (-1) INT_MAX 0 = none ∧
    coop_utils.randint INT_MIN INT_MAX 0 = none ∧
    coop_utils.randint 0 INT_MAX 0 = none := by
  refine ⟨by decide, by decide, by decide, by rfl, by rfl, by rfl⟩

/-- C33 (amended): for `int` values `min <= max`, if the distance `max - min` is below
`INT_MAX` then for every value `r` in `[0, INT_MAX]` returned by `rand()` `randint` is
defined, equals `min + r % (max - min + 1)` and lies in the inclusive range `[min, max]`;
if the distance is `INT_MAX` or more, the computation of `max - min + 1` overflows and
`randint` has no defined result, whatever `rand()` returns. -/
theorem C33_randint (min max r : Int) (hmin : INT_MIN ≤ min) (hmax : max ≤ INT_MAX)
    (hle : min ≤ max) :
    (max - min < INT_MAX → 0 ≤ r → r ≤ INT_MAX →
      ∃ v, coop_utils.randint min max r = some v ∧ v = min + r % (max - min + 1) ∧
        min ≤ v ∧ v ≤ max) ∧
    (INT_MAX ≤ max - min → coop_utils.randint min max r = none) := by
  have hI : INT_MAX = 2147483647 := rfl
  have hJ : INT_MIN = -2147483648 := rfl
  constructor
  · intro hw hr0 hr1
    have hm : (0 : Int) < max - min + 1 := by omega
    have hq0 : 0 ≤ r % (max - min + 1) := Int.emod_nonneg _ (by omega)
    have hq1 : r % (max - min + 1) < max - min + 1 := Int.emod_lt_of_pos _ hm
    have ht : Int.tmod r (max - min + 1) = r % (max - min + 1) :=
      Int.tmod_eq_emod hr0 (by omega)
    have h1 : int_result (max - min) = some (max - min) := by
      simp only [int_result, hI, hJ]
      rw [if_pos (by omega)]
    have h2 : int_result (max - min + 1) = some (max - min + 1) := by
      simp only [int_result, hI, hJ]
      rw [if_pos (by omega)]
    have h3 : int_result (r % (max - min + 1)) = some (r % (max - min + 1)) := by
      simp only [int_result, hI, hJ]
      rw [if_pos (by omega)]
    have h4 : int_result (min + r % (max - min + 1)) = some (min + r % (max - min + 1)) := by
      simp only [int_result, hI, hJ]
      rw [if_pos (by omega)]
    have hne : ¬ (max - min + 1 = 0 ∨ (r = INT_MIN ∧ max - min + 1 = -1)) := by
      rw [hJ]
      omega
    refine ⟨min + r % (max - min + 1), ?_, rfl, by omega, by omega⟩
    simp only [coop_utils.randint, h1, h2, hne, if_false, ht, h3, h4]
  · intro hw
    by_cases hd : max - min ≤ INT_MAX
    · have h1 : int_result (max - min) = some (max - min) := by
        simp only [int_result, hI, hJ]
        rw [if_pos (by omega)]
      have h2 : int_result (max - min + 1) = none := by
        simp only [int_result, hI, hJ]
        rw [if_neg (by omega)]
      simp only [coop_utils.randint, h1, h2]
    · have h1 : int_result (max - min) = none := by
        simp only [int_result, hI, hJ]
        rw [if_neg (by omega)]
      simp only [coop_utils.randint, h1]

/-- Witness for C33: a narrow range where the call is defined and a range of width
`INT_MAX + 2` where it is not. -/
theorem C33_randint_witness :
    INT_MIN ≤ 3 ∧ (9 : Int) ≤ INT_MAX ∧ (3 : Int) ≤ 9 ∧ (9 : Int) - 3 < INT_MAX ∧
    (0 : Int) ≤ 100 ∧ (100 : Int) ≤ INT_MAX ∧
    (∃ v, coop_utils.randint 3 9 100 = some v ∧ v = 3 + 100 % (9 - 3 + 1) ∧ 3 ≤ v ∧ v ≤ 9) ∧
    INT_MIN ≤ -5 ∧ INT_MAX - 3 ≤ INT_MAX ∧ (-5 : Int) ≤ INT_MAX - 3 ∧
    INT_MAX ≤ INT_MAX - 3 - (-5) ∧
    coop_utils.randint (-5) (INT_MAX - 3) 42 = none :=
  ⟨by decide, by decide, by decide, by decide, by decide, by decide,
    (C33_randint 3 9 100 (by decide) (by decide) (by decide)).1 (by decide) (by decide)
      (by decide),
    by decide, by decide, by decide, by decide,
    (C33_randint (-5) (INT_MAX - 3) 42 (by decide) (by decide) (by decide)).2 (by decide)⟩

/-- C38 (destruction): on a list holding `s`, the clearing loop that `list_destroy` runs
first calls the destruction policy once on each held handle, front to back, and makes no
other callback call, with both sentinels still live at that point; the complete
`list_destroy` returns with the same callback log and both sentinels released (the list
record is gone with the call).  On a null list nothing happens. -/
theorem C38_destroy (st : Store) (l : list_t) (s : List T) (h : Holds st l s) :
    (∃ hd tl l1 st1 st2, l.head = some hd ∧ l.tail = some tl ∧
      list_clear_loop l.size l st = some (l1, st1) ∧
      st1.log = st.log ++ s.map (fun e => Event.destroy l.destroy e) ∧
      (st1.read (some hd)).isSome = true ∧ (st1.read (some tl)).isSome = true ∧
      list_destroy (some l) st = some st2 ∧
      st2.log = st1.log ∧ st2.read (some hd) = none ∧ st2.read (some tl) = none) ∧
    list_destroy none st = some st := by
  obtain ⟨hd, tl, cells, hc, hs⟩ := h
  have hmap : cells.map (fun c => Event.destroy l.destroy c.2)
      = s.map (fun e => Event.destroy l.destroy e) := by
    rw [← hs, List.map_map]
    rfl
  obtain ⟨st1, hloop, hc1, hlog1, _⟩ :=
    Chain.clear_loop cells l.size l st hc (by rw [hc.2.2.1])
  obtain ⟨st4, hclear, hlog4, hr1, hr2⟩ := Chain.clear hc
  have hh := Chain.read_head hc1
  have ht := Chain.read_tail hc1
  have e1 : ({ l with size := 0 } : list_t).head = some hd := hc.1
  have e2 : ({ l with size := 0 } : list_t).tail = some tl := hc.2.1
  rw [e1] at hh
  rw [e2] at ht
  refine ⟨⟨hd, tl, _, st1, st4, hc.1, hc.2.1, hloop, by rw [hlog1, hmap], by rw [hh]; rfl,
    by rw [ht]; rfl, ?_, by rw [hlog4, hlog1], hr1, hr2⟩, rfl⟩
  simp only [list_destroy, hclear]

theorem C38_destroy_witness :
    Holds abc_store abc_list [some 97, some 98, some 99] ∧
    ((∃ hd tl l1 st1 st2, abc_list.head = some hd ∧ abc_list.tail = some tl ∧
      list_clear_loop abc_list.size abc_list abc_store = some (l1, st1) ∧
      st1.log = abc_store.log
        ++ [some 97, some 98, some 99].map (fun e => Event.destroy abc_list.destroy e) ∧
      (st1.read (some hd)).isSome = true ∧ (st1.read (some tl)).isSome = true ∧
      list_destroy (some abc_list) abc_store = some st2 ∧
      st2.log = st1.log ∧ st2.read (some hd) = none ∧ st2.read (some tl) = none) ∧
    list_destroy none abc_store = some abc_store) :=
  ⟨abc_holds, C38_destroy abc_store abc_list _ abc_holds⟩

theorem Chain.payload_at {st : Store} {l : list_t} {hd tl : Nat} {xs ys : List Cell} {c : Cell}
    (h : Chain st l hd tl (xs ++ c :: ys)) :
    payload_node st l xs.length = some (some c.1) := by
  simp only [payload_node, Chain.read_head h]
  exact Chain.walk_forward h

theorem Holds.get_node_payload {st : Store} {l : list_t} {s : List T} (h : Holds st l s)
    (k : Nat) (hk : k < l.size) :
    ∃ a, list_get_node (some l) (k : Int) st = some (some a) ∧
      payload_node st l k = some (some a) := by
  obtain ⟨hd, tl, cells, hc, _⟩ := h
  have hk2 : k < cells.length := by rw [← hc.2.2.1]; exact hk
  obtain ⟨hsplit, hlen⟩ := split_at cells k hk2
  rw [hsplit] at hc
  have h1 := Chain.get_node hc
  have h2 := Chain.payload_at hc
  rw [hlen] at h1 h2
  exact ⟨_, h1, h2⟩

/-- C35 (index resolution against the naive scan): on a well-formed list, for every index
in `[0, size)` `list_get_node` returns a node, the very node reached by the naive scan that
follows `next` from `head.next` `index` times (`payload_node`), whichever of its two
branches it takes; and it returns null exactly when the index is out of range. -/
theorem C35_get_node_naive (st : Store) (l : list_t) (s : List T) (h : Holds st l s)
    (index : Int) :
    (0 ≤ index → index < (list_size (some l) : Int) →
      ∃ a, list_get_node (some l) index st = some (some a) ∧
        payload_node st l index.toNat = some (some a)) ∧
    (list_get_node (some l) index st = some none ↔
      (index < 0 ∨ (list_size (some l) : Int) ≤ index)) := by
  have key : 0 ≤ index → index < (list_size (some l) : Int) →
      ∃ a, list_get_node (some l) index st = some (some a) ∧
        payload_node st l index.toNat = some (some a) := by
    intro h0 h1
    obtain ⟨k, rfl⟩ := Int.eq_ofNat_of_zero_le h0
    have hk : k < l.size := by
      simp only [list_size] at h1
      omega
    simpa using h.get_node_payload k hk
  refine ⟨key, ?_, ?_⟩
  · intro hnull
    by_contra hin
    have h0 : 0 ≤ index := by omega
    have h1 : index < (list_size (some l) : Int) := by omega
    obtain ⟨a, ha, _⟩ := key h0 h1
    rw [ha] at hnull
    simp at hnull
  · intro hout
    have hg : ¬ (0 ≤ index ∧ index < (l.size : Int)) := by
      simp only [list_size] at hout
      omega
    simp only [list_get_node, hg, if_false]

theorem C35_get_node_naive_witness :
    Holds pi_store pi_list [some 103, some 201, some 304, some 401, some 505] ∧
    (∃ a, list_get_node (some pi_list) 1 pi_store = some (some a) ∧
      payload_node pi_store pi_list 1 = some (some a)) ∧
    (∃ a, list_get_node (some pi_list) 4 pi_store = some (some a) ∧
      payload_node pi_store pi_list 4 = some (some a)) ∧
    (list_get_node (some pi_list) 5 pi_store = some none ↔
      ((5 : Int) < 0 ∨ (list_size (some pi_list) : Int) ≤ 5)) :=
  ⟨pi_holds, (C35_get_node_naive pi_store pi_list _ pi_holds 1).1 (by decide) (by decide),
    (C35_get_node_naive pi_store pi_list _ pi_holds 4).1 (by decide) (by decide),
    (C35_get_node_naive pi_store pi_list _ pi_holds 5).2⟩
theorem Holds.run_op_nonnull {st : Store} {l : list_t} {s : List T} (h : Holds st l s)
    (hs : ∀ e ∈ s, e ≠ none) (op : Op) (hop : op.not_set = true) :
    ∃ l1 st1 s1, op.run l st = some (l1, st1) ∧ Holds st1 l1 s1 ∧ ∀ e ∈ s1, e ≠ none := by
  have hsz := h.size
  cases op with
  | insert i d =>
    by_cases hg : 0 ≤ i ∧ i ≤ (l.size : Int) ∧ d ≠ none
    · obtain ⟨h0, h1, h2⟩ := hg
      obtain ⟨k, rfl⟩ := Int.eq_ofNat_of_zero_le h0
      obtain ⟨x, rfl⟩ := Option.ne_none_iff_exists'.1 h2
      obtain ⟨st1, e1, h3, _⟩ := h.insert k (by omega) x
      refine ⟨_, st1, _, ?_, h3, ?_⟩
      · simp [Op.run, e1]
      · intro e he
        rcases List.mem_append.1 he with h4 | h4
        · exact hs e (List.mem_of_mem_take h4)
        · rcases List.mem_cons.1 h4 with h5 | h5
          · rw [h5]; simp
          · exact hs e (List.mem_of_mem_drop h5)
    · exact ⟨l, st, s, by simp [Op.run, list_insert, hg], h, hs⟩
  | push_front d =>
    cases d with
    | none => exact ⟨l, st, s, by simp [Op.run, list_push_front], h, hs⟩
    | some x =>
      obtain ⟨st1, e1, h1, _⟩ := h.push_front x
      refine ⟨_, st1, _, by simp [Op.run, e1], h1, ?_⟩
      intro e he
      rcases List.mem_cons.1 he with h5 | h5
      · rw [h5]; simp
      · exact hs e h5
  | push_back d =>
    cases d with
    | none => exact ⟨l, st, s, by simp [Op.run, list_push_back], h, hs⟩
    | some x =>
      obtain ⟨st1, e1, h1, _⟩ := h.push_back x
      refine ⟨_, st1, _, by simp [Op.run, e1], h1, ?_⟩
      intro e he
      rcases List.mem_append.1 he with h5 | h5
      · exact hs e h5
      · rw [List.mem_singleton.1 h5]; simp
  | pop_front =>
    cases s with
    | nil =>
      have h0 : l.size = 0 := by simpa using hsz
      exact ⟨l, st, [], by simp [Op.run, list_pop_front, h0], h, hs⟩
    | cons e s =>
      obtain ⟨st1, e1, h1, _⟩ := h.pop_front
      exact ⟨_, st1, _, by simp [Op.run, e1], h1, fun x hx => hs x (List.mem_cons_of_mem _ hx)⟩
  | pop_back =>
    rcases List.eq_nil_or_concat s with rfl | ⟨s1, e, rfl⟩
    · have h0 : l.size = 0 := by simpa using hsz
      exact ⟨l, st, [], by simp [Op.run, list_pop_back, h0], h, hs⟩
    · have h' : Holds st l (s1 ++ [e]) := by simpa using h
      obtain ⟨st1, e1, h1, _⟩ := h'.pop_back
      refine ⟨_, st1, _, by simp [Op.run, e1], h1, ?_⟩
      intro x hx
      exact hs x (by simp [hx])
  | remove i =>
    by_cases hg : 0 ≤ i ∧ i < (l.size : Int)
    · obtain ⟨h0, h1⟩ := hg
      obtain ⟨k, rfl⟩ := Int.eq_ofNat_of_zero_le h0
      obtain ⟨st1, e1, h3, _⟩ := h.remove k (by omega)
      exact ⟨_, st1, _, by simp [Op.run, e1], h3,
        fun x hx => hs x (List.mem_of_mem_eraseIdx hx)⟩
    · refine ⟨l, st, s, ?_, h, hs⟩
      have hg2 : ¬ (0 ≤ i ∧ i < (l.size : Int) ∧ l.size > 0) := fun hc => hg ⟨hc.1, hc.2.1⟩
      simp [Op.run, list_remove, hg2]
  | set i d => simp [Op.not_set] at hop

theorem Holds.run_ops_nonnull (ops : List Op) :
    ∀ {st : Store} {l : list_t} {s : List T}, Holds st l s → (∀ e ∈ s, e ≠ none) →
    ops.all Op.not_set = true →
    ∃ l2 st2 n m s2, COOP.run_ops ops l st = some (l2, st2, n, m) ∧ Holds st2 l2 s2 ∧
      ∀ e ∈ s2, e ≠ none := by
  induction ops with
  | nil =>
    intro st l s h hs _
    exact ⟨l, st, 0, 0, s, rfl, h, hs⟩
  | cons op ops ih =>
    intro st l s h hs hall
    simp only [List.all_cons, Bool.and_eq_true] at hall
    obtain ⟨l1, st1, s1, e1, h1, hs1⟩ := h.run_op_nonnull hs op hall.1
    obtain ⟨l2, st2, n, m, s2, e2, h2, hs2⟩ := ih h1 hs1 hall.2
    refine ⟨l2, st2, n + (if op.is_push l.size then 1 else 0),
      m + (if op.is_pop l.size then 1 else 0), s2, ?_, h2, hs2⟩
    simp [COOP.run_ops, e1, e2]

/-- C39 (null through set): on a list holding `s` and for a valid index `k`, `list_insert`
with the null handle changes nothing, whereas `list_set` with the null handle calls the
destruction policy on the old handle and stores null, after which `list_get` at `k` returns
null, the value it also returns for the out-of-range index `size`.  A list created by
`list_create` and changed only by insert, push, pop and remove calls holds no null handle:
`list_get` returns a non-null handle at every index below the size. -/
theorem C39_set_null (st : Store) (l : list_t) (s : List T) (h : Holds st l s)
    (k : Nat) (hk : k < s.length)
    (compare_default : compare_t) (destroy_default : destroy_t)
    (data_type : data_type_t) (compare : Option compare_t) (destroy : Option destroy_t)
    (st0 : Store) (hv : is_valid_cino_data_type data_type = true)
    (ops : List Op) (hops : ops.all Op.not_set = true) :
    (list_insert (some l) (k : Int) none st = some (some l, st) ∧
      ∃ st1, list_set (some l) (k : Int) none st = some st1 ∧
        st1.log = st.log ++ [Event.destroy l.destroy s[k]] ∧
        Holds st1 l (s.set k none) ∧
        list_get (some l) (k : Int) st1 = some none ∧
        list_get (some l) (list_size (some l) : Int) st1 = some none) ∧
    (∃ l1 st1 l2 st2 n m s2,
      list_create compare_default destroy_default data_type compare destroy st0
        = some (some l1, st1) ∧
      run_ops ops l1 st1 = some (l2, st2, n, m) ∧ Holds st2 l2 s2 ∧
      (∀ e ∈ s2, e ≠ none) ∧
      ∀ i : Nat, i < list_size (some l2) →
        ∃ x, list_get (some l2) (i : Int) st2 = some (some x)) := by
  constructor
  · refine ⟨by simp [list_insert], ?_⟩
    obtain ⟨st1, e1, h1, hlog⟩ := h.set k hk none
    have hk2 : k < (s.set k none).length := by simpa using hk
    have hget := h1.get k hk2
    refine ⟨st1, e1, hlog, h1, ?_, ?_⟩
    · rw [hget]
      simp
    · simp [list_get, list_size]
  · obtain ⟨st1, e1, hc, _, _⟩ :=
      create_chain compare_default destroy_default data_type compare destroy st0 hv
    have h0 : Holds st1 _ [] := ⟨_, _, [], hc, rfl⟩
    obtain ⟨l2, st2, n, m, s2, e2, h2, hs2⟩ :=
      Holds.run_ops_nonnull ops h0 (by simp) hops
    refine ⟨_, st1, l2, st2, n, m, s2, e1, e2, h2, hs2, ?_⟩
    intro i hi
    have hsz := h2.size
    simp only [list_size] at hi hsz
    have hi2 : i < s2.length := by omega
    have hget := h2.get i hi2
    obtain ⟨x, hx⟩ := Option.ne_none_iff_exists'.1 (hs2 s2[i] (List.getElem_mem hi2))
    exact ⟨x, by rw [hget, hx]⟩

theorem C39_set_null_witness :
    Holds abc_store abc_list [some 97, some 98, some 99] ∧
    1 < [some 97, some 98, some 99].length ∧
    is_valid_cino_data_type DATA_TYPE_INT = true ∧
    [Op.push_back (some 5), Op.push_front none, Op.insert 1 (some 6), Op.pop_front].all
      Op.not_set = true ∧
    (list_insert (some abc_list) ((1 : Nat) : Int) none abc_store
        = some (some abc_list, abc_store) ∧
      ∃ st1, list_set (some abc_list) ((1 : Nat) : Int) none abc_store = some st1 ∧
        st1.log = abc_store.log
          ++ [Event.destroy abc_list.destroy ([some 97, some 98, some 99].get ⟨1, by decide⟩)] ∧
        Holds st1 abc_list ([some 97, some 98, some 99].set 1 none) ∧
        list_get (some abc_list) ((1 : Nat) : Int) st1 = some none ∧
        list_get (some abc_list) (list_size (some abc_list) : Int) st1 = some none) ∧
    (∃ l1 st1 l2 st2 n m s2,
      list_create sample_compare 7 DATA_TYPE_INT none none ⟨[], []⟩ = some (some l1, st1) ∧
      run_ops [Op.push_back (some 5), Op.push_front none, Op.insert 1 (some 6), Op.pop_front]
        l1 st1 = some (l2, st2, n, m) ∧ Holds st2 l2 s2 ∧
      (∀ e ∈ s2, e ≠ none) ∧
      ∀ i : Nat, i < list_size (some l2) →
        ∃ x, list_get (some l2) (i : Int) st2 = some (some x)) :=
  ⟨abc_holds, by decide, by decide, by decide,
    C39_set_null abc_store abc_list _ abc_holds 1 (by decide) sample_compare 7 DATA_TYPE_INT
      none none ⟨[], []⟩ (by decide)
      [Op.push_back (some 5), Op.push_front none, Op.insert 1 (some 6), Op.pop_front]
      (by decide)⟩

theorem count_positions_nil (sub : List Nat) (hne : sub ≠ []) : count_positions sub [] = 0 := by
  obtain ⟨a, p, rfl⟩ := List.exists_cons_of_ne_nil hne
  rfl

theorem count_positions_cons (sub : List Nat) (c : Nat) (cs : List Nat) :
    count_positions sub (c :: cs)
      = (if match_at sub (c :: cs) then 1 else 0) + count_positions sub cs := by
  simp only [count_positions, List.length_cons]
  rw [List.range_succ_eq_map, List.countP_cons, List.countP_map]
  simp only [List.drop_zero]
  rw [Nat.add_comm]
  congr 1

theorem find_sub_none_count (sub : List Nat) (hne : sub ≠ []) :
    ∀ s, find_sub sub s = none → count_positions sub s = 0 := by
  intro s
  induction s with
  | nil => intro _; exact count_positions_nil sub hne
  | cons c cs ih =>
    intro h
    simp only [find_sub] at h
    cases hm : match_at sub (c :: cs) with
    | true => simp [hm] at h
    | false =>
      simp only [hm, Bool.false_eq_true, if_false, Option.map_eq_none'] at h
      rw [count_positions_cons, hm, ih h]
      rfl

theorem find_sub_some_count (sub : List Nat) (hne : sub ≠ []) :
    ∀ (s : List Nat) (i : Nat), find_sub sub s = some i →
      i < s.length ∧ count_positions sub s = 1 + count_positions sub (s.drop (i + 1)) := by
  intro s
  induction s with
  | nil =>
    intro i h
    obtain ⟨a, p, rfl⟩ := List.exists_cons_of_ne_nil hne
    simp [find_sub, match_at] at h
  | cons c cs ih =>
    intro i h
    simp only [find_sub] at h
    cases hm : match_at sub (c :: cs) with
    | true =>
      simp only [hm, if_true, Option.some.injEq] at h
      subst h
      refine ⟨by simp, ?_⟩
      rw [count_positions_cons, hm]
      rfl
    | false =>
      simp only [hm, Bool.false_eq_true, if_false, Option.map_eq_some'] at h
      obtain ⟨j, hj, hij⟩ := h
      obtain ⟨hlt, hcnt⟩ := ih j hj
      subst hij
      refine ⟨by simp only [List.length_cons]; omega, ?_⟩
      rw [count_positions_cons, hm, hcnt]
      simp

theorem count_loop_spec (s0 sub : List Nat) (hne : sub ≠ []) :
    ∀ (fuel p count : Nat), p < s0.length → s0.length - p ≤ fuel →
      coop_utils.str_count_substring_loop s0 sub fuel p count
        = some (count + 1 + count_positions sub (s0.drop (p + 1))) := by
  intro fuel
  induction fuel with
  | zero => intro p count hp hf; omega
  | succ fuel ih =>
    intro p count hp hf
    have hg : p + 1 ≤ s0.length := hp
    cases hfs : find_sub sub (s0.drop (p + 1)) with
    | none =>
      simp only [coop_utils.str_count_substring_loop, hg, if_true, hfs,
        find_sub_none_count sub hne _ hfs, Nat.add_zero]
    | some i =>
      obtain ⟨hlt, hcnt⟩ := find_sub_some_count sub hne _ i hfs
      simp only [List.length_drop] at hlt
      have hrec := ih (p + 1 + i) (count + 1) (by omega) (by omega)
      have hdd : (s0.drop (p + 1)).drop (i + 1) = s0.drop (p + 1 + i + 1) := by
        rw [List.drop_drop, Nat.add_assoc (p + 1) i 1]
      simp only [coop_utils.str_count_substring_loop, hg, if_true, hfs, hrec,
        Option.some.injEq]
      rw [hcnt, hdd]
      omega

/-- C31: for a string `s`, a non-empty `substr` and every loop budget of at least the
length of `s`, `str_count_substring` of `coop_utils` returns the number of positions of `s`
at which `substr` occurs (`count_positions`, overlapping occurrences each counted); it
returns 0 for the empty `substr` and when either argument is null. -/
theorem C31_str_count_substring (s sub : List Nat) (fuel : Nat) (hne : sub ≠ [])
    (hfuel : s.length ≤ fuel) (str substr : Option (List Nat)) :
    coop_utils.str_count_substring fuel (some s) (some sub) = some (count_positions sub s) ∧
    coop_utils.str_count_substring fuel str (some []) = some 0 ∧
    coop_utils.str_count_substring fuel none substr = some 0 ∧
    coop_utils.str_count_substring fuel str none = some 0 := by
  have hpos : sub.length > 0 := List.length_pos.2 hne
  refine ⟨?_, ?_, ?_, ?_⟩
  · simp only [coop_utils.str_count_substring, hpos, if_true]
    cases hfs : find_sub sub s with
    | none => simp only [find_sub_none_count sub hne s hfs]
    | some i =>
      obtain ⟨hlt, hcnt⟩ := find_sub_some_count sub hne s i hfs
      simp only [count_loop_spec s sub hne fuel i 0 hlt (by omega), hcnt, Option.some.injEq]
  · cases str <;> simp [coop_utils.str_count_substring]
  · cases substr <;> simp [coop_utils.str_count_substring]
  · cases str <;> simp [coop_utils.str_count_substring]

theorem C31_str_count_substring_witness :
    [97, 97] ≠ ([] : List Nat) ∧ [97, 97, 97, 98, 97, 97].length ≤ 6 ∧
    count_positions [97, 97] [97, 97, 97, 98, 97, 97] = 3 ∧
    (coop_utils.str_count_substring 6 (some [97, 97, 97, 98, 97, 97]) (some [97, 97])
      = some (count_positions [97, 97] [97, 97, 97, 98, 97, 97]) ∧
    coop_utils.str_count_substring 6 (some [97]) (some []) = some 0 ∧
    coop_utils.str_count_substring 6 none (some [97]) = some 0 ∧
    coop_utils.str_count_substring 6 (some [97]) none = some 0) :=
  ⟨by decide, by decide, by decide,
    C31_str_count_substring [97, 97, 97, 98, 97, 97] [97, 97] 6 (by decide) (by decide)
      (some [97]) (some [97])⟩

theorem reverse_loop_spec (b0 : Buf) (len : Nat) (hlen : len ≤ b0.length) :
    ∀ (n i : Nat) (b : Buf), i + n = len / 2 → b.length = b0.length →
      (∀ j, b[j]? = if j < i ∨ (len - i ≤ j ∧ j < len) then b0[len - 1 - j]? else b0[j]?) →
      ∃ b1, coop_utils.str_reverse_loop len n i b = some b1 ∧ b1.length = b0.length ∧
        ∀ j, b1[j]? = if j < len / 2 ∨ (len - len / 2 ≤ j ∧ j < len) then b0[len - 1 - j]?
          else b0[j]? := by
  intro n
  induction n with
  | zero =>
    intro i b hi hl hinv
    have : i = len / 2 := by omega
    subst this
    exact ⟨b, rfl, hl, hinv⟩
  | succ n ih =>
    intro i b hi hl hinv
    have hi1 : i < len := by omega
    have hk1 : len - i - 1 < len := by omega
    have hbi : b[i]? = some (b0.get ⟨i, by omega⟩) := by
      rw [hinv i, if_neg (by omega)]
      exact List.getElem?_eq_getElem _
    have hbk : b[len - i - 1]? = some (b0.get ⟨len - i - 1, by omega⟩) := by
      rw [hinv (len - i - 1), if_neg (by omega)]
      exact List.getElem?_eq_getElem _
    have hstep : coop_utils.str_reverse_loop len (n + 1) i b
        = coop_utils.str_reverse_loop len n (i + 1)
            ((b.set i (b0.get ⟨len - i - 1, by omega⟩)).set (len - i - 1)
              (b0.get ⟨i, by omega⟩)) := by
      simp only [coop_utils.str_reverse_loop, hbi, hbk]
    rw [hstep]
    apply ih (i + 1) _ (by omega) (by simp only [List.length_set]; exact hl)
    intro j
    rw [List.getElem?_set, List.getElem?_set]
    simp only [List.length_set]
    by_cases h1 : len - i - 1 = j
    · rw [if_pos h1, if_pos (by omega), if_pos (by omega)]
      have e : len - 1 - j = i := by omega
      rw [e]
      exact (List.getElem?_eq_getElem _).symm
    · rw [if_neg h1]
      by_cases h2 : i = j
      · rw [if_pos h2, if_pos (by omega), if_pos (by omega)]
        have e : len - 1 - j = len - i - 1 := by omega
        rw [e]
        exact (List.getElem?_eq_getElem _).symm
      · rw [if_neg h2, hinv j]
        by_cases hc : j < i ∨ (len - i ≤ j ∧ j < len)
        · rw [if_pos hc, if_pos (by omega)]
        · rw [if_neg hc, if_neg (by omega)]

theorem reverse_core (s pad : List Nat) (hz : 0 ∉ s) :
    coop_utils.str_reverse (some (s ++ 0 :: pad)) = some (some (s.reverse ++ 0 :: pad)) := by
  have hlen : c_strlen (s ++ 0 :: pad) 0 = some s.length := by
    have := c_strlen_at [] s pad hz
    simpa using this
  obtain ⟨b1, hloop, hl1, hinv⟩ := reverse_loop_spec (s ++ 0 :: pad) s.length (by simp)
    (s.length / 2) 0 (s ++ 0 :: pad) (by omega) rfl (by
      intro j
      rw [if_neg (by omega)])
  have hb1 : b1 = s.reverse ++ 0 :: pad := by
    apply List.ext_getElem?
    intro j
    rw [hinv j]
    by_cases hj : j < s.length
    · have hr : (s.reverse ++ 0 :: pad)[j]? = s[s.length - 1 - j]? := by
        rw [List.getElem?_append_left (by simpa using hj), List.getElem?_reverse hj]
      rw [hr]
      by_cases hc : j < s.length / 2 ∨ (s.length - s.length / 2 ≤ j ∧ j < s.length)
      · rw [if_pos hc, List.getElem?_append_left (by omega)]
      · rw [if_neg hc, List.getElem?_append_left hj]
        have e : s.length - 1 - j = j := by omega
        rw [e]
    · rw [if_neg (by omega), List.getElem?_append_right (by omega),
        List.getElem?_append_right (by simp only [List.length_reverse]; omega),
        List.length_reverse]
  simp only [coop_utils.str_reverse, hlen, hloop, Option.map_some', hb1]

/-- C32: on a buffer holding the NUL-terminated string `s`, `str_reverse` returns the
buffer holding the characters of `s` in reverse order, of the same length and with the
terminator and the bytes after it untouched; reversing the result gives back the buffer it
started from. -/
theorem C32_str_reverse (s pad : List Nat) (hz : 0 ∉ s) :
    ∃ b1, coop_utils.str_reverse (some (s ++ 0 :: pad)) = some (some b1) ∧
      b1 = s.reverse ++ 0 :: pad ∧
      c_str b1 0 = some s.reverse ∧ s.reverse.length = s.length ∧
      coop_utils.str_reverse (some b1) = some (some (s ++ 0 :: pad)) := by
  have hzr : 0 ∉ s.reverse := by simpa using hz
  refine ⟨_, reverse_core s pad hz, rfl, c_str_at [] s.reverse pad hzr,
    List.length_reverse s, ?_⟩
  rw [reverse_core s.reverse pad hzr, List.reverse_reverse]

theorem C32_str_reverse_witness :
    (0 : Nat) ∉ [97, 98, 99, 100, 101] ∧
    ∃ b1, coop_utils.str_reverse (some ([97, 98, 99, 100, 101] ++ 0 :: [7])) = some (some b1) ∧
      b1 = [97, 98, 99, 100, 101].reverse ++ 0 :: [7] ∧
      c_str b1 0 = some [97, 98, 99, 100, 101].reverse ∧
      [97, 98, 99, 100, 101].reverse.length = [97, 98, 99, 100, 101].length ∧
      coop_utils.str_reverse (some b1) = some (some ([97, 98, 99, 100, 101] ++ 0 :: [7])) :=
  ⟨by decide, C32_str_reverse [97, 98, 99, 100, 101] [7] (by decide)⟩

end COOP
